import Mathlib

/-!
# PhotoPrism: the moments worker and the text converters

A shallow embedding of `internal/photoprism/moments.go` (`Moments.Start`) and of
`pkg/txt/convert.go` (`Time`, `Int`, `Year`, `CountryCode`), with the properties
of the design document stated and proved over the embedding.

Conventions.
* Go `int` values are `Int`; `int` is taken as 64 bits wide, and the one sum
  that can leave that range, the index size, wraps around.
* Go `float64` values are the rationals they denote, every operation rounded to
  53 significant bits, ties to even; `math.Log2` follows the portable Go code.
* Go strings handed to the regular expressions are byte lists (`List Nat`).
* Collaborators whose code is not part of the two files (queries, the album
  entity, the search form, the word helpers) are fields of an environment `Env`
  or are modelled from the design document, each marked as such; the table
  `Countries` and `strings.ToLower` are parameters of `txt.CountryCode`.
-/

namespace photoprism

/-! ## Threshold (moments.go, lines 53-59)

The threshold is computed in float64 by `math.Log2` of the Go standard library.
The library function is embedded from its portable Go source (`math/log10.go`,
`math/log.go`, `math/frexp.go`), with float64 values as rationals. For an index
size above 4 every intermediate result is zero or a normal float64 number (the
least in magnitude is above `2^-220`), so the bounded exponent of the format
plays no part and rounding is to 53 significant bits throughout. -/

/-- The value of the Go conversion `float64(n)` for a natural number `n`, as the
integer it denotes: `n` itself below `2^53`, otherwise `n` rounded to 53
significant bits, ties to the even significand (IEEE 754 binary64). -/
def toFloat64 (n : Nat) : Nat :=
  if n < 2 ^ 53 then n
  else
    let e := Nat.log 2 n - 52
    let q := n / 2 ^ e
    let r := n % 2 ^ e
    let half := 2 ^ (e - 1)
    if half < r ∨ (r = half ∧ q % 2 = 1) then (q + 1) * 2 ^ e else q * 2 ^ e

/-- Rounds a rational to the nearest integer, ties to the even one. -/
def roundHalfEven (m : ℚ) : ℤ :=
  if m - ⌊m⌋ < 1 / 2 then ⌊m⌋
  else if 1 / 2 < m - ⌊m⌋ then ⌊m⌋ + 1
  else if ⌊m⌋ % 2 = 0 then ⌊m⌋ else ⌊m⌋ + 1

/-- The float64 nearest to a rational, ties to the even significand (IEEE 754
binary64 with 53 significant bits; the exponent range is not bounded). -/
def roundFloat64 (q : ℚ) : ℚ :=
  if q = 0 then 0
  else (roundHalfEven (q / 2 ^ (Int.log 2 |q| - 52)) : ℚ) * 2 ^ (Int.log 2 |q| - 52)

/-- The value is a float64: a significand of at most 53 bits times a power of
two (the exponent range is not bounded). -/
def IsFloat64 (v : ℚ) : Prop := ∃ z t : ℤ, |z| < 2 ^ 53 ∧ v = (z : ℚ) * 2 ^ t

/-- `Ln2Hi = 6.93147180369123816490e-01` (`3fe62e42 fee00000`), a constant of
`math.log`. -/
def math.Ln2Hi : ℚ := 2977044471 / 2 ^ 32

/-- `Ln2Lo = 1.90821492927058770002e-10` (`3dea39ef 35793c76`). -/
def math.Ln2Lo : ℚ := 3691024475790907 / 2 ^ 84

/-- `L1 = 6.666666666666735130e-01` (`3FE55555 55555593`). -/
def math.L1 : ℚ := 6004799503160723 / 2 ^ 53

/-- `L2 = 3.999999999940941908e-01` (`3FD99999 9997FA04`). -/
def math.L2 : ℚ := 1801439850921601 / 2 ^ 52

/-- `L3 = 2.857142874366239149e-01` (`3FD24924 94229359`). -/
def math.L3 : ℚ := 5146971033736025 / 2 ^ 54

/-- `L4 = 2.222219843214978396e-01` (`3FCC71C5 1D8E78AF`). -/
def math.L4 : ℚ := 8006390766270639 / 2 ^ 55

/-- `L5 = 1.818357216161805012e-01` (`3FC74664 96CB03DE`). -/
def math.L5 : ℚ := 3275661152453103 / 2 ^ 54

/-- `L6 = 1.531383769920937332e-01` (`3FC39A09 D078C69F`). -/
def math.L6 : ℚ := 5517391500461727 / 2 ^ 55

/-- `L7 = 1.479819860511658591e-01` (`3FC2F112 DF3E5244`). -/
def math.L7 : ℚ := 1332903234475153 / 2 ^ 53

/-- The constant `Sqrt2/2` as a float64 (`3FE6A09E 667F3BCD`). -/
def math.Sqrt2Half : ℚ := 6369051672525773 / 2 ^ 53

/-- The constant `1/Ln2` as a float64 (`3FF71547 652B82FE`). -/
def math.InvLn2 : ℚ := 3248660424278399 / 2 ^ 51

/-- `math.Frexp` for a finite float64: the fraction in `[1/2, 1)` and the
exponent with `x = frac * 2^exp`; `(0, 0)` for zero. -/
def math.Frexp (x : ℚ) : ℚ × ℤ :=
  if x = 0 then (0, 0) else (x / 2 ^ (Int.log 2 |x| + 1), Int.log 2 |x| + 1)

/-- `math.log` (the portable implementation of `math.Log` in the Go standard
library, log.go) for a finite float64 `x > 0`, statement by statement; every
operation rounds to float64. -/
def math.Log (x : ℚ) : ℚ :=
  let fr := math.Frexp x
  let f1 := if fr.1 < math.Sqrt2Half then roundFloat64 (fr.1 * 2) else fr.1
  let ki := if fr.1 < math.Sqrt2Half then fr.2 - 1 else fr.2
  let f := roundFloat64 (f1 - 1)
  let k : ℚ := (ki : ℚ)
  let s := roundFloat64 (f / roundFloat64 (2 + f))
  let s2 := roundFloat64 (s * s)
  let s4 := roundFloat64 (s2 * s2)
  let t1 := roundFloat64 (s2 * roundFloat64 (math.L1 + roundFloat64 (s4 *
    roundFloat64 (math.L3 + roundFloat64 (s4 *
      roundFloat64 (math.L5 + roundFloat64 (s4 * math.L7)))))))
  let t2 := roundFloat64 (s4 * roundFloat64 (math.L2 + roundFloat64 (s4 *
    roundFloat64 (math.L4 + roundFloat64 (s4 * math.L6)))))
  let R := roundFloat64 (t1 + t2)
  let hfsq := roundFloat64 (roundFloat64 (1 / 2 * f) * f)
  roundFloat64 (roundFloat64 (k * math.Ln2Hi) -
    roundFloat64 (roundFloat64 (hfsq -
      roundFloat64 (roundFloat64 (s * roundFloat64 (hfsq + R)) +
        roundFloat64 (k * math.Ln2Lo))) - f))

/-- `math.log2` (log10.go) for a finite float64 `x > 0`:
`frac, exp := Frexp(x); if frac == 0.5 { return float64(exp - 1) };
return Log(frac)*(1/Ln2) + float64(exp)`. The special cases of the library (NaN,
infinities, zero, negative arguments) do not arise for such an `x`. -/
def math.Log2 (x : ℚ) : ℚ :=
  let fr := math.Frexp x
  if fr.1 = 1 / 2 then ((fr.2 - 1 : ℤ) : ℚ)
  else roundFloat64 (roundFloat64 (math.Log fr.1 * math.InvLn2) + (fr.2 : ℚ))

/-- The Go conversion `int(x)` of a float64: the fraction is discarded. -/
def truncate (q : ℚ) : ℤ := if 0 ≤ q then ⌊q⌋ else ⌈q⌉

/-- The value of `int(math.Log2(x))` for a float64 `x` that is a natural number
`≥ 1`: the library function of the Go standard library, then the conversion. -/
def intLog2 (x : Nat) : Int := truncate (math.Log2 (x : ℚ))

/-- The value of `s` in `math.log`: `s := f / (2 + f)`. -/
def math.logS (f : ℚ) : ℚ := roundFloat64 (f / roundFloat64 (2 + f))

/-- The value of `R` in `math.log`, from `s`. -/
def math.logR (s : ℚ) : ℚ :=
  let s2 := roundFloat64 (s * s)
  let s4 := roundFloat64 (s2 * s2)
  let t1 := roundFloat64 (s2 * roundFloat64 (math.L1 + roundFloat64 (s4 *
    roundFloat64 (math.L3 + roundFloat64 (s4 *
      roundFloat64 (math.L5 + roundFloat64 (s4 * math.L7)))))))
  let t2 := roundFloat64 (s4 * roundFloat64 (math.L2 + roundFloat64 (s4 *
    roundFloat64 (math.L4 + roundFloat64 (s4 * math.L6)))))
  roundFloat64 (t1 + t2)

/-- The value of `hfsq` in `math.log`: `hfsq := 0.5 * f * f`. -/
def math.logHfsq (f : ℚ) : ℚ := roundFloat64 (roundFloat64 (1 / 2 * f) * f)

/-- The value that `math.log` returns, from `k` and `f`:
`k*Ln2Hi - ((hfsq - (s*(hfsq+R) + k*Ln2Lo)) - f)`. -/
def math.logCompute (k f : ℚ) : ℚ :=
  roundFloat64 (roundFloat64 (k * math.Ln2Hi) -
    roundFloat64 (roundFloat64 (math.logHfsq f -
      roundFloat64 (roundFloat64 (math.logS f *
          roundFloat64 (math.logHfsq f + math.logR (math.logS f))) +
        roundFloat64 (k * math.Ln2Lo))) - f))

/-- The minimum-count threshold of `Moments.Start`:
`threshold := 3; if indexSize > 4 { threshold = int(math.Log2(float64(indexSize))) + 1 }`. -/
def threshold (indexSize : Int) : Int :=
  if indexSize > 4 then intLog2 (toFloat64 indexSize.toNat) + 1 else 3

/-! ## Collaborators of the moments worker -/

/-- The album types used by the worker (`entity.TypeFolder`, `entity.TypeMoment`,
`entity.TypeMonth`) and the type of ordinary albums. The constants are declared
outside the two files; they are pairwise distinct. -/
inductive AlbumType where
  | TypeDefault
  | TypeFolder
  | TypeMoment
  | TypeMonth
  deriving DecidableEq, Repr

/-- The fields of `entity.Album` that `Moments.Start` reads or writes.
`DeletedAt` is the soft-delete marker: `some t` when the album is deleted. -/
structure Album where
  AlbumSlug : String
  AlbumType : AlbumType
  AlbumTitle : String
  AlbumFilter : String
  AlbumYear : Int
  AlbumMonth : Int
  AlbumCountry : String
  DeletedAt : Option Nat
  deriving DecidableEq, Repr

/-- The fields of `form.PhotoSearch` that `Moments.Start` sets, with `Query`,
the text that `form.ParseQueryString` reads. -/
structure PhotoSearch where
  Query : String
  Path : String
  Country : String
  State : String
  Year : Int
  Month : Int
  Label : String
  deriving DecidableEq, Repr

/-- The search form with every field at its Go zero value. -/
def PhotoSearch.zero : PhotoSearch :=
  { Query := "", Path := "", Country := "", State := "", Year := 0, Month := 0, Label := "" }

/-- A folder candidate as returned by `query.AlbumFolders`; `Title` and `Slug`
hold the values of the methods `Title()` and `Slug()`. -/
structure Folder where
  Path : String
  Title : String
  Slug : String
  FolderYear : Int
  FolderMonth : Int
  FolderCountry : String
  deriving DecidableEq, Repr

/-- A candidate as returned by `query.MomentsTime`, `MomentsCountries`,
`MomentsStates` and `MomentsLabels`; `Title` and `Slug` hold the values of the
methods `Title()` and `Slug()`. -/
structure Moment where
  Label : String
  Country : String
  State : String
  Year : Int
  Month : Int
  Title : String
  Slug : String
  deriving DecidableEq, Repr

/-- What a dimension query does: it returns candidates, returns an error, or
fails internally (a Go panic). -/
inductive QueryResult (α : Type) where
  | ok (results : List α)
  | failed (err : String)
  | panicked

/-- What `Create` or `Update` does: it succeeds, returns an error, or fails
internally (a Go panic). -/
inductive Outcome where
  | ok
  | failed (err : String)
  | panicked
  deriving DecidableEq, Repr

/-- The collaborators of `Moments.Start` whose code is outside the two files.
Queries depend on the catalog only, so they are functions of their argument;
`create` and `update` may depend on the album collection they act on.
`parseQueryString f` is `form.ParseQueryString(&f)`: the form as the call
leaves it, and the error it returns, if any. `albumOk` tells whether the album
constructors return a non-nil album for a title, slug and filter. -/
structure Env where
  photos : Int
  videos : Int
  albumFolders : Int → QueryResult Folder
  momentsTime : Int → QueryResult Moment
  momentsCountries : Int → QueryResult Moment
  momentsStates : Int → QueryResult Moment
  momentsLabels : Int → QueryResult Moment
  serialize : PhotoSearch → String
  parseQueryString : PhotoSearch → PhotoSearch × Option String
  words : String → List String
  uniqueWords : List String → List String
  albumOk : String → String → String → Bool
  create : List Album → Album → Outcome
  update : List Album → Album → String → Outcome

/-- A call that `Moments.Start` makes to a collaborator. -/
inductive Call where
  | countsRefresh
  | albumFolders (minCount : Int)
  | momentsTime (minCount : Int)
  | momentsCountries (threshold : Int)
  | momentsStates (threshold : Int)
  | momentsLabels (threshold : Int)
  | create (a : Album)
  | update (a : Album) (filter : String)
  deriving DecidableEq, Repr

/-- The state the worker acts on: the run guard `mutex.MainWorker`, the
persisted album collection, and the calls made so far (oldest first). -/
structure State where
  busy : Bool
  albums : List Album
  calls : List Call
  deriving DecidableEq, Repr

/-- Appends a call to the record of calls. -/
def State.record (s : State) (c : Call) : State :=
  { s with calls := s.calls ++ [c] }

/-- Whether an album has the identity `(slug, type)`. -/
def Album.hasIdentity (slug : String) (ty : photoprism.AlbumType) (a : Album) : Bool :=
  a.AlbumSlug == slug && a.AlbumType == ty

/-- Modelled from the spec: `entity.FindAlbumBySlug` is not under src/. It looks
the identity `(slug, type)` up in the persisted collection and returns the album
or nil; soft-deleted albums are found too (the caller tests `DeletedAt`). -/
def FindAlbumBySlug (albums : List Album) (slug : String) (ty : AlbumType) : Option Album :=
  albums.find? (Album.hasIdentity slug ty)

/-- Modelled from the spec: the album constructors are not under src/. A new
album is active, has the given type, title, slug and filter, and zero values
elsewhere; the constructor returns nil when `ok` is false. -/
def newAlbum (ok : Bool) (ty : AlbumType) (title slug filter : String) : Option Album :=
  if ok then
    some { AlbumSlug := slug, AlbumType := ty, AlbumTitle := title, AlbumFilter := filter,
           AlbumYear := 0, AlbumMonth := 0, AlbumCountry := "", DeletedAt := none }
  else none

/-- Modelled from the spec: `entity.NewFolderAlbum(title, slug, filter)`. -/
def NewFolderAlbum (env : Env) (title slug filter : String) : Option Album :=
  newAlbum (env.albumOk title slug filter) AlbumType.TypeFolder title slug filter

/-- Modelled from the spec: `entity.NewMomentsAlbum(title, slug, filter)`. -/
def NewMomentsAlbum (env : Env) (title slug filter : String) : Option Album :=
  newAlbum (env.albumOk title slug filter) AlbumType.TypeMoment title slug filter

/-- Modelled from the spec: `entity.NewMonthAlbum(title, slug, year, month)`; the
filter is the serialized search for that year and month. -/
def NewMonthAlbum (env : Env) (title slug : String) (year month : Int) : Option Album :=
  let filter := env.serialize { PhotoSearch.zero with Year := year, Month := month }
  (newAlbum (env.albumOk title slug filter) AlbumType.TypeMonth title slug filter).map
    fun a => { a with AlbumYear := year, AlbumMonth := month }

/-- Replaces the filter of the first album with the identity `(slug, type)`. -/
def setFilter (slug : String) (ty : AlbumType) (filter : String) : List Album → List Album
  | [] => []
  | a :: rest =>
    if a.hasIdentity slug ty then { a with AlbumFilter := filter } :: rest
    else a :: setFilter slug ty filter rest

/-- How a piece of the run ends: normally, or with a panic that unwinds to the
deferred handler of `Start`. -/
inductive Flow where
  | done (s : State)
  | panicked (s : State)
  deriving DecidableEq, Repr

/-- The state a piece of the run ends in. -/
def Flow.state : Flow → State
  | Flow.done s => s
  | Flow.panicked s => s

/-- Sequencing: the next piece runs only when no panic is unwinding. -/
def Flow.andThen (f : Flow) (k : State → Flow) : Flow :=
  match f with
  | Flow.done s => k s
  | Flow.panicked s => Flow.panicked s

/-- The call `a.Create()`: recorded, then the album is appended to the
collection when the collaborator succeeds. -/
def doCreate (env : Env) (a : Album) (s : State) : Flow :=
  let s1 := s.record (Call.create a)
  match env.create s.albums a with
  | Outcome.ok => Flow.done { s1 with albums := s.albums ++ [a] }
  | Outcome.failed _ => Flow.done s1
  | Outcome.panicked => Flow.panicked s1

/-- The call `a.Update("AlbumFilter", filter)` on an album found in the
collection: recorded, then only the filter of that album is replaced when the
collaborator succeeds. -/
def doUpdate (env : Env) (a : Album) (filter : String) (s : State) : Flow :=
  let s1 := s.record (Call.update a filter)
  match env.update s.albums a filter with
  | Outcome.ok =>
    Flow.done { s1 with albums := setFilter a.AlbumSlug a.AlbumType filter s.albums }
  | Outcome.failed _ => Flow.done s1
  | Outcome.panicked => Flow.panicked s1

/-- A `for ... range results` loop; a panic ends it. -/
def forEach {α : Type} (step : α → State → Flow) : List α → State → Flow
  | [], s => Flow.done s
  | x :: xs, s =>
    match step x s with
    | Flow.done s1 => forEach step xs s1
    | Flow.panicked s1 => Flow.panicked s1

/-- One dimension pass: the query is called; on an error the pass only logs,
otherwise every candidate is reconciled in turn. -/
def runPass {α : Type} (call : Call) (q : QueryResult α) (step : α → State → Flow)
    (s : State) : Flow :=
  match q with
  | QueryResult.ok results => forEach step results (s.record call)
  | QueryResult.failed _ => Flow.done (s.record call)
  | QueryResult.panicked => Flow.panicked (s.record call)

/-! ## Moments.Start (moments.go, lines 33-223) -/

/-- Body of the folders loop (lines 73-96). -/
def reconcileFolder (env : Env) (mom : Folder) (s : State) : Flow :=
  let f : PhotoSearch := { PhotoSearch.zero with Path := mom.Path }
  match FindAlbumBySlug s.albums mom.Slug AlbumType.TypeFolder with
  | some _ => Flow.done s
  | none =>
    match NewFolderAlbum env mom.Title mom.Slug (env.serialize f) with
    | some a =>
      doCreate env { a with AlbumYear := mom.FolderYear, AlbumMonth := mom.FolderMonth,
                            AlbumCountry := mom.FolderCountry } s
    | none => Flow.done s

/-- Body of the years-and-months loop (lines 103-118). -/
def reconcileMonth (env : Env) (mom : Moment) (s : State) : Flow :=
  match FindAlbumBySlug s.albums mom.Slug AlbumType.TypeMonth with
  | some _ => Flow.done s
  | none =>
    match NewMonthAlbum env mom.Title mom.Slug mom.Year mom.Month with
    | some a => doCreate env a s
    | none => Flow.done s

/-- Body of the countries-by-year loop (lines 125-148). -/
def reconcileCountry (env : Env) (mom : Moment) (s : State) : Flow :=
  let f : PhotoSearch := { PhotoSearch.zero with Country := mom.Country, Year := mom.Year }
  match FindAlbumBySlug s.albums mom.Slug AlbumType.TypeMoment with
  | some _ => Flow.done s
  | none =>
    match NewMomentsAlbum env mom.Title mom.Slug (env.serialize f) with
    | some a => doCreate env { a with AlbumYear := mom.Year, AlbumCountry := mom.Country } s
    | none => Flow.done s

/-- Body of the states loop (lines 155-177). -/
def reconcileState (env : Env) (mom : Moment) (s : State) : Flow :=
  let f : PhotoSearch := { PhotoSearch.zero with Country := mom.Country, State := mom.State }
  match FindAlbumBySlug s.albums mom.Slug AlbumType.TypeMoment with
  | some _ => Flow.done s
  | none =>
    match NewMomentsAlbum env mom.Title mom.Slug (env.serialize f) with
    | some a => doCreate env { a with AlbumCountry := mom.Country } s
    | none => Flow.done s

/-- The form whose serialization the labels loop writes (lines 197-203): the
candidate's form after `form.ParseQueryString(&f)`, with the label replaced by
the joined unique words when the call returned no error. -/
def mergedForm (env : Env) (mom : Moment) : PhotoSearch :=
  let f : PhotoSearch := { PhotoSearch.zero with Label := mom.Label }
  match env.parseQueryString f with
  | (f1, some _) => f1
  | (f1, none) =>
    let w := env.words f1.Label ++ [mom.Label]
    { f1 with Label := ",".intercalate (env.uniqueWords w) }

/-- Body of the labels loop (lines 184-219). -/
def reconcileLabel (env : Env) (mom : Moment) (s : State) : Flow :=
  let f : PhotoSearch := { PhotoSearch.zero with Label := mom.Label }
  match FindAlbumBySlug s.albums mom.Slug AlbumType.TypeMoment with
  | some a =>
    if env.serialize f = a.AlbumFilter ∨ a.DeletedAt ≠ none then Flow.done s
    else doUpdate env a (env.serialize (mergedForm env mom)) s
  | none =>
    match NewMomentsAlbum env mom.Title mom.Slug (env.serialize f) with
    | some a => doCreate env a s
    | none => Flow.done s

/-- The five dimension passes in source order (lines 69-220). -/
def passes (env : Env) (thr : Int) (s : State) : Flow :=
  (((((runPass (Call.albumFolders 1) (env.albumFolders 1) (reconcileFolder env) s).andThen
    (runPass (Call.momentsTime 1) (env.momentsTime 1) (reconcileMonth env))).andThen
    (runPass (Call.momentsCountries thr) (env.momentsCountries thr) (reconcileCountry env))).andThen
    (runPass (Call.momentsStates thr) (env.momentsStates thr) (reconcileState env))).andThen
    (runPass (Call.momentsLabels thr) (env.momentsLabels thr) (reconcileLabel env)))

/-- The value a Go `int` of 64 bits holds after an operation whose exact result
is `n`: the result wraps around modulo `2^64` into `[-2^63, 2^63)`. -/
def wrapInt (n : Int) : Int := (n + 2 ^ 63) % 2 ^ 64 - 2 ^ 63

/-- The index size of line 53, `counts.Photos + counts.Videos`, an addition of
Go `int` values. -/
def Env.indexSize (env : Env) : Int := wrapInt (env.photos + env.videos)

/-- The part of `Start` that runs under the guard (lines 50-222). -/
def body (env : Env) (s : State) : Flow :=
  let s1 := s.record Call.countsRefresh
  let indexSize := env.indexSize
  if indexSize < threshold indexSize then Flow.done s1
  else passes env (threshold indexSize) s1

/-- Modelled from the spec: the error of `mutex.MainWorker.Start()`, which is
not under src/ and fails exactly when a run is already active. -/
def startError : String := "already running"

/-- `Moments.Start`. The result is the returned error (`none` for nil) and the
state left behind. The guard is taken first; when that fails the error is
returned at once. Otherwise the body runs, and the deferred function releases
the guard and recovers a panic, so the named result keeps its nil value. -/
def Start (env : Env) (s : State) : Option String × State :=
  if s.busy then (some ("moments: " ++ startError), s)
  else
    let fl := body env { s with busy := true }
    (none, { fl.state with busy := false })


/-! ## Reachability of states -/

/-- Whether a call creates or updates an album with the identity `(slug, type)`. -/
def Call.touches (slug : String) (ty : AlbumType) : Call → Bool
  | Call.create a => a.hasIdentity slug ty
  | Call.update a _ => a.hasIdentity slug ty
  | _ => false

/-- Whether a call is one of the reads: the counts or a dimension query. -/
def Call.isRead : Call → Bool
  | Call.create _ => false
  | Call.update _ _ => false
  | _ => true

/-- The slugs of the label candidates that the labels query returns. -/
def labelSlugs (env : Env) (thr : Int) : List String :=
  match env.momentsLabels thr with
  | QueryResult.ok results => results.map Moment.Slug
  | _ => []

/-- The states a run can pass through, from the primitive steps it takes: a
read is recorded, an album that was not found is created, or the filter of a
found active moment album is updated for a label candidate with a slug in `L`. -/
inductive Reach (env : Env) (L : List String) (s : State) : State → Prop where
  | start : Reach env L s s
  | guard (t : State) (b : Bool) : Reach env L s t → Reach env L s { t with busy := b }
  | read (t : State) (c : Call) : Reach env L s t → c.isRead = true →
      Reach env L s (t.record c)
  | create (t : State) (a : Album) : Reach env L s t →
      FindAlbumBySlug t.albums a.AlbumSlug a.AlbumType = none → a.DeletedAt = none →
      Reach env L s (doCreate env a t).state
  | update (t : State) (a : Album) (v : String) : Reach env L s t →
      FindAlbumBySlug t.albums a.AlbumSlug AlbumType.TypeMoment = some a →
      a.DeletedAt = none → a.AlbumSlug ∈ L →
      Reach env L s (doUpdate env a v t).state

/-- An album with its filter blanked: what is left are the fields that an
update of the filter must not change. -/
def Album.clearFilter (a : Album) : Album := { a with AlbumFilter := "" }

/-- Whether a piece of the run, started in `s`, issued exactly one call and that
call was an Update. -/
def Flow.issuedUpdate (fl : Flow) (s : State) : Prop :=
  ∃ a v, fl.state.calls = s.calls ++ [Call.update a v]

/-- A query result in which an error is replaced by an empty list of candidates. -/
def QueryResult.skipFailed {α : Type} : QueryResult α → QueryResult α
  | QueryResult.failed _ => QueryResult.ok []
  | q => q

/-- The environment in which every query error is replaced by an empty result. -/
def Env.skipFailed (env : Env) : Env :=
  { env with
    albumFolders := fun n => (env.albumFolders n).skipFailed
    momentsTime := fun n => (env.momentsTime n).skipFailed
    momentsCountries := fun n => (env.momentsCountries n).skipFailed
    momentsStates := fun n => (env.momentsStates n).skipFailed
    momentsLabels := fun n => (env.momentsLabels n).skipFailed }

/-- The identity of an album: its slug and type. -/
def Album.ident (a : Album) : String × photoprism.AlbumType := (a.AlbumSlug, a.AlbumType)

/-- The candidates a query hands to its loop: its results, none on an error. -/
def QueryResult.candidates {α : Type} : QueryResult α → List α
  | QueryResult.ok results => results
  | _ => []

/-- What a pass asks for on behalf of a candidate: the type and slug it looks
up, and the title and filter it passes to the constructor. -/
structure Wanted where
  ty : AlbumType
  title : String
  slug : String
  filter : String

/-- A wanted album is pending when the lookup finds nothing and the constructor
returns an album: the pass then calls Create. -/
def Wanted.pending (env : Env) (albums : List Album) (w : Wanted) : Bool :=
  (FindAlbumBySlug albums w.slug w.ty).isNone && env.albumOk w.title w.slug w.filter

/-- What the folders pass asks for. -/
def folderWanted (env : Env) (mom : Folder) : Wanted :=
  { ty := AlbumType.TypeFolder, title := mom.Title, slug := mom.Slug,
    filter := env.serialize { PhotoSearch.zero with Path := mom.Path } }

/-- What the years-and-months pass asks for. -/
def monthWanted (env : Env) (mom : Moment) : Wanted :=
  { ty := AlbumType.TypeMonth, title := mom.Title, slug := mom.Slug,
    filter := env.serialize { PhotoSearch.zero with Year := mom.Year, Month := mom.Month } }

/-- What the countries pass asks for. -/
def countryWanted (env : Env) (mom : Moment) : Wanted :=
  { ty := AlbumType.TypeMoment, title := mom.Title, slug := mom.Slug,
    filter := env.serialize { PhotoSearch.zero with Country := mom.Country, Year := mom.Year } }

/-- What the states pass asks for. -/
def stateWanted (env : Env) (mom : Moment) : Wanted :=
  { ty := AlbumType.TypeMoment, title := mom.Title, slug := mom.Slug,
    filter := env.serialize { PhotoSearch.zero with Country := mom.Country, State := mom.State } }

/-- What the labels pass asks for. -/
def labelWanted (env : Env) (mom : Moment) : Wanted :=
  { ty := AlbumType.TypeMoment, title := mom.Title, slug := mom.Slug,
    filter := env.serialize { PhotoSearch.zero with Label := mom.Label } }

/-- A loop body that reconciles: for a pending candidate it calls Create for an
album with the identity looked up, for any other candidate it does nothing or
calls Update. -/
def Reconciles (env : Env) {α : Type} (w : α → Wanted) (step : α → State → Flow) : Prop :=
  ∀ x s,
    ((w x).pending env s.albums = true →
      ∃ a, a.ident = ((w x).slug, (w x).ty) ∧ step x s = doCreate env a s) ∧
    ((w x).pending env s.albums = false →
      step x s = Flow.done s ∨ ∃ a v, step x s = doUpdate env a v s)

/-- From state `s` to state `t` no Create was called and the identities of the
albums are the same. -/
def NoCreate (s t : State) : Prop :=
  t.albums.map Album.ident = s.albums.map Album.ident ∧
  ∃ calls, t.calls = s.calls ++ calls ∧ ∀ a, Call.create a ∉ calls

/-- No collaborator panics, and every Create persists its album. -/
def Env.steady (env : Env) : Prop :=
  (∀ n, env.albumFolders n ≠ QueryResult.panicked) ∧
  (∀ n, env.momentsTime n ≠ QueryResult.panicked) ∧
  (∀ n, env.momentsCountries n ≠ QueryResult.panicked) ∧
  (∀ n, env.momentsStates n ≠ QueryResult.panicked) ∧
  (∀ n, env.momentsLabels n ≠ QueryResult.panicked) ∧
  (∀ albums a, env.create albums a = Outcome.ok) ∧
  (∀ albums a v, env.update albums a v ≠ Outcome.panicked)

/-- The environment of a second run against the same catalog: the counts, the
five queries and the pure helpers are those of the first run, while `Create`
and `Update` are free to behave differently. -/
def Env.secondRun (env : Env) (create : List Album → Album → Outcome)
    (update : List Album → Album → String → Outcome) : Env :=
  { env with create := create, update := update }

/-- No candidate of any of the five queries is pending. -/
def Settled (env : Env) (thr : Int) (albums : List Album) : Prop :=
  (∀ x ∈ (env.albumFolders 1).candidates, (folderWanted env x).pending env albums = false) ∧
  (∀ x ∈ (env.momentsTime 1).candidates, (monthWanted env x).pending env albums = false) ∧
  (∀ x ∈ (env.momentsCountries thr).candidates,
    (countryWanted env x).pending env albums = false) ∧
  (∀ x ∈ (env.momentsStates thr).candidates, (stateWanted env x).pending env albums = false) ∧
  (∀ x ∈ (env.momentsLabels thr).candidates, (labelWanted env x).pending env albums = false)

/-! ## The helpers of the labels pass, after the design document -/

/-- Splits a text at commas and blanks into its non-empty words; `cur` holds the
word being read, last character first. -/
def splitWords : List Char → List Char → List (List Char)
  | [], [] => []
  | [], c :: cur => [(c :: cur).reverse]
  | c :: cs, cur =>
    if c = ',' ∨ c = ' ' then
      (if cur = [] then splitWords cs [] else cur.reverse :: splitWords cs [])
    else splitWords cs (c :: cur)

/-- Modelled from the spec: `txt.Words` is not under src/. It tokenizes the label
field of a filter into its word list. -/
def specWords (s : String) : List String :=
  (splitWords s.toList []).map String.mk

/-- Lower case of an ASCII letter; other characters are kept. -/
def lowerChar (c : Char) : Char :=
  if 'A' ≤ c ∧ c ≤ 'Z' then Char.ofNat (c.toNat + 32) else c

/-- A word in normal form: without blanks, in lower case. -/
def normalWord (s : String) : String :=
  String.mk ((s.toList.filter (fun c => c ≠ ' ')).map lowerChar)

/-- Modelled from the spec: `txt.UniqueWords` is not under src/. It removes
duplicates, comparing words in normal form (case and whitespace), and keeps
each word where it was first seen. -/
def specUniqueWords (ws : List String) : List String :=
  (ws.map normalWord).eraseDups

/-- One `key:value` item of a serialized filter, nothing for an empty value. -/
def filterItem (key value : String) : List String :=
  if value = "" then [] else [key ++ ":" ++ value]

/-- Modelled from the spec: `form.PhotoSearch.Serialize` is not under src/. It
renders the non-zero fields as `key:value` items in a fixed order. -/
def specSerialize (f : PhotoSearch) : String :=
  " ".intercalate
    (filterItem "q" f.Query ++ filterItem "path" f.Path ++ filterItem "country" f.Country ++
     filterItem "state" f.State ++
     (if f.Year = 0 then [] else ["year:" ++ toString f.Year]) ++
     (if f.Month = 0 then [] else ["month:" ++ toString f.Month]) ++
     filterItem "label" f.Label)

/-- Modelled from the spec: `form.ParseQueryString` is not under src/. It reads
the text held in the `Query` field of the form it is given. `Start` never sets
that field, so the text is empty there: nothing is read, the form stays as it
is and no error is returned. A form with a query text is not parsed by this
model and reports an error. -/
def specParseQueryString (f : PhotoSearch) : PhotoSearch × Option String :=
  if f.Query = "" then (f, none) else (f, some "unsupported query")

/-- An environment with the helpers above, a catalog of three photos (so the
threshold 3 is met), the given candidates, and collaborators that succeed. -/
def exampleEnv (folders : List Folder) (months countries states labels : List Moment) : Env :=
  { photos := 3
    videos := 0
    albumFolders := fun _ => QueryResult.ok folders
    momentsTime := fun _ => QueryResult.ok months
    momentsCountries := fun _ => QueryResult.ok countries
    momentsStates := fun _ => QueryResult.ok states
    momentsLabels := fun _ => QueryResult.ok labels
    serialize := specSerialize
    parseQueryString := specParseQueryString
    words := specWords
    uniqueWords := specUniqueWords
    albumOk := fun _ _ _ => true
    create := fun _ _ => Outcome.ok
    update := fun _ _ _ => Outcome.ok }

/-- A fresh state: the guard is free, nothing is persisted, nothing was called. -/
def State.empty : State := { busy := false, albums := [], calls := [] }

/-- A label candidate with the given label and slug. -/
def labelMoment (label slug : String) : Moment :=
  { Label := label, Country := "", State := "", Year := 0, Month := 0,
    Title := label, Slug := slug }

/-- A country-by-year candidate. -/
def countryMoment (country : String) (year : Int) (title slug : String) : Moment :=
  { Label := "", Country := country, State := "", Year := year, Month := 0,
    Title := title, Slug := slug }

/-- A moment album with a label filter. -/
def labelAlbum (slug filter : String) (deleted : Option Nat) : Album :=
  { AlbumSlug := slug, AlbumType := AlbumType.TypeMoment, AlbumTitle := slug,
    AlbumFilter := filter, AlbumYear := 0, AlbumMonth := 0, AlbumCountry := "",
    DeletedAt := deleted }

/-- An `Update` that fails internally whatever it is given. -/
def updatePanics (_ : List Album) (_ : Album) (_ : String) : Outcome := Outcome.panicked

/-- An `Update` whose result depends on the collection it acts on: the update of
the album `p` returns an error until the album `n` exists, and the update of
any other album fails internally as long as `p` holds the filter `label:old`. -/
def updateByState (albums : List Album) (a : Album) (_ : String) : Outcome :=
  if a.AlbumSlug = "p" then
    (if (FindAlbumBySlug albums "n" AlbumType.TypeMoment).isSome then Outcome.ok
     else Outcome.failed "locked")
  else if albums.contains (labelAlbum "p" "label:old" none) then Outcome.panicked
  else Outcome.ok

/-! ## Text converters (pkg/txt/convert.go)

Go strings are byte sequences; the regular expressions read them rune by rune
(UTF-8), and slices such as `found[1:16]` count bytes. -/

/-- The bytes of an ASCII text. -/
def ascii (s : String) : List Nat := s.toList.map Char.toNat

/-- ASCII digit `0`..`9`. -/
def isDigitByte (b : Nat) : Bool := decide (48 ≤ b) && decide (b ≤ 57)

/-- ASCII word character: digit, letter or underscore (`\w`). -/
def isWordByte (b : Nat) : Bool :=
  isDigitByte b || (decide (65 ≤ b) && decide (b ≤ 90)) || (decide (97 ≤ b) && decide (b ≤ 122)) ||
    decide (b = 95)

/-- UTF-8 continuation byte. -/
def isContByte (b : Nat) : Bool := decide (128 ≤ b) && decide (b ≤ 191)

/-- The width in bytes of the rune at the head of a byte sequence, as
`utf8.DecodeRune` reports it: 2 to 4 for a well-formed multi-byte encoding,
1 for an ASCII byte and for a byte that starts no well-formed encoding. -/
def runeWidth : List Nat → Nat
  | b0 :: b1 :: rest =>
    if b0 < 128 then 1
    else if 194 ≤ b0 ∧ b0 ≤ 223 then (if isContByte b1 then 2 else 1)
    else if 224 ≤ b0 ∧ b0 ≤ 239 then
      let lo := if b0 = 224 then 160 else 128
      let hi := if b0 = 237 then 159 else 191
      match rest with
      | b2 :: _ => if lo ≤ b1 ∧ b1 ≤ hi ∧ isContByte b2 = true then 3 else 1
      | [] => 1
    else if 240 ≤ b0 ∧ b0 ≤ 244 then
      let lo := if b0 = 240 then 144 else 128
      let hi := if b0 = 244 then 143 else 191
      match rest with
      | b2 :: b3 :: _ =>
        if lo ≤ b1 ∧ b1 ≤ hi ∧ isContByte b2 = true ∧ isContByte b3 = true then 4 else 1
      | _ => 1
    else 1
  | _ => 1

/-- The character classes that occur in the patterns of convert.go. -/
inductive CharClass where
  | digit
  | nonDigit
  | word
  | anyChar
  | byte (b : Nat)
  | oneOf (bs : List Nat)
  deriving DecidableEq, Repr

/-- Reads one rune of the class at the head of the input and returns its width
in bytes. `\D` and `.` take a whole rune; the other classes are ASCII. -/
def stepClass (c : CharClass) : List Nat → Option Nat
  | [] => none
  | b :: rest =>
    match c with
    | CharClass.digit => if isDigitByte b then some 1 else none
    | CharClass.nonDigit => if isDigitByte b then none else some (runeWidth (b :: rest))
    | CharClass.word => if isWordByte b then some 1 else none
    | CharClass.anyChar => if b = 10 then none else some (runeWidth (b :: rest))
    | CharClass.byte x => if b = x then some 1 else none
    | CharClass.oneOf xs => if b ∈ xs then some 1 else none

/-- A repeated class `c{min,max}`; `max = none` is unbounded. -/
structure Item where
  cls : CharClass
  min : Nat
  max : Option Nat
  deriving DecidableEq, Repr

/-- A pattern: a sequence of repeated classes. All patterns of convert.go have
this shape. -/
abbrev Pattern := List Item

/-- Greedy repetition with backtracking: takes one more rune of the class when
it can and the rest then matches, and stops otherwise, provided `min` is met.
`k` matches the rest of the pattern; the result is the number of bytes. -/
def matchRep (c : CharClass) (k : List Nat → Option Nat) : Nat → Nat → List Nat → Option Nat
  | min, 0, input => if min = 0 then k input else none
  | min, max + 1, input =>
    match stepClass c input with
    | some w =>
      match matchRep c k (min - 1) max (input.drop w) with
      | some r => some (r + w)
      | none => if min = 0 then k input else none
    | none => if min = 0 then k input else none

/-- Matches a pattern at the head of the input (leftmost-first semantics of the
Go `regexp` package) and returns the length of the match in bytes. -/
def matchPattern : Pattern → List Nat → Option Nat
  | [], _ => some 0
  | it :: rest, input =>
    matchRep it.cls (fun inp => matchPattern rest inp) it.min (it.max.getD input.length) input

/-- Search from successive rune positions. -/
def findFrom (p : Pattern) : Nat → List Nat → List Nat
  | 0, _ => []
  | fuel + 1, input =>
    match matchPattern p input with
    | some len => input.take len
    | none =>
      match input with
      | [] => []
      | _ :: _ => findFrom p fuel (input.drop (runeWidth input))

/-- `Regexp.Find`: the text of the leftmost match, empty (nil) when there is
none. -/
def Find (p : Pattern) (b : List Nat) : List Nat := findFrom p (b.length + 1) b

/-- Successive matches from successive positions. -/
def findAllFrom (p : Pattern) : Nat → List Nat → List (List Nat)
  | 0, _ => []
  | fuel + 1, input =>
    match matchPattern p input with
    | some (len + 1) => input.take (len + 1) :: findAllFrom p fuel (input.drop (len + 1))
    | _ =>
      match input with
      | [] => []
      | _ :: _ => findAllFrom p fuel (input.drop (runeWidth input))

/-- `Regexp.FindAll(b, -1)`: all successive non-overlapping matches (the
patterns it is used with match no empty text). -/
def FindAll (p : Pattern) (b : List Nat) : List (List Nat) := findAllFrom p (b.length + 1) b

/-- One class, exactly `n` times. -/
def Item.times (c : CharClass) (n : Nat) : Item := { cls := c, min := n, max := some n }

/-- `\D\d{4}[\-_]\d{2}[\-_]\d{2,}` -/
def DateRegexp : Pattern :=
  [Item.times CharClass.nonDigit 1, Item.times CharClass.digit 4,
   Item.times (CharClass.oneOf [45, 95]) 1, Item.times CharClass.digit 2,
   Item.times (CharClass.oneOf [45, 95]) 1, { cls := CharClass.digit, min := 2, max := none }]

/-- `\D\d{8}_\d{6}_\w+\.` -/
def DateCanonicalRegexp : Pattern :=
  [Item.times CharClass.nonDigit 1, Item.times CharClass.digit 8,
   Item.times (CharClass.byte 95) 1, Item.times CharClass.digit 6,
   Item.times (CharClass.byte 95) 1, { cls := CharClass.word, min := 1, max := none },
   Item.times (CharClass.byte 46) 1]

/-- `\D\d{4}/\d{1,2}/?\d*` -/
def DatePathRegexp : Pattern :=
  [Item.times CharClass.nonDigit 1, Item.times CharClass.digit 4,
   Item.times (CharClass.byte 47) 1, { cls := CharClass.digit, min := 1, max := some 2 },
   { cls := CharClass.byte 47, min := 0, max := some 1 },
   { cls := CharClass.digit, min := 0, max := none }]

/-- `\D\d{4}[\-_]\d{2}[\-_]\d{2}.{1,4}\d{2}\D\d{2}\D\d{2,}` -/
def DateTimeRegexp : Pattern :=
  [Item.times CharClass.nonDigit 1, Item.times CharClass.digit 4,
   Item.times (CharClass.oneOf [45, 95]) 1, Item.times CharClass.digit 2,
   Item.times (CharClass.oneOf [45, 95]) 1, Item.times CharClass.digit 2,
   { cls := CharClass.anyChar, min := 1, max := some 4 }, Item.times CharClass.digit 2,
   Item.times CharClass.nonDigit 1, Item.times CharClass.digit 2,
   Item.times CharClass.nonDigit 1, { cls := CharClass.digit, min := 2, max := none }]

/-- `\d{1,4}` -/
def DateIntRegexp : Pattern := [{ cls := CharClass.digit, min := 1, max := some 4 }]

/-- `\d{4,5}` -/
def YearRegexp : Pattern := [{ cls := CharClass.digit, min := 4, max := some 5 }]

/-- `YearMin = 1990`. -/
def YearMin : Int := 1990

/-- `YearMax = time.Now().Year() + 3`, for the current year `yearNow`. -/
def YearMax (yearNow : Int) : Int := yearNow + 3

/-- `MonthMin = 1`. -/
def MonthMin : Int := 1

/-- `MonthMax = 12`. -/
def MonthMax : Int := 12

/-- `DayMin = 1`. -/
def DayMin : Int := 1

/-- `DayMax = 31`. -/
def DayMax : Int := 31

/-- `HourMin = 0`. -/
def HourMin : Int := 0

/-- `HourMax = 24`. -/
def HourMax : Int := 24

/-- `MinMin = 0`. -/
def MinMin : Int := 0

/-- `MinMax = 59`. -/
def MinMax : Int := 59

/-- `SecMin = 0`. -/
def SecMin : Int := 0

/-- `SecMax = 59`. -/
def SecMax : Int := 59

/-- A `time.Time` in UTC: the instant as seconds since 1970-01-01T00:00:00Z and
the nanoseconds within the second. -/
structure GoTime where
  unix : Int
  nsec : Nat
  deriving DecidableEq, Repr

/-- Leap year of the Gregorian calendar. -/
def isLeap (year : Int) : Bool :=
  decide (year % 4 = 0) && (decide (year % 100 ≠ 0) || decide (year % 400 = 0))

/-- Days of a common year before the first of the month (`month` in 1..12). -/
def daysBefore (month : Int) : Int :=
  if month ≤ 1 then 0 else if month = 2 then 31 else if month = 3 then 59
  else if month = 4 then 90 else if month = 5 then 120 else if month = 6 then 151
  else if month = 7 then 181 else if month = 8 then 212 else if month = 9 then 243
  else if month = 10 then 273 else if month = 11 then 304 else 334

/-- Days in a month of a year (`month` in 1..12). -/
def daysIn (month year : Int) : Int :=
  if month = 2 then (if isLeap year then 29 else 28)
  else if month = 4 ∨ month = 6 ∨ month = 9 ∨ month = 11 then 30 else 31

/-- `time.Date(year, month, day, hour, min, sec, 0, time.UTC)`. The month is
normalized into the year; days, hours, minutes and seconds beyond their range
carry over, which the sum of seconds does by itself. Day 1 of year 1 is
719162 days before 1970-01-01. -/
def Date (year month day hour min sec : Int) : GoTime :=
  let m := month - 1
  let y := year + m / 12 - 1
  let mon := m % 12 + 1
  let days := 365 * y + y / 4 - y / 100 + y / 400 + daysBefore mon +
    (if isLeap (y + 1) ∧ mon ≥ 3 then 1 else 0) + (day - 1)
  { unix := (days - 719162) * 86400 + hour * 3600 + min * 60 + sec, nsec := 0 }

/-- The zero `time.Time{}`: 0001-01-01T00:00:00Z. -/
def GoTime.zero : GoTime := { unix := -62135596800, nsec := 0 }

/-- `t.Round(time.Second)`: halves round up. -/
def GoTime.roundSecond (t : GoTime) : GoTime :=
  { unix := if 500000000 ≤ t.nsec then t.unix + 1 else t.unix, nsec := 0 }

/-- The value of a run of ASCII digits. -/
def digitsValue (ds : List Nat) : Nat := ds.foldl (fun acc d => acc * 10 + (d - 48)) 0

/-- `getnum` of package time: one or two digits (two when `fixed`) at the head
of the text; the number and the rest of the text. -/
def getnum (fixed : Bool) : List Nat → Option (Int × List Nat)
  | [] => none
  | d0 :: rest =>
    if isDigitByte d0 then
      match rest with
      | d1 :: rest1 =>
        if isDigitByte d1 then some ((digitsValue [d0, d1] : Nat), rest1)
        else if fixed then none else some ((digitsValue [d0] : Nat), rest)
      | [] => if fixed then none else some ((digitsValue [d0] : Nat), rest)
    else none

/-- `time.Parse("20060102_150405", value)`: four digits of year, two of month
(1..12), two of day, an underscore, the hour (0..23), two digits of minute and
of second (0..59), nothing after them, and a day that exists in the month.
`none` stands for a returned error. -/
def timeParseCanonical (value : List Nat) : Option GoTime :=
  let y := value.take 4
  if y.length < 4 ∨ y.all isDigitByte = false then none
  else
    let year : Int := (digitsValue y : Nat)
    match getnum true (value.drop 4) with
    | none => none
    | some (month, v1) =>
      if month ≤ 0 ∨ 12 < month then none
      else
        match getnum true v1 with
        | none => none
        | some (day, v2) =>
          match v2 with
          | 95 :: v3 =>
            match getnum false v3 with
            | none => none
            | some (hour, v4) =>
              if hour < 0 ∨ 24 ≤ hour then none
              else
                match getnum true v4 with
                | none => none
                | some (min, v5) =>
                  if min < 0 ∨ 60 ≤ min then none
                  else
                    match getnum true v5 with
                    | none => none
                    | some (sec, v6) =>
                      if sec < 0 ∨ 60 ≤ sec then none
                      else if v6 ≠ [] then none
                      else if day < 1 ∨ day > daysIn month year then none
                      else some (Date year month day hour min sec)
          | _ => none

/-- `strconv.ParseInt(s, 10, 64)`: an optional sign and decimal digits, within
the range of int64; `none` stands for a returned error. -/
def parseInt64 (s : List Nat) : Option Int :=
  let neg := decide (s.head? = some 45)
  let ds := if s.head? = some 45 ∨ s.head? = some 43 then s.drop 1 else s
  if ds = [] ∨ ds.all isDigitByte = false then none
  else
    let v : Int := if neg then -(digitsValue ds : Nat) else (digitsValue ds : Nat)
    if v < -9223372036854775808 ∨ 9223372036854775807 < v then none else some v

/-- `txt.Int`: a string as int, or 0 if it can not be converted. -/
def txt.GoInt (s : List Nat) : Int :=
  if s = [] then 0
  else
    match parseInt64 s with
    | some v => v
    | none => 0

/-- `txt.Time`, for the current year `yearNow`: a string as time, or the zero
time instant in case it can not be converted. Every `return result` before an
assignment returns the zero time. A slice `found[1:16]` beyond the match would
panic and the deferred handler would return the zero time. -/
def txt.Time (yearNow : Int) (s : List Nat) : GoTime :=
  if s.length < 6 then GoTime.zero
  else
    let b := if s.head? = some 47 then s else 47 :: s
    let found := Find DateCanonicalRegexp b
    if found.length > 0 then
      if found.length < 16 then GoTime.zero
      else
        match timeParseCanonical ((found.take 16).drop 1) with
        | some date => date.roundSecond
        | none => GoTime.zero
    else
      let found := Find DateTimeRegexp b
      if found.length > 0 then
        let n := FindAll DateIntRegexp found
        if n.length ≠ 6 then GoTime.zero
        else
          let year := txt.GoInt (n.getD 0 [])
          let month := txt.GoInt (n.getD 1 [])
          let day := txt.GoInt (n.getD 2 [])
          let hour := txt.GoInt (n.getD 3 [])
          let min := txt.GoInt (n.getD 4 [])
          let sec := txt.GoInt (n.getD 5 [])
          if year < YearMin ∨ year > YearMax yearNow ∨ month < MonthMin ∨ month > MonthMax ∨
              day < DayMin ∨ day > DayMax then GoTime.zero
          else if hour < HourMin ∨ hour > HourMax ∨ min < MinMin ∨ min > MinMax ∨
              sec < SecMin ∨ sec > SecMax then GoTime.zero
          else Date year month day hour min sec
      else
        let found := Find DateRegexp b
        if found.length > 0 then
          let n := FindAll DateIntRegexp found
          if n.length ≠ 3 then GoTime.zero
          else
            let year := txt.GoInt (n.getD 0 [])
            let month := txt.GoInt (n.getD 1 [])
            let day := txt.GoInt (n.getD 2 [])
            if year < YearMin ∨ year > YearMax yearNow ∨ month < MonthMin ∨
                month > MonthMax ∨ day < DayMin ∨ day > DayMax then GoTime.zero
            else Date year month day 0 0 0
        else
          let found := Find DatePathRegexp b
          if found.length > 0 then
            let n := FindAll DateIntRegexp found
            if n.length < 2 ∨ n.length > 3 then GoTime.zero
            else
              let year := txt.GoInt (n.getD 0 [])
              let month := txt.GoInt (n.getD 1 [])
              if year < YearMin ∨ year > YearMax yearNow ∨ month < MonthMin ∨
                  month > MonthMax then GoTime.zero
              else if n.length = 2 then Date year month 1 0 0 0
              else
                let day := txt.GoInt (n.getD 2 [])
                if day ≥ DayMin ∧ day ≤ DayMax then Date year month day 0 0 0
                else GoTime.zero
          else GoTime.zero

/-- `txt.Year`, for the current year `yearNow`: the first match of `YearRegexp`
whose value lies strictly between `YearMin` and `YearMax`, or 0. -/
def txt.Year (yearNow : Int) (s : List Nat) : Int :=
  match (FindAll YearRegexp s).find?
      (fun m => decide (txt.GoInt m > YearMin ∧ txt.GoInt m < YearMax yearNow)) with
  | some m => txt.GoInt m
  | none => 0

/-- Two decimal digits of a number below 100, as ASCII bytes. -/
def digits2 (n : Nat) : List Nat := [48 + n / 10 % 10, 48 + n % 10]

/-- Four decimal digits of a number below 10000, as ASCII bytes. -/
def digits4 (n : Nat) : List Nat :=
  [48 + n / 1000 % 10, 48 + n / 100 % 10, 48 + n / 10 % 10, 48 + n % 10]

/-- The file name `IMG_YYYYMMDD_HHMMSS_12345.jpg` for a date and a time of day. -/
def canonicalName (year month day hour min sec : Nat) : List Nat :=
  ascii "IMG_" ++ digits4 year ++ digits2 month ++ digits2 day ++ [95] ++
    digits2 hour ++ digits2 min ++ digits2 sec ++ ascii "_12345.jpg"

/-! ## Positions of matches

The patterns of convert.go tell digits from other bytes but not one digit from
another, so where a pattern matches can be computed on the text with every
digit replaced by `0`. -/

/-- A byte with every digit replaced by `0`. -/
def canonByte (b : Nat) : Nat := if isDigitByte b then 48 else b

/-- A class that names no digit literally. -/
def CharClass.plain : CharClass → Bool
  | CharClass.byte x => !isDigitByte x
  | CharClass.oneOf xs => xs.all (fun x => !isDigitByte x)
  | _ => true

/-- A pattern all of whose classes are plain. -/
def plainPattern (p : Pattern) : Bool := p.all (fun it => it.cls.plain)

/-- The offset and the length of the leftmost match, searching like `findFrom`. -/
def findPosFrom (p : Pattern) : Nat → List Nat → Option (Nat × Nat)
  | 0, _ => none
  | fuel + 1, input =>
    match matchPattern p input with
    | some len => some (0, len)
    | none =>
      match input with
      | [] => none
      | _ :: _ =>
        (findPosFrom p fuel (input.drop (runeWidth input))).map
          (fun r => (r.1 + runeWidth input, r.2))

/-- The offsets and the lengths of the successive matches, searching like
`findAllFrom`. -/
def findAllPosFrom (p : Pattern) : Nat → List Nat → List (Nat × Nat)
  | 0, _ => []
  | fuel + 1, input =>
    match matchPattern p input with
    | some (len + 1) =>
      (0, len + 1) ::
        (findAllPosFrom p fuel (input.drop (len + 1))).map (fun r => (r.1 + (len + 1), r.2))
    | _ =>
      match input with
      | [] => []
      | _ :: _ =>
        (findAllPosFrom p fuel (input.drop (runeWidth input))).map
          (fun r => (r.1 + runeWidth input, r.2))

/-- The part of a text at an offset with a length. -/
def slice (input : List Nat) (r : Nat × Nat) : List Nat := (input.drop r.1).take r.2

/-- The text handed to the patterns: the input, with `/` put in front of it
unless it starts with one. -/
def withSlash (s : List Nat) : List Nat := if s.head? = some 47 then s else 47 :: s

/-- The path `Photos/YYYY/MM/x.jpg` for a year and a month. -/
def pathName (year month : Nat) : List Nat :=
  ascii "Photos/" ++ digits4 year ++ [47] ++ digits2 month ++ ascii "/x.jpg"

/-- The canonical tier of `txt.Time` (lines 54-56), for the text found. -/
def canonicalTier (found : List Nat) : GoTime :=
  if found.length < 16 then GoTime.zero
  else
    match timeParseCanonical ((found.take 16).drop 1) with
    | some date => date.roundSecond
    | none => GoTime.zero

/-- The date-time tier of `txt.Time` (lines 58-87), for the numeric groups. -/
def dateTimeTier (yearNow : Int) (n : List (List Nat)) : GoTime :=
  if n.length ≠ 6 then GoTime.zero
  else
    let year := txt.GoInt (n.getD 0 [])
    let month := txt.GoInt (n.getD 1 [])
    let day := txt.GoInt (n.getD 2 [])
    let hour := txt.GoInt (n.getD 3 [])
    let min := txt.GoInt (n.getD 4 [])
    let sec := txt.GoInt (n.getD 5 [])
    if year < YearMin ∨ year > YearMax yearNow ∨ month < MonthMin ∨ month > MonthMax ∨
        day < DayMin ∨ day > DayMax then GoTime.zero
    else if hour < HourMin ∨ hour > HourMax ∨ min < MinMin ∨ min > MinMax ∨
        sec < SecMin ∨ sec > SecMax then GoTime.zero
    else Date year month day hour min sec

/-- The date-only tier of `txt.Time` (lines 90-112), for the numeric groups. -/
def dateTier (yearNow : Int) (n : List (List Nat)) : GoTime :=
  if n.length ≠ 3 then GoTime.zero
  else
    let year := txt.GoInt (n.getD 0 [])
    let month := txt.GoInt (n.getD 1 [])
    let day := txt.GoInt (n.getD 2 [])
    if year < YearMin ∨ year > YearMax yearNow ∨ month < MonthMin ∨
        month > MonthMax ∨ day < DayMin ∨ day > DayMax then GoTime.zero
    else Date year month day 0 0 0

/-- The date-path tier of `txt.Time` (lines 114-147), for the numeric groups. -/
def datePathTier (yearNow : Int) (n : List (List Nat)) : GoTime :=
  if n.length < 2 ∨ n.length > 3 then GoTime.zero
  else
    let year := txt.GoInt (n.getD 0 [])
    let month := txt.GoInt (n.getD 1 [])
    if year < YearMin ∨ year > YearMax yearNow ∨ month < MonthMin ∨
        month > MonthMax then GoTime.zero
    else if n.length = 2 then Date year month 1 0 0 0
    else
      let day := txt.GoInt (n.getD 2 [])
      if day ≥ DayMin ∧ day ≤ DayMax then Date year month day 0 0 0
      else GoTime.zero

/-- The text `YYYY-MM-DD` for a year, a month and a day. -/
def dateName (year month day : Nat) : List Nat :=
  digits4 year ++ [45] ++ digits2 month ++ [45] ++ digits2 day

/-- The file name `YYYY-MM-DD_HH-MM-SS.jpg`. -/
def stampName (year month day hour min sec : Nat) : List Nat :=
  dateName year month day ++ [95] ++ digits2 hour ++ [45] ++ digits2 min ++ [45] ++
    digits2 sec ++ ascii ".jpg"

/-- The file name `YYYYMMDD_000000_1.jpg`. -/
def compactName (year month day : Nat) : List Nat :=
  digits4 year ++ digits2 month ++ digits2 day ++ ascii "_000000_1.jpg"

/-- The least number of bytes of a match of a pattern: every rune has at least
one byte. -/
def minLen (p : Pattern) : Nat := (p.map Item.min).sum

/-- `txt.Time` without its deferred handler, for the current year `yearNow`:
`none` stands for a run-time panic of a slice expression `found[1:16]` or of an
index expression `n[i]` out of range. -/
def txt.TimeChecked (yearNow : Int) (s : List Nat) : Option GoTime :=
  if s.length < 6 then some GoTime.zero
  else
    let b := if s.head? = some 47 then s else 47 :: s
    let found := Find DateCanonicalRegexp b
    if found.length > 0 then
      if found.length < 16 then none
      else
        match timeParseCanonical ((found.take 16).drop 1) with
        | some date => some date.roundSecond
        | none => some GoTime.zero
    else
      let found := Find DateTimeRegexp b
      if found.length > 0 then
        let n := FindAll DateIntRegexp found
        if n.length ≠ 6 then some GoTime.zero
        else
          match n[0]?, n[1]?, n[2]?, n[3]?, n[4]?, n[5]? with
          | some n0, some n1, some n2, some n3, some n4, some n5 =>
            let year := txt.GoInt n0
            let month := txt.GoInt n1
            let day := txt.GoInt n2
            let hour := txt.GoInt n3
            let min := txt.GoInt n4
            let sec := txt.GoInt n5
            if year < YearMin ∨ year > YearMax yearNow ∨ month < MonthMin ∨ month > MonthMax ∨
                day < DayMin ∨ day > DayMax then some GoTime.zero
            else if hour < HourMin ∨ hour > HourMax ∨ min < MinMin ∨ min > MinMax ∨
                sec < SecMin ∨ sec > SecMax then some GoTime.zero
            else some (Date year month day hour min sec)
          | _, _, _, _, _, _ => none
      else
        let found := Find DateRegexp b
        if found.length > 0 then
          let n := FindAll DateIntRegexp found
          if n.length ≠ 3 then some GoTime.zero
          else
            match n[0]?, n[1]?, n[2]? with
            | some n0, some n1, some n2 =>
              let year := txt.GoInt n0
              let month := txt.GoInt n1
              let day := txt.GoInt n2
              if year < YearMin ∨ year > YearMax yearNow ∨ month < MonthMin ∨
                  month > MonthMax ∨ day < DayMin ∨ day > DayMax then some GoTime.zero
              else some (Date year month day 0 0 0)
            | _, _, _ => none
        else
          let found := Find DatePathRegexp b
          if found.length > 0 then
            let n := FindAll DateIntRegexp found
            if n.length < 2 ∨ n.length > 3 then some GoTime.zero
            else
              match n[0]?, n[1]? with
              | some n0, some n1 =>
                let year := txt.GoInt n0
                let month := txt.GoInt n1
                if year < YearMin ∨ year > YearMax yearNow ∨ month < MonthMin ∨
                    month > MonthMax then some GoTime.zero
                else if n.length = 2 then some (Date year month 1 0 0 0)
                else
                  match n[2]? with
                  | some n2 =>
                    let day := txt.GoInt n2
                    if day ≥ DayMin ∧ day ≤ DayMax then some (Date year month day 0 0 0)
                    else some GoTime.zero
                  | none => none
              | _, _ => none
          else some GoTime.zero

/-! ## txt.CountryCode (convert.go, lines 183-201) -/

/-- `strings.NewReplacer("--", " / ", "_", " ", "-", " ").Replace(s)`: from left
to right and without overlap, `--` becomes ` / `, and `_` and `-` become a
space; at each place the old strings are compared in the order of the
arguments. -/
def replaceSeparators : List Nat → List Nat
  | [] => []
  | [b] => if b = 45 ∨ b = 95 then [32] else [b]
  | b :: c :: rest =>
    if b = 45 ∧ c = 45 then 32 :: 47 :: 32 :: replaceSeparators rest
    else if b = 95 ∨ b = 45 then 32 :: replaceSeparators (c :: rest)
    else b :: replaceSeparators (c :: rest)

/-- `strings.ReplaceAll(s, "  ", " ")`: from left to right and without overlap,
two spaces become one. -/
def collapseDoubleSpaces : List Nat → List Nat
  | [] => []
  | [b] => [b]
  | b :: c :: rest =>
    if b = 32 ∧ c = 32 then 32 :: collapseDoubleSpaces rest
    else b :: collapseDoubleSpaces (c :: rest)

/-- `strings.Contains(s, substr)`: whether `substr` starts at some place of
`s`. -/
def containsBytes (s substr : List Nat) : Bool :=
  match s with
  | [] => substr.isEmpty
  | b :: rest => substr.isPrefixOf (b :: rest) || containsBytes rest substr

/-- `txt.CountryCode`. `strings.ToLower` belongs to the Go standard library and
is the parameter `toLower`. The table `Countries` is declared outside
convert.go; it is the parameter `Countries`, the pairs of keyword and code in
the order in which the `range` statement visits them in this call. -/
def txt.CountryCode (toLower : List Nat → List Nat) (Countries : List (List Nat × List Nat))
    (s : List Nat) : List Nat :=
  if s = ascii "zz" then ascii "zz"
  else
    let s1 := replaceSeparators s
    let s2 := toLower s1
    let s3 := collapseDoubleSpaces s2
    match Countries.find? (fun kc => containsBytes s3 kc.1) with
    | some kc => kc.2
    | none => ascii "zz"

/-- Lower case of the ASCII letters, which is what `strings.ToLower` does on
ASCII text; used in examples. -/
def asciiLower (s : List Nat) : List Nat :=
  s.map (fun b => if 65 ≤ b ∧ b ≤ 90 then b + 32 else b)

/-- A table of two keywords, used in examples. -/
def exampleCountries : List (List Nat × List Nat) :=
  [(ascii "france", ascii "fr"), (ascii "germany", ascii "de")]
/-! ## Float64 arithmetic and the library logarithm -/

theorem roundHalfEven_le (m : ℚ) : (roundHalfEven m : ℚ) ≤ m + 1 / 2 := by
  have h1 := Int.floor_le m
  have h2 := Int.lt_floor_add_one m
  unfold roundHalfEven
  split_ifs <;> push_cast <;> linarith

theorem roundHalfEven_ge (m : ℚ) : m - 1 / 2 ≤ (roundHalfEven m : ℚ) := by
  have h1 := Int.floor_le m
  have h2 := Int.lt_floor_add_one m
  unfold roundHalfEven
  split_ifs <;> push_cast <;> linarith

theorem roundHalfEven_intCast (z : ℤ) : roundHalfEven (z : ℚ) = z := by
  unfold roundHalfEven
  simp

theorem roundHalfEven_mono {a b : ℚ} (h : a ≤ b) : roundHalfEven a ≤ roundHalfEven b := by
  have hf : ⌊a⌋ ≤ ⌊b⌋ := Int.floor_mono h
  have ha1 := Int.floor_le a
  have ha2 := Int.lt_floor_add_one a
  have hb1 := Int.floor_le b
  have hb2 := Int.lt_floor_add_one b
  rcases eq_or_lt_of_le hf with he | hlt
  · unfold roundHalfEven
    rw [he]
    rw [he] at ha1 ha2
    split_ifs <;> first | omega | (exfalso; linarith)
  · have h1 : roundHalfEven a ≤ ⌊a⌋ + 1 := by
      unfold roundHalfEven
      split_ifs <;> omega
    have h2 : ⌊b⌋ ≤ roundHalfEven b := by
      unfold roundHalfEven
      split_ifs <;> omega
    omega

theorem two_zpow_pos (t : ℤ) : (0 : ℚ) < 2 ^ t := zpow_pos (by norm_num) t

theorem log_spec (q : ℚ) (hq : q ≠ 0) :
    (2 : ℚ) ^ (Int.log 2 |q|) ≤ |q| ∧ |q| < 2 ^ (Int.log 2 |q| + 1) := by
  have hpos : 0 < |q| := abs_pos.mpr hq
  have h1 := Int.zpow_log_le_self (b := 2) (by norm_num) hpos
  have h2 := Int.lt_zpow_succ_log_self (b := 2) (by norm_num) |q|
  exact ⟨by exact_mod_cast h1, by exact_mod_cast h2⟩

theorem log_unique (q : ℚ) (e : ℤ) (h1 : (2 : ℚ) ^ e ≤ |q|) (h2 : |q| < 2 ^ (e + 1)) :
    Int.log 2 |q| = e := by
  have hpos : 0 < |q| := lt_of_lt_of_le (two_zpow_pos e) h1
  have hq : q ≠ 0 := abs_pos.mp hpos
  obtain ⟨g1, g2⟩ := log_spec q hq
  have a1 : e < Int.log 2 |q| + 1 := by
    by_contra hc
    have : (2 : ℚ) ^ (Int.log 2 |q| + 1) ≤ 2 ^ e := zpow_le_zpow_right₀ (by norm_num) (by omega)
    linarith
  have a2 : Int.log 2 |q| < e + 1 := by
    by_contra hc
    have : (2 : ℚ) ^ (e + 1) ≤ 2 ^ (Int.log 2 |q|) := zpow_le_zpow_right₀ (by norm_num) (by omega)
    linarith
  omega

/-- The scaled significand lies between `2^52` and `2^53`. -/
theorem scaled_bounds (q : ℚ) (hq : q ≠ 0) :
    (2 : ℚ) ^ (52 : ℤ) ≤ |q / 2 ^ (Int.log 2 |q| - 52)| ∧
    |q / 2 ^ (Int.log 2 |q| - 52)| < 2 ^ (53 : ℤ) := by
  obtain ⟨g1, g2⟩ := log_spec q hq
  have hu := two_zpow_pos (Int.log 2 |q| - 52)
  rw [abs_div, abs_of_pos hu]
  have e1 : (2 : ℚ) ^ (Int.log 2 |q|) = 2 ^ (52 : ℤ) * 2 ^ (Int.log 2 |q| - 52) := by
    rw [← zpow_add₀ (by norm_num)]
    congr 1
    ring
  have e2 : (2 : ℚ) ^ (Int.log 2 |q| + 1) = 2 ^ (53 : ℤ) * 2 ^ (Int.log 2 |q| - 52) := by
    rw [← zpow_add₀ (by norm_num)]
    congr 1
    ring
  constructor
  · rw [le_div_iff₀ hu, ← e1]
    exact g1
  · rw [div_lt_iff₀ hu, ← e2]
    exact g2

theorem roundFloat64_zero : roundFloat64 0 = 0 := by
  simp [roundFloat64]

/-- The rounding error is at most half a unit in the last place. -/
theorem roundFloat64_error (q : ℚ) (hq : q ≠ 0) :
    |roundFloat64 q - q| ≤ 2 ^ (Int.log 2 |q| - 53) := by
  have hu := two_zpow_pos (Int.log 2 |q| - 52)
  unfold roundFloat64
  rw [if_neg hq]
  have h1 := roundHalfEven_le (q / 2 ^ (Int.log 2 |q| - 52))
  have h2 := roundHalfEven_ge (q / 2 ^ (Int.log 2 |q| - 52))
  have e : (2 : ℚ) ^ (Int.log 2 |q| - 53) = 1 / 2 * 2 ^ (Int.log 2 |q| - 52) := by
    have : Int.log 2 |q| - 53 = (-1) + (Int.log 2 |q| - 52) := by ring
    rw [this, zpow_add₀ (by norm_num)]
    norm_num
  have hq2 : q = q / 2 ^ (Int.log 2 |q| - 52) * 2 ^ (Int.log 2 |q| - 52) := by
    field_simp
  rw [e, abs_le]
  constructor
  · nlinarith
  · nlinarith

/-- A positive rational rounds into its binade, ends included. -/
theorem roundFloat64_pos_bounds (q : ℚ) (hq : 0 < q) :
    (2 : ℚ) ^ (Int.log 2 |q|) ≤ roundFloat64 q ∧ roundFloat64 q ≤ 2 ^ (Int.log 2 |q| + 1) := by
  have hne : q ≠ 0 := ne_of_gt hq
  have hu := two_zpow_pos (Int.log 2 |q| - 52)
  obtain ⟨b1, b2⟩ := scaled_bounds q hne
  have hm : 0 < q / 2 ^ (Int.log 2 |q| - 52) := div_pos hq hu
  rw [abs_of_pos hm] at b1 b2
  have r1 : (2 : ℤ) ^ 52 ≤ roundHalfEven (q / 2 ^ (Int.log 2 |q| - 52)) := by
    have := roundHalfEven_mono (a := ((2 ^ 52 : ℤ) : ℚ)) (b := q / 2 ^ (Int.log 2 |q| - 52))
      (by push_cast; exact_mod_cast b1)
    rwa [roundHalfEven_intCast] at this
  have r2 : roundHalfEven (q / 2 ^ (Int.log 2 |q| - 52)) ≤ (2 : ℤ) ^ 53 := by
    have := roundHalfEven_mono (a := q / 2 ^ (Int.log 2 |q| - 52)) (b := ((2 ^ 53 : ℤ) : ℚ))
      (by push_cast; exact_mod_cast le_of_lt b2)
    rwa [roundHalfEven_intCast] at this
  have e1 : (2 : ℚ) ^ (Int.log 2 |q|) = 2 ^ (52 : ℤ) * 2 ^ (Int.log 2 |q| - 52) := by
    rw [← zpow_add₀ (by norm_num)]
    congr 1
    ring
  have e2 : (2 : ℚ) ^ (Int.log 2 |q| + 1) = 2 ^ (53 : ℤ) * 2 ^ (Int.log 2 |q| - 52) := by
    rw [← zpow_add₀ (by norm_num)]
    congr 1
    ring
  unfold roundFloat64
  rw [if_neg hne, e1, e2]
  have c1 : ((2 : ℚ) ^ (52 : ℤ)) ≤ (roundHalfEven (q / 2 ^ (Int.log 2 |q| - 52)) : ℚ) := by
    exact_mod_cast r1
  have c2 : (roundHalfEven (q / 2 ^ (Int.log 2 |q| - 52)) : ℚ) ≤ (2 : ℚ) ^ (53 : ℤ) := by
    exact_mod_cast r2
  exact ⟨mul_le_mul_of_nonneg_right c1 (le_of_lt hu), mul_le_mul_of_nonneg_right c2 (le_of_lt hu)⟩

/-- A negative rational rounds into its binade, ends included. -/
theorem roundFloat64_neg_bounds (q : ℚ) (hq : q < 0) :
    -(2 : ℚ) ^ (Int.log 2 |q| + 1) ≤ roundFloat64 q ∧ roundFloat64 q ≤ -2 ^ (Int.log 2 |q|) := by
  have hne : q ≠ 0 := ne_of_lt hq
  have hu := two_zpow_pos (Int.log 2 |q| - 52)
  obtain ⟨b1, b2⟩ := scaled_bounds q hne
  have hm : q / 2 ^ (Int.log 2 |q| - 52) < 0 := div_neg_of_neg_of_pos hq hu
  rw [abs_of_neg hm] at b1 b2
  have r1 : roundHalfEven (q / 2 ^ (Int.log 2 |q| - 52)) ≤ -(2 : ℤ) ^ 52 := by
    have := roundHalfEven_mono (a := q / 2 ^ (Int.log 2 |q| - 52)) (b := ((-(2 ^ 52) : ℤ) : ℚ))
      (by push_cast; have : (2 : ℚ) ^ (52 : ℤ) = 2 ^ 52 := by norm_num
          linarith)
    rwa [roundHalfEven_intCast] at this
  have r2 : -(2 : ℤ) ^ 53 ≤ roundHalfEven (q / 2 ^ (Int.log 2 |q| - 52)) := by
    have := roundHalfEven_mono (a := ((-(2 ^ 53) : ℤ) : ℚ)) (b := q / 2 ^ (Int.log 2 |q| - 52))
      (by push_cast; have : (2 : ℚ) ^ (53 : ℤ) = 2 ^ 53 := by norm_num
          linarith)
    rwa [roundHalfEven_intCast] at this
  have e1 : (2 : ℚ) ^ (Int.log 2 |q|) = 2 ^ (52 : ℤ) * 2 ^ (Int.log 2 |q| - 52) := by
    rw [← zpow_add₀ (by norm_num)]
    congr 1
    ring
  have e2 : (2 : ℚ) ^ (Int.log 2 |q| + 1) = 2 ^ (53 : ℤ) * 2 ^ (Int.log 2 |q| - 52) := by
    rw [← zpow_add₀ (by norm_num)]
    congr 1
    ring
  unfold roundFloat64
  rw [if_neg hne, e1, e2]
  have c1 : (roundHalfEven (q / 2 ^ (Int.log 2 |q| - 52)) : ℚ) ≤ -((2 : ℚ) ^ (52 : ℤ)) := by
    have : ((roundHalfEven (q / 2 ^ (Int.log 2 |q| - 52)) : ℤ) : ℚ) ≤ ((-(2 : ℤ) ^ 52 : ℤ) : ℚ) :=
      Int.cast_le.mpr r1
    push_cast at this
    norm_num
    linarith
  have c2 : -((2 : ℚ) ^ (53 : ℤ)) ≤ (roundHalfEven (q / 2 ^ (Int.log 2 |q| - 52)) : ℚ) := by
    have : ((-(2 : ℤ) ^ 53 : ℤ) : ℚ) ≤ ((roundHalfEven (q / 2 ^ (Int.log 2 |q| - 52)) : ℤ) : ℚ) :=
      Int.cast_le.mpr r2
    push_cast at this
    norm_num
    linarith
  constructor
  · nlinarith
  · nlinarith

theorem roundFloat64_nonneg (q : ℚ) (hq : 0 ≤ q) : 0 ≤ roundFloat64 q := by
  rcases eq_or_lt_of_le hq with h | h
  · rw [← h, roundFloat64_zero]
  · exact le_trans (le_of_lt (two_zpow_pos _)) (roundFloat64_pos_bounds q h).1

theorem roundFloat64_nonpos (q : ℚ) (hq : q ≤ 0) : roundFloat64 q ≤ 0 := by
  rcases eq_or_lt_of_le hq with h | h
  · rw [h, roundFloat64_zero]
  · have := (roundFloat64_neg_bounds q h).2
    have := two_zpow_pos (Int.log 2 |q|)
    linarith

theorem log_abs_mono (a b : ℚ) (ha : a ≠ 0) (h : |a| ≤ |b|) : Int.log 2 |a| ≤ Int.log 2 |b| :=
  Int.log_mono_right (abs_pos.mpr ha) h

/-- Rounding to float64 is monotone. -/
theorem roundFloat64_mono {a b : ℚ} (h : a ≤ b) : roundFloat64 a ≤ roundFloat64 b := by
  rcases lt_trichotomy a 0 with ha | ha | ha
  · rcases lt_or_le b 0 with hb | hb
    · -- both negative
      have hab : |b| ≤ |a| := by rw [abs_of_neg ha, abs_of_neg hb]; linarith
      have hl := log_abs_mono b a (ne_of_lt hb) hab
      rcases eq_or_lt_of_le hl with he | hlt
      · unfold roundFloat64
        rw [if_neg (ne_of_lt ha), if_neg (ne_of_lt hb), he]
        have hu := two_zpow_pos (Int.log 2 |a| - 52)
        have hm : b / 2 ^ (Int.log 2 |a| - 52) ≥ a / 2 ^ (Int.log 2 |a| - 52) :=
          div_le_div_of_nonneg_right h (le_of_lt hu)
        have hr := roundHalfEven_mono hm
        have hc : (roundHalfEven (a / 2 ^ (Int.log 2 |a| - 52)) : ℚ) ≤
            (roundHalfEven (b / 2 ^ (Int.log 2 |a| - 52)) : ℚ) := Int.cast_le.mpr hr
        exact mul_le_mul_of_nonneg_right hc (le_of_lt hu)
      · have h1 := (roundFloat64_neg_bounds a ha).2
        have h2 := (roundFloat64_neg_bounds b hb).1
        have h3 : (2 : ℚ) ^ (Int.log 2 |b| + 1) ≤ 2 ^ (Int.log 2 |a|) :=
          zpow_le_zpow_right₀ (by norm_num) (by omega)
        linarith
    · exact le_trans (roundFloat64_nonpos a (le_of_lt ha)) (roundFloat64_nonneg b hb)
  · rw [ha] at h ⊢
    rw [roundFloat64_zero]
    exact roundFloat64_nonneg b h
  · have hb : 0 < b := lt_of_lt_of_le ha h
    have hab : |a| ≤ |b| := by rw [abs_of_pos ha, abs_of_pos hb]; exact h
    have hl := log_abs_mono a b (ne_of_gt ha) hab
    rcases eq_or_lt_of_le hl with he | hlt
    · unfold roundFloat64
      rw [if_neg (ne_of_gt ha), if_neg (ne_of_gt hb), he]
      have hu := two_zpow_pos (Int.log 2 |b| - 52)
      have hm : a / 2 ^ (Int.log 2 |b| - 52) ≤ b / 2 ^ (Int.log 2 |b| - 52) :=
        div_le_div_of_nonneg_right h (le_of_lt hu)
      have hr := roundHalfEven_mono hm
      have hc : (roundHalfEven (a / 2 ^ (Int.log 2 |b| - 52)) : ℚ) ≤
          (roundHalfEven (b / 2 ^ (Int.log 2 |b| - 52)) : ℚ) := Int.cast_le.mpr hr
      exact mul_le_mul_of_nonneg_right hc (le_of_lt hu)
    · have h1 := (roundFloat64_pos_bounds a ha).2
      have h2 := (roundFloat64_pos_bounds b hb).1
      have h3 : (2 : ℚ) ^ (Int.log 2 |a| + 1) ≤ 2 ^ (Int.log 2 |b|) :=
        zpow_le_zpow_right₀ (by norm_num) (by omega)
      linarith

/-- A number with a significand of at most 53 bits is a float64: rounding
leaves it as it is. -/
theorem roundFloat64_exact (z t : ℤ) (hz : |z| < 2 ^ 53) :
    roundFloat64 ((z : ℚ) * 2 ^ t) = (z : ℚ) * 2 ^ t := by
  by_cases hq : (z : ℚ) * 2 ^ t = 0
  · rw [hq, roundFloat64_zero]
  · obtain ⟨g1, g2⟩ := log_spec _ hq
    have ht := two_zpow_pos t
    have habs : |(z : ℚ) * 2 ^ t| = |(z : ℚ)| * 2 ^ t := by
      rw [abs_mul, abs_of_pos ht]
    have hz2 : |(z : ℚ)| < 2 ^ (53 : ℤ) := by
      have : ((|z| : ℤ) : ℚ) < ((2 ^ 53 : ℤ) : ℚ) := Int.cast_lt.mpr hz
      push_cast at this
      norm_num
      exact this
    have hlt : (2 : ℚ) ^ (Int.log 2 |(z : ℚ) * 2 ^ t|) < 2 ^ (53 + t) := by
      calc (2 : ℚ) ^ (Int.log 2 |(z : ℚ) * 2 ^ t|) ≤ |(z : ℚ)| * 2 ^ t := by rw [← habs]; exact g1
        _ < 2 ^ (53 : ℤ) * 2 ^ t := mul_lt_mul_of_pos_right hz2 ht
        _ = 2 ^ (53 + t) := by rw [← zpow_add₀ (by norm_num)]
    have hexp : Int.log 2 |(z : ℚ) * 2 ^ t| < 53 + t := by
      by_contra hc
      have : (2 : ℚ) ^ (53 + t) ≤ 2 ^ (Int.log 2 |(z : ℚ) * 2 ^ t|) :=
        zpow_le_zpow_right₀ (by norm_num) (by omega)
      linarith
    obtain ⟨n, hn⟩ : ∃ n : ℕ, (n : ℤ) = t - (Int.log 2 |(z : ℚ) * 2 ^ t| - 52) :=
      ⟨(t - (Int.log 2 |(z : ℚ) * 2 ^ t| - 52)).toNat, by omega⟩
    have hdiv : (z : ℚ) * 2 ^ t / 2 ^ (Int.log 2 |(z : ℚ) * 2 ^ t| - 52) =
        ((z * 2 ^ n : ℤ) : ℚ) := by
      rw [mul_div_assoc, ← zpow_sub₀ (by norm_num), ← hn]
      push_cast
      rw [zpow_natCast]
    unfold roundFloat64
    rw [if_neg hq, hdiv, roundHalfEven_intCast, ← hdiv]
    field_simp

theorem roundFloat64_le_of_le {q v : ℚ} (z t : ℤ) (hz : |z| < 2 ^ 53) (hv : v = (z : ℚ) * 2 ^ t)
    (h : q ≤ v) : roundFloat64 q ≤ v := by
  have := roundFloat64_mono h
  rwa [hv, roundFloat64_exact z t hz, ← hv] at this

theorem roundFloat64_ge_of_ge {q v : ℚ} (z t : ℤ) (hz : |z| < 2 ^ 53) (hv : v = (z : ℚ) * 2 ^ t)
    (h : v ≤ q) : v ≤ roundFloat64 q := by
  have := roundFloat64_mono h
  rwa [hv, roundFloat64_exact z t hz, ← hv] at this

theorem roundFloat64_of_isFloat64 {v : ℚ} (h : IsFloat64 v) : roundFloat64 v = v := by
  obtain ⟨z, t, hz, rfl⟩ := h
  exact roundFloat64_exact z t hz

theorem roundFloat64_le {q v : ℚ} (hv : IsFloat64 v) (h : q ≤ v) : roundFloat64 q ≤ v := by
  have := roundFloat64_mono h
  rwa [roundFloat64_of_isFloat64 hv] at this

theorem roundFloat64_ge {q v : ℚ} (hv : IsFloat64 v) (h : v ≤ q) : v ≤ roundFloat64 q := by
  have := roundFloat64_mono h
  rwa [roundFloat64_of_isFloat64 hv] at this

theorem isFloat64_div_pow (z : ℤ) (n : ℕ) (hz : |z| < 2 ^ 53) : IsFloat64 ((z : ℚ) / 2 ^ n) :=
  ⟨z, -(n : ℤ), hz, by rw [zpow_neg, zpow_natCast]; rfl⟩

theorem isFloat64_intCast (z : ℤ) (hz : |z| < 2 ^ 53) : IsFloat64 (z : ℚ) :=
  ⟨z, 0, hz, by simp⟩

theorem isFloat64_neg {v : ℚ} (h : IsFloat64 v) : IsFloat64 (-v) := by
  obtain ⟨z, t, hz, rfl⟩ := h
  exact ⟨-z, t, by rwa [abs_neg], by push_cast; ring⟩

theorem isFloat64_zero : IsFloat64 0 := ⟨0, 0, by norm_num, by simp⟩

/-- The rounding error relative to the number rounded. -/
theorem roundFloat64_rel (q : ℚ) : |roundFloat64 q - q| ≤ |q| / 2 ^ 53 := by
  by_cases hq : q = 0
  · rw [hq, roundFloat64_zero]; simp
  · have h1 := roundFloat64_error q hq
    have h2 := (log_spec q hq).1
    have e : (2 : ℚ) ^ (Int.log 2 |q| - 53) = 2 ^ (Int.log 2 |q|) / 2 ^ 53 := by
      rw [zpow_sub₀ (by norm_num)]
      norm_num
    rw [e] at h1
    have : (2 : ℚ) ^ (Int.log 2 |q|) / 2 ^ 53 ≤ |q| / 2 ^ 53 :=
      div_le_div_of_nonneg_right h2 (by positivity)
    linarith

/-- The rounding error of a number below a power of two. -/
theorem roundFloat64_abs_error (q : ℚ) (t : ℤ) (h : |q| < 2 ^ (t + 1)) :
    |roundFloat64 q - q| ≤ 2 ^ (t - 53) := by
  by_cases hq : q = 0
  · rw [hq, roundFloat64_zero]
    simp only [sub_self, abs_zero]
    exact le_of_lt (two_zpow_pos _)
  · have h1 := roundFloat64_error q hq
    have h2 := (log_spec q hq).1
    have hlog : Int.log 2 |q| ≤ t := by
      by_contra hc
      have : (2 : ℚ) ^ (t + 1) ≤ 2 ^ (Int.log 2 |q|) :=
        zpow_le_zpow_right₀ (by norm_num) (by omega)
      linarith
    have : (2 : ℚ) ^ (Int.log 2 |q| - 53) ≤ 2 ^ (t - 53) :=
      zpow_le_zpow_right₀ (by norm_num) (by omega)
    linarith

theorem roundFloat64_between {q lo hi : ℚ} (hlo : IsFloat64 lo) (hhi : IsFloat64 hi)
    (h1 : lo ≤ q) (h2 : q ≤ hi) : lo ≤ roundFloat64 q ∧ roundFloat64 q ≤ hi :=
  ⟨roundFloat64_ge hlo h1, roundFloat64_le hhi h2⟩

theorem isFloat64_ofNat_div (a n : ℕ) (ha : a < 2 ^ 53) : IsFloat64 ((a : ℚ) / 2 ^ n) := by
  have := isFloat64_div_pow (a : ℤ) n (by rw [abs_of_nonneg (by positivity)]; exact_mod_cast ha)
  simpa using this

theorem logS_bounds (f : ℚ) (h1 : -5 / 16 ≤ f) (h2 : f ≤ 7 / 16) :
    (0 ≤ f → 0 ≤ math.logS f ∧ math.logS f ≤ 1 / 4) ∧
    (f ≤ 0 → -1 / 4 ≤ math.logS f ∧ math.logS f ≤ 0) := by
  have hd : (27 : ℚ) / 16 ≤ roundFloat64 (2 + f) :=
    roundFloat64_ge (by simpa using isFloat64_ofNat_div 27 4 (by norm_num)) (by linarith)
  have hd0 : (0 : ℚ) < roundFloat64 (2 + f) := by linarith
  have q4 : IsFloat64 ((1 : ℚ) / 4) := by simpa using isFloat64_ofNat_div 1 2 (by norm_num)
  constructor
  · intro h0
    have hd2 : (2 : ℚ) ≤ roundFloat64 (2 + f) :=
      roundFloat64_ge (by simpa using isFloat64_ofNat_div 2 0 (by norm_num)) (by linarith)
    unfold math.logS
    refine roundFloat64_between isFloat64_zero q4 (div_nonneg h0 (le_of_lt hd0)) ?_
    rw [div_le_iff₀ hd0]
    linarith
  · intro h0
    unfold math.logS
    have q4n : IsFloat64 ((-1 : ℚ) / 4) := by
      have := isFloat64_neg q4
      rwa [neg_div] 
    refine roundFloat64_between q4n isFloat64_zero ?_ ?_
    · rw [le_div_iff₀ hd0]
      linarith
    · exact div_nonpos_of_nonpos_of_nonneg h0 (le_of_lt hd0)

theorem roundFloat64_mul_bounds {a b A B : ℚ} (hAB : IsFloat64 (A * B)) (ha0 : 0 ≤ a)
    (ha : a ≤ A) (hb0 : 0 ≤ b) (hb : b ≤ B) :
    0 ≤ roundFloat64 (a * b) ∧ roundFloat64 (a * b) ≤ A * B :=
  roundFloat64_between isFloat64_zero hAB (mul_nonneg ha0 hb0)
    (mul_le_mul ha hb hb0 (le_trans ha0 ha))

theorem roundFloat64_add_bounds {a b C : ℚ} (hC : IsFloat64 C) (ha0 : 0 ≤ a) (hb0 : 0 ≤ b)
    (h : a + b ≤ C) : 0 ≤ roundFloat64 (a + b) ∧ roundFloat64 (a + b) ≤ C :=
  roundFloat64_between isFloat64_zero hC (add_nonneg ha0 hb0) h

theorem logR_bounds (s : ℚ) (h1 : -1 / 4 ≤ s) (h2 : s ≤ 1 / 4) :
    0 ≤ math.logR s ∧ math.logR s ≤ 1 / 8 := by
  have f1 : IsFloat64 ((1 : ℚ) / 16) := by simpa using isFloat64_ofNat_div 1 4 (by norm_num)
  have f2 : IsFloat64 ((1 : ℚ) / 256) := by simpa using isFloat64_ofNat_div 1 8 (by norm_num)
  have f3 : IsFloat64 ((1 : ℚ) / 2) := by simpa using isFloat64_ofNat_div 1 1 (by norm_num)
  have f4 : IsFloat64 (1 : ℚ) := by simpa using isFloat64_ofNat_div 1 0 (by norm_num)
  have f5 : IsFloat64 ((1 : ℚ) / 8) := by simpa using isFloat64_ofNat_div 1 3 (by norm_num)
  have hs2 : 0 ≤ roundFloat64 (s * s) ∧ roundFloat64 (s * s) ≤ 1 / 16 :=
    roundFloat64_between isFloat64_zero f1 (mul_self_nonneg s) (by nlinarith)
  obtain ⟨a0, a1⟩ := hs2
  have hs4 : 0 ≤ roundFloat64 (roundFloat64 (s * s) * roundFloat64 (s * s)) ∧
      roundFloat64 (roundFloat64 (s * s) * roundFloat64 (s * s)) ≤ 1 / 256 :=
    roundFloat64_between isFloat64_zero f2 (mul_self_nonneg _) (by nlinarith)
  obtain ⟨b0, b1⟩ := hs4
  have step : ∀ (L p : ℚ), 0 ≤ L → L ≤ 1 / 2 - 1 / 256 → 0 ≤ p → p ≤ 1 →
      0 ≤ roundFloat64 (L + roundFloat64
        (roundFloat64 (roundFloat64 (s * s) * roundFloat64 (s * s)) * p)) ∧
      roundFloat64 (L + roundFloat64
        (roundFloat64 (roundFloat64 (s * s) * roundFloat64 (s * s)) * p)) ≤ 1 / 2 := by
    intro L p hL0 hL hp0 hp
    have hm : 0 ≤ roundFloat64 (roundFloat64 (roundFloat64 (s * s) * roundFloat64 (s * s)) * p) ∧
        roundFloat64 (roundFloat64 (roundFloat64 (s * s) * roundFloat64 (s * s)) * p) ≤
          1 / 256 :=
      roundFloat64_between isFloat64_zero f2 (mul_nonneg b0 hp0) (by nlinarith)
    exact roundFloat64_add_bounds f3 hL0 hm.1 (by linarith [hm.2])
  have c7 : (0 : ℚ) ≤ math.L7 ∧ math.L7 ≤ 1 := by unfold math.L7; constructor <;> norm_num
  have c5 : (0 : ℚ) ≤ math.L5 ∧ math.L5 ≤ 1 / 2 - 1 / 256 := by
    unfold math.L5; constructor <;> norm_num
  have c3 : (0 : ℚ) ≤ math.L3 ∧ math.L3 ≤ 1 / 2 - 1 / 256 := by
    unfold math.L3; constructor <;> norm_num
  have c1 : (0 : ℚ) ≤ math.L1 ∧ math.L1 ≤ 1 - 1 / 256 := by
    unfold math.L1; constructor <;> norm_num
  have c6 : (0 : ℚ) ≤ math.L6 ∧ math.L6 ≤ 1 := by unfold math.L6; constructor <;> norm_num
  have c4 : (0 : ℚ) ≤ math.L4 ∧ math.L4 ≤ 1 / 2 - 1 / 256 := by
    unfold math.L4; constructor <;> norm_num
  have c2 : (0 : ℚ) ≤ math.L2 ∧ math.L2 ≤ 1 / 2 - 1 / 256 := by
    unfold math.L2; constructor <;> norm_num
  have p3 := step math.L5 math.L7 c5.1 c5.2 c7.1 c7.2
  have p2 := step math.L3 _ c3.1 c3.2 p3.1 (by linarith [p3.2])
  have hm1 : 0 ≤ roundFloat64 (roundFloat64 (roundFloat64 (s * s) * roundFloat64 (s * s)) *
        roundFloat64 (math.L3 + roundFloat64
          (roundFloat64 (roundFloat64 (s * s) * roundFloat64 (s * s)) *
            roundFloat64 (math.L5 + roundFloat64
              (roundFloat64 (roundFloat64 (s * s) * roundFloat64 (s * s)) * math.L7))))) ∧
      roundFloat64 (roundFloat64 (roundFloat64 (s * s) * roundFloat64 (s * s)) *
        roundFloat64 (math.L3 + roundFloat64
          (roundFloat64 (roundFloat64 (s * s) * roundFloat64 (s * s)) *
            roundFloat64 (math.L5 + roundFloat64
              (roundFloat64 (roundFloat64 (s * s) * roundFloat64 (s * s)) * math.L7))))) ≤
        1 / 256 :=
    roundFloat64_between isFloat64_zero f2 (mul_nonneg b0 p2.1) (by nlinarith [p2.2])
  have p1 := roundFloat64_add_bounds (a := math.L1) f4 c1.1 hm1.1 (by linarith [hm1.2, c1.2])
  have t1 := roundFloat64_between (q := roundFloat64 (s * s) * _) isFloat64_zero f1
    (mul_nonneg a0 p1.1) (by nlinarith [p1.2])
  have q2 := step math.L4 math.L6 c4.1 c4.2 c6.1 c6.2
  have q1 := step math.L2 _ c2.1 c2.2 q2.1 (by linarith [q2.2])
  have t2 := roundFloat64_between (q := roundFloat64 (roundFloat64 (s * s) *
      roundFloat64 (s * s)) * _) isFloat64_zero f1 (mul_nonneg b0 q1.1) (by nlinarith [q1.2])
  unfold math.logR
  exact roundFloat64_add_bounds f5 t1.1 t2.1 (by linarith [t1.2, t2.2])

theorem logHfsq_bounds (f : ℚ) (h1 : -5 / 16 ≤ f) (h2 : f ≤ 7 / 16) :
    0 ≤ math.logHfsq f ∧ math.logHfsq f ≤ 1 / 8 := by
  have f4 : IsFloat64 ((1 : ℚ) / 4) := by simpa using isFloat64_ofNat_div 1 2 (by norm_num)
  have f4n : IsFloat64 (-((1 : ℚ) / 4)) := isFloat64_neg f4
  have f8 : IsFloat64 ((1 : ℚ) / 8) := by simpa using isFloat64_ofNat_div 1 3 (by norm_num)
  unfold math.logHfsq
  rcases le_total 0 f with h0 | h0
  · have a := roundFloat64_between (q := 1 / 2 * f) isFloat64_zero f4 (by linarith) (by linarith)
    exact roundFloat64_between isFloat64_zero f8 (mul_nonneg a.1 h0) (by nlinarith [a.1, a.2])
  · have a := roundFloat64_between (q := 1 / 2 * f) f4n isFloat64_zero (by linarith)
      (by linarith)
    exact roundFloat64_between isFloat64_zero f8 (mul_nonneg_of_nonpos_of_nonpos a.2 h0)
      (by nlinarith [a.1, a.2])

/-- For a positive `f` the rounded half square is at most a quarter of `f`. -/
theorem logHfsq_le_quarter (f : ℚ) (h1 : 0 ≤ f) (h2 : f ≤ 7 / 16) : math.logHfsq f ≤ f / 4 := by
  unfold math.logHfsq
  have e1 := roundFloat64_rel (1 / 2 * f)
  rw [abs_of_nonneg (by linarith : (0 : ℚ) ≤ 1 / 2 * f)] at e1
  have a1 := (abs_le.mp e1).2
  have a0 : 0 ≤ roundFloat64 (1 / 2 * f) := roundFloat64_nonneg _ (by linarith)
  have e2 := roundFloat64_rel (roundFloat64 (1 / 2 * f) * f)
  rw [abs_of_nonneg (mul_nonneg a0 h1)] at e2
  have a2 := (abs_le.mp e2).2
  have hp : (0 : ℚ) < 2 ^ 53 := by positivity
  have b1 : roundFloat64 (1 / 2 * f) ≤ 1 / 2 * f * (1 + 1 / 2 ^ 53) := by
    have : 1 / 2 * f / 2 ^ 53 = 1 / 2 * f * (1 / 2 ^ 53) := by ring
    linarith
  have b2 : roundFloat64 (1 / 2 * f) * f ≤ 1 / 2 * f * (1 + 1 / 2 ^ 53) * f :=
    mul_le_mul_of_nonneg_right b1 h1
  have b3 : roundFloat64 (roundFloat64 (1 / 2 * f) * f) ≤
      roundFloat64 (1 / 2 * f) * f * (1 + 1 / 2 ^ 53) := by
    have : roundFloat64 (1 / 2 * f) * f / 2 ^ 53 =
        roundFloat64 (1 / 2 * f) * f * (1 / 2 ^ 53) := by ring
    linarith
  have b4 : roundFloat64 (1 / 2 * f) * f * (1 + 1 / 2 ^ 53) ≤
      1 / 2 * f * (1 + 1 / 2 ^ 53) * f * (1 + 1 / 2 ^ 53) :=
    mul_le_mul_of_nonneg_right b2 (by positivity)
  have b5 : 1 / 2 * f * (1 + 1 / 2 ^ 53) * f * (1 + 1 / 2 ^ 53) ≤ f / 4 := by
    have h3 : f * ((1 + 1 / 2 ^ 53) * (1 + 1 / 2 ^ 53) * (1 / 2) * f) ≤ f * (1 / 4) := by
      apply mul_le_mul_of_nonneg_left _ h1
      have : ((1 : ℚ) + 1 / 2 ^ 53) * (1 + 1 / 2 ^ 53) * (1 / 2) ≤ 4 / 7 := by norm_num
      nlinarith
    linarith
  linarith

/-- The product `s*(hfsq+R)` has the sign of `f` and is small. -/
theorem logW_bounds (f : ℚ) (h1 : -5 / 16 ≤ f) (h2 : f ≤ 7 / 16) :
    (0 ≤ f → 0 ≤ roundFloat64 (math.logS f *
        roundFloat64 (math.logHfsq f + math.logR (math.logS f))) ∧
      roundFloat64 (math.logS f *
        roundFloat64 (math.logHfsq f + math.logR (math.logS f))) ≤ 1 / 16) ∧
    (f ≤ 0 → -1 / 16 ≤ roundFloat64 (math.logS f *
        roundFloat64 (math.logHfsq f + math.logR (math.logS f))) ∧
      roundFloat64 (math.logS f *
        roundFloat64 (math.logHfsq f + math.logR (math.logS f))) ≤ 0) := by
  have f4 : IsFloat64 ((1 : ℚ) / 4) := by simpa using isFloat64_ofNat_div 1 2 (by norm_num)
  have f16 : IsFloat64 ((1 : ℚ) / 16) := by simpa using isFloat64_ofNat_div 1 4 (by norm_num)
  have f16n : IsFloat64 ((-1 : ℚ) / 16) := by
    have := isFloat64_neg f16
    rwa [neg_div]
  obtain ⟨sp, sn⟩ := logS_bounds f h1 h2
  have hh := logHfsq_bounds f h1 h2
  have hR : 0 ≤ math.logR (math.logS f) ∧ math.logR (math.logS f) ≤ 1 / 8 := by
    rcases le_total 0 f with h0 | h0
    · exact logR_bounds _ (by linarith [(sp h0).1]) (sp h0).2
    · exact logR_bounds _ (sn h0).1 (by linarith [(sn h0).2])
  have hG := roundFloat64_add_bounds f4 hh.1 hR.1 (by linarith [hh.2, hR.2])
  constructor
  · intro h0
    exact roundFloat64_between isFloat64_zero f16 (mul_nonneg (sp h0).1 hG.1)
      (by nlinarith [(sp h0).1, (sp h0).2, hG.1, hG.2])
  · intro h0
    refine roundFloat64_between f16n isFloat64_zero ?_
      (mul_nonpos_of_nonpos_of_nonneg (sn h0).2 hG.1)
    nlinarith [(sn h0).1, (sn h0).2, hG.1, hG.2]

theorem isFloat64_Ln2Hi : IsFloat64 math.Ln2Hi := by
  unfold math.Ln2Hi
  simpa using isFloat64_ofNat_div 2977044471 32 (by norm_num)

theorem isFloat64_Ln2Lo : IsFloat64 math.Ln2Lo := by
  unfold math.Ln2Lo
  simpa using isFloat64_ofNat_div 3691024475790907 84 (by norm_num)

/-- `math.log` on the upper part of `[1/2, 1)`, where `k = 0`: the result is at
most `f`, up to the float64 `-p` above it, and at least `-1/2`. -/
theorem logCompute_zero (f p : ℚ) (hp : IsFloat64 p) (h1 : -5 / 16 ≤ f) (h2 : f ≤ -p)
    (hp0 : 0 ≤ p) :
    math.logCompute 0 f ≤ -p ∧ -1 / 2 ≤ math.logCompute 0 f := by
  have f16n : IsFloat64 ((-1 : ℚ) / 16) := by
    have := isFloat64_neg (by simpa using isFloat64_ofNat_div 1 4 (by norm_num) :
      IsFloat64 ((1 : ℚ) / 16))
    rwa [neg_div]
  have f316 : IsFloat64 ((3 : ℚ) / 16) := by simpa using isFloat64_ofNat_div 3 4 (by norm_num)
  have f12 : IsFloat64 ((1 : ℚ) / 2) := by simpa using isFloat64_ofNat_div 1 1 (by norm_num)
  have f12n : IsFloat64 ((-1 : ℚ) / 2) := by
    have := isFloat64_neg f12
    rwa [neg_div]
  have hf0 : f ≤ 0 := by linarith
  have hW := (logW_bounds f h1 (by linarith)).2 hf0
  have hh := logHfsq_bounds f h1 (by linarith)
  unfold math.logCompute
  simp only [zero_mul, roundFloat64_zero, add_zero, zero_sub]
  have hW1 := roundFloat64_between f16n isFloat64_zero hW.1 hW.2
  have hV := roundFloat64_between (q := math.logHfsq f - roundFloat64 (roundFloat64
    (math.logS f * roundFloat64 (math.logHfsq f + math.logR (math.logS f)))))
    isFloat64_zero f316 (by linarith [hh.1, hW1.2]) (by linarith [hh.2, hW1.1])
  have hU := roundFloat64_between (q := roundFloat64 (math.logHfsq f - roundFloat64
    (roundFloat64 (math.logS f * roundFloat64 (math.logHfsq f + math.logR (math.logS f))))) - f)
    hp f12 (by linarith [hV.1]) (by linarith [hV.2])
  exact ⟨roundFloat64_le (isFloat64_neg hp) (by linarith [hU.1]),
    roundFloat64_ge f12n (by linarith [hU.2])⟩

/-- `math.log` on the lower part of `[1/2, 1)`, where `k = -1`: the result is at
most `-1/8`. -/
theorem logCompute_neg_one_le (f : ℚ) (h1 : 0 ≤ f) (h2 : f ≤ 7 / 16) :
    math.logCompute (-1) f ≤ -1 / 8 := by
  have f16 : IsFloat64 ((1 : ℚ) / 16) := by simpa using isFloat64_ofNat_div 1 4 (by norm_num)
  have f16n : IsFloat64 ((-1 : ℚ) / 16) := by
    have := isFloat64_neg f16
    rwa [neg_div]
  have f12n : IsFloat64 ((-1 : ℚ) / 2) := by
    have := isFloat64_neg (by simpa using isFloat64_ofNat_div 1 1 (by norm_num) :
      IsFloat64 ((1 : ℚ) / 2))
    rwa [neg_div]
  have f8n : IsFloat64 ((-1 : ℚ) / 8) := by
    have := isFloat64_neg (by simpa using isFloat64_ofNat_div 1 3 (by norm_num) :
      IsFloat64 ((1 : ℚ) / 8))
    rwa [neg_div]
  have hW := (logW_bounds f (by linarith) h2).1 h1
  have hh := logHfsq_bounds f (by linarith) h2
  have hlo : (0 : ℚ) ≤ math.Ln2Lo := by unfold math.Ln2Lo; norm_num
  have hhi : (5 : ℚ) / 8 ≤ math.Ln2Hi := by unfold math.Ln2Hi; norm_num
  unfold math.logCompute
  rw [neg_one_mul, neg_one_mul, roundFloat64_of_isFloat64 (isFloat64_neg isFloat64_Ln2Hi),
    roundFloat64_of_isFloat64 (isFloat64_neg isFloat64_Ln2Lo)]
  have hI1 : roundFloat64 (roundFloat64 (math.logS f *
      roundFloat64 (math.logHfsq f + math.logR (math.logS f))) + -math.Ln2Lo) ≤ 1 / 16 :=
    roundFloat64_le f16 (by linarith [hW.2])
  have hI2 : -1 / 16 ≤ roundFloat64 (math.logHfsq f - roundFloat64 (roundFloat64 (math.logS f *
      roundFloat64 (math.logHfsq f + math.logR (math.logS f))) + -math.Ln2Lo)) :=
    roundFloat64_ge f16n (by linarith [hh.1])
  have hI3 : -1 / 2 ≤ roundFloat64 (roundFloat64 (math.logHfsq f - roundFloat64 (roundFloat64
      (math.logS f * roundFloat64 (math.logHfsq f + math.logR (math.logS f))) +
        -math.Ln2Lo)) - f) :=
    roundFloat64_ge f12n (by linarith)
  exact roundFloat64_le f8n (by linarith)

/-- `math.log` on the lower part of `[1/2, 1)`, where `k = -1`: for `f` from
`2^-48` on the result is above `-(Ln2Hi + Ln2Lo)` by `2^-50` at least. -/
theorem logCompute_neg_one_ge (f : ℚ) (h1 : 1 / 2 ^ 48 ≤ f) (h2 : f ≤ 7 / 16) :
    -(math.Ln2Hi + math.Ln2Lo) + 1 / 2 ^ 50 ≤ math.logCompute (-1) f := by
  have hf0 : (0 : ℚ) ≤ f := le_trans (by positivity) h1
  have hW := (logW_bounds f (by linarith) h2).1 hf0
  have hh := logHfsq_bounds f (by linarith) h2
  have hq := logHfsq_le_quarter f hf0 h2
  have hlo0 : (0 : ℚ) ≤ math.Ln2Lo := by unfold math.Ln2Lo; norm_num
  have hlo1 : math.Ln2Lo ≤ 1 / 2 ^ 32 := by unfold math.Ln2Lo; norm_num
  have hhi1 : math.Ln2Hi ≤ 3 / 4 := by unfold math.Ln2Hi; norm_num
  have hhi0 : (0 : ℚ) ≤ math.Ln2Hi := by unfold math.Ln2Hi; norm_num
  have fv : IsFloat64 (math.Ln2Lo - 1 / 2 ^ 49) := by
    have : math.Ln2Lo - 1 / 2 ^ 49 = ((3690990116052539 : ℕ) : ℚ) / 2 ^ 84 := by
      unfold math.Ln2Lo; norm_num
    rw [this]
    exact isFloat64_ofNat_div _ 84 (by norm_num)
  unfold math.logCompute
  rw [neg_one_mul, neg_one_mul, roundFloat64_of_isFloat64 (isFloat64_neg isFloat64_Ln2Hi),
    roundFloat64_of_isFloat64 (isFloat64_neg isFloat64_Ln2Lo)]
  have hI1 : -math.Ln2Lo ≤ roundFloat64 (roundFloat64 (math.logS f *
      roundFloat64 (math.logHfsq f + math.logR (math.logS f))) + -math.Ln2Lo) :=
    roundFloat64_ge (isFloat64_neg isFloat64_Ln2Lo) (by linarith [hW.1])
  have hI2a : roundFloat64 (math.logHfsq f - roundFloat64 (roundFloat64 (math.logS f *
      roundFloat64 (math.logHfsq f + math.logR (math.logS f))) + -math.Ln2Lo)) ≤
      roundFloat64 (f / 4 + math.Ln2Lo) :=
    roundFloat64_mono (by linarith)
  have hrel := roundFloat64_rel (f / 4 + math.Ln2Lo)
  rw [abs_of_nonneg (by linarith : (0 : ℚ) ≤ f / 4 + math.Ln2Lo)] at hrel
  have hI2b := (abs_le.mp hrel).2
  have hsmall : (f / 4 + math.Ln2Lo) / 2 ^ 53 ≤ f / 4 := by
    rw [div_le_iff₀ (by positivity)]
    have : math.Ln2Lo ≤ f * 2 ^ 16 := by
      have : (1 : ℚ) / 2 ^ 32 ≤ f * 2 ^ 16 := by
        have h3 : (1 : ℚ) / 2 ^ 48 * 2 ^ 16 ≤ f * 2 ^ 16 :=
          mul_le_mul_of_nonneg_right h1 (by positivity)
        have h4 : (1 : ℚ) / 2 ^ 48 * 2 ^ 16 = 1 / 2 ^ 32 := by norm_num
        linarith
      linarith
    have h5 : f / 4 * 2 ^ 53 = f * 2 ^ 51 := by ring
    have h6 : f * 2 ^ 16 ≤ f * (2 ^ 51 - 1 / 4) :=
      mul_le_mul_of_nonneg_left (by norm_num) hf0
    nlinarith
  have hhalf : (1 : ℚ) / 2 ^ 49 ≤ f / 2 := by
    have : (1 : ℚ) / 2 ^ 49 = 1 / 2 ^ 48 / 2 := by norm_num
    linarith
  have hI3 : roundFloat64 (roundFloat64 (math.logHfsq f - roundFloat64 (roundFloat64
      (math.logS f * roundFloat64 (math.logHfsq f + math.logR (math.logS f))) +
        -math.Ln2Lo)) - f) ≤ math.Ln2Lo - 1 / 2 ^ 49 :=
    roundFloat64_le fv (by linarith)
  have herr := roundFloat64_abs_error (-math.Ln2Hi - (math.Ln2Lo - 1 / 2 ^ 49)) (-1) (by
    rw [abs_lt]
    constructor
    · norm_num
      have : (1 : ℚ) / 2 ^ 49 ≥ 0 := by positivity
      linarith
    · norm_num
      have : (1 : ℚ) / 2 ^ 49 ≤ 1 / 4 := by norm_num
      linarith)
  have herr2 := (abs_le.mp herr).1
  have hz : (2 : ℚ) ^ ((-1 : ℤ) - 53) = 1 / 2 ^ 54 := by
    rw [show ((-1 : ℤ) - 53) = -54 by norm_num, zpow_neg]
    norm_num
  rw [hz] at herr2
  have hmono : roundFloat64 (-math.Ln2Hi - (math.Ln2Lo - 1 / 2 ^ 49)) ≤
      roundFloat64 (-math.Ln2Hi - roundFloat64 (roundFloat64 (math.logHfsq f -
        roundFloat64 (roundFloat64 (math.logS f *
          roundFloat64 (math.logHfsq f + math.logR (math.logS f))) + -math.Ln2Lo)) - f)) :=
    roundFloat64_mono (by linarith)
  have hnum : (1 : ℚ) / 2 ^ 50 ≤ 1 / 2 ^ 49 - 1 / 2 ^ 54 := by norm_num
  linarith

theorem Frexp_of_mem (frac : ℚ) (h1 : 1 / 2 ≤ frac) (h2 : frac < 1) :
    math.Frexp frac = (frac, 0) := by
  have hl : Int.log 2 |frac| = -1 := by
    apply log_unique
    · rw [abs_of_pos (by linarith)]
      norm_num
      linarith
    · rw [abs_of_pos (by linarith)]
      norm_num
      exact h2
  unfold math.Frexp
  rw [if_neg (by linarith), hl]
  norm_num

theorem Frexp_natCast (x : ℕ) (h : 1 ≤ x) :
    math.Frexp (x : ℚ) = ((x : ℚ) / 2 ^ (Nat.log 2 x + 1), ((Nat.log 2 x + 1 : ℕ) : ℤ)) := by
  have hx : (x : ℚ) ≠ 0 := by
    have : (0 : ℚ) < x := by exact_mod_cast h
    exact ne_of_gt this
  have hl : Int.log 2 |(x : ℚ)| = (Nat.log 2 x : ℤ) := by
    apply log_unique
    · rw [abs_of_nonneg (by positivity), zpow_natCast]
      exact_mod_cast Nat.pow_log_le_self 2 (by omega)
    · rw [abs_of_nonneg (by positivity)]
      have := Nat.lt_pow_succ_log_self (b := 2) (by norm_num) x
      have e : ((Nat.log 2 x : ℤ) + 1) = ((Nat.log 2 x + 1 : ℕ) : ℤ) := by push_cast; ring
      rw [e, zpow_natCast]
      exact_mod_cast this
  unfold math.Frexp
  rw [if_neg hx, hl]
  have e : ((Nat.log 2 x : ℤ) + 1) = ((Nat.log 2 x + 1 : ℕ) : ℤ) := by push_cast; ring
  rw [e, zpow_natCast]

/-- `math.Log` is the reduction of the argument followed by the computation. -/
theorem Log_eq (x : ℚ) :
    math.Log x =
      math.logCompute
        (((if (math.Frexp x).1 < math.Sqrt2Half then (math.Frexp x).2 - 1
          else (math.Frexp x).2 : ℤ) : ℚ))
        (roundFloat64 ((if (math.Frexp x).1 < math.Sqrt2Half
          then roundFloat64 ((math.Frexp x).1 * 2) else (math.Frexp x).1) - 1)) := by
  rfl

theorem Log_upper (frac : ℚ) (h1 : math.Sqrt2Half ≤ frac) (h2 : frac < 1) :
    math.Log frac = math.logCompute 0 (roundFloat64 (frac - 1)) := by
  have hs : (1 : ℚ) / 2 ≤ math.Sqrt2Half := by unfold math.Sqrt2Half; norm_num
  rw [Log_eq, Frexp_of_mem frac (by linarith) h2]
  simp only [if_neg (not_lt.mpr h1), Int.cast_zero]

theorem Log_lower (frac : ℚ) (h1 : 1 / 2 ≤ frac) (h2 : frac < math.Sqrt2Half) :
    math.Log frac = math.logCompute (-1) (roundFloat64 (roundFloat64 (frac * 2) - 1)) := by
  have hs : math.Sqrt2Half ≤ 1 := by unfold math.Sqrt2Half; norm_num
  rw [Log_eq, Frexp_of_mem frac h1 (by linarith)]
  simp only [if_pos h2]
  norm_num

/-- The product of `math.Log` of a fraction in `[1/2, 1)` with `1/Ln2`: it is
not positive; it is at most `-v` for a float64 `v` up to 5/4 of the distance
`p` of the fraction from 1; and it is at least -1 when the fraction is at least
`1/2 + 2^-49`. -/
theorem LogTimes_bounds (frac p v : ℚ) (hp : IsFloat64 p) (hp0 : 0 ≤ p) (hp1 : p ≤ 1 / 16)
    (hv : IsFloat64 v) (hvp : v ≤ 5 / 4 * p)
    (h1 : 1 / 2 ≤ frac) (h2 : frac ≤ 1 - p) (h3 : frac < 1) :
    roundFloat64 (math.Log frac * math.InvLn2) ≤ -v ∧
    (1 / 2 + 1 / 2 ^ 49 ≤ frac → -1 ≤ roundFloat64 (math.Log frac * math.InvLn2)) := by
  have hC1 : (5 : ℚ) / 4 ≤ math.InvLn2 := by unfold math.InvLn2; norm_num
  have hC2 : math.InvLn2 ≤ 2 := by unfold math.InvLn2; norm_num
  have hS1 : (-5 : ℚ) / 16 ≤ math.Sqrt2Half - 1 := by unfold math.Sqrt2Half; norm_num
  have hS2 : math.Sqrt2Half * 2 - 1 ≤ 7 / 16 := by unfold math.Sqrt2Half; norm_num
  have f516 : IsFloat64 ((-5 : ℚ) / 16) := by
    have := isFloat64_neg (by simpa using isFloat64_ofNat_div 5 4 (by norm_num) :
      IsFloat64 ((5 : ℚ) / 16))
    rwa [neg_div]
  have f716 : IsFloat64 ((7 : ℚ) / 16) := by simpa using isFloat64_ofNat_div 7 4 (by norm_num)
  have f1 : IsFloat64 (1 : ℚ) := by simpa using isFloat64_ofNat_div 1 0 (by norm_num)
  have fm1 : IsFloat64 (-1 : ℚ) := isFloat64_neg f1
  have fS2 : IsFloat64 (math.Sqrt2Half * 2) := by
    have : math.Sqrt2Half * 2 = ((6369051672525773 : ℕ) : ℚ) / 2 ^ 52 := by
      unfold math.Sqrt2Half; norm_num
    rw [this]
    exact isFloat64_ofNat_div _ 52 (by norm_num)
  rcases le_or_lt math.Sqrt2Half frac with hb | hb
  · -- upper part: k = 0
    rw [Log_upper frac hb h3]
    have hf1 : -5 / 16 ≤ roundFloat64 (frac - 1) := roundFloat64_ge f516 (by linarith)
    have hf2 : roundFloat64 (frac - 1) ≤ -p := roundFloat64_le (isFloat64_neg hp) (by linarith)
    obtain ⟨l1, l2⟩ := logCompute_zero _ p hp hf1 hf2 hp0
    constructor
    · apply roundFloat64_le (isFloat64_neg hv)
      nlinarith
    · intro _
      apply roundFloat64_ge fm1
      nlinarith
  · -- lower part: k = -1
    rw [Log_lower frac h1 hb]
    have hg1 : 1 ≤ roundFloat64 (frac * 2) := roundFloat64_ge f1 (by linarith)
    have hg2 : roundFloat64 (frac * 2) ≤ math.Sqrt2Half * 2 :=
      roundFloat64_le fS2 (by linarith)
    have hf1 : 0 ≤ roundFloat64 (roundFloat64 (frac * 2) - 1) :=
      roundFloat64_ge isFloat64_zero (by linarith)
    have hf2 : roundFloat64 (roundFloat64 (frac * 2) - 1) ≤ 7 / 16 :=
      roundFloat64_le f716 (by linarith)
    have l1 := logCompute_neg_one_le _ hf1 hf2
    constructor
    · apply roundFloat64_le (isFloat64_neg hv)
      nlinarith
    · intro hlow
      have fa : IsFloat64 ((1 : ℚ) + 1 / 2 ^ 48) := by
        have : (1 : ℚ) + 1 / 2 ^ 48 = ((281474976710657 : ℕ) : ℚ) / 2 ^ 48 := by norm_num
        rw [this]
        exact isFloat64_ofNat_div _ 48 (by norm_num)
      have fb : IsFloat64 ((1 : ℚ) / 2 ^ 48) := by
        simpa using isFloat64_ofNat_div 1 48 (by norm_num)
      have hg3 : 1 + 1 / 2 ^ 48 ≤ roundFloat64 (frac * 2) := by
        apply roundFloat64_ge fa
        have : (1 : ℚ) / 2 ^ 49 * 2 = 1 / 2 ^ 48 := by norm_num
        linarith
      have hf3 : 1 / 2 ^ 48 ≤ roundFloat64 (roundFloat64 (frac * 2) - 1) :=
        roundFloat64_ge fb (by linarith)
      have l2 := logCompute_neg_one_ge _ hf3 hf2
      apply roundFloat64_ge fm1
      have hnum : (math.Ln2Hi + math.Ln2Lo - 1 / 2 ^ 50) * math.InvLn2 ≤ 1 := by
        unfold math.Ln2Hi math.Ln2Lo math.InvLn2; norm_num
      have hpos : (0 : ℚ) ≤ math.Ln2Hi + math.Ln2Lo - 1 / 2 ^ 50 := by
        unfold math.Ln2Hi math.Ln2Lo; norm_num
      nlinarith

theorem truncate_natCast (n : ℕ) : truncate (n : ℚ) = n := by
  unfold truncate
  rw [if_pos (by positivity)]
  exact_mod_cast Int.floor_natCast (α := ℚ) n

/-- `int(math.Log2(x))` is exact on the powers of two. -/
theorem intLog2_pow (j : ℕ) : intLog2 (2 ^ j) = j := by
  unfold intLog2 math.Log2
  have h := Frexp_natCast (2 ^ j) (Nat.one_le_two_pow)
  rw [Nat.log_pow (by norm_num)] at h
  push_cast at h ⊢
  rw [h]
  have e : (2 : ℚ) ^ j / 2 ^ (j + 1) = 1 / 2 := by
    rw [pow_succ]
    field_simp
  simp only [e, if_true]
  have key : ∀ q : ℚ, q = (j : ℚ) → truncate q = (j : ℤ) := by
    intro q hq
    rw [hq]
    exact truncate_natCast j
  apply key
  push_cast
  ring

/-- The shape of `math.Log2` at a natural number that is not a power of two. -/
theorem Log2_natCast (x : ℕ) (h : 1 ≤ x) (hne : (x : ℚ) / 2 ^ (Nat.log 2 x + 1) ≠ 1 / 2) :
    math.Log2 (x : ℚ) =
      roundFloat64 (roundFloat64 (math.Log ((x : ℚ) / 2 ^ (Nat.log 2 x + 1)) * math.InvLn2) +
        ((Nat.log 2 x : ℚ) + 1)) := by
  unfold math.Log2
  rw [Frexp_natCast x h]
  simp only [if_neg hne]
  push_cast
  rfl

theorem frac_bounds (x : ℕ) (h : 1 ≤ x) :
    (1 : ℚ) / 2 ≤ (x : ℚ) / 2 ^ (Nat.log 2 x + 1) ∧ (x : ℚ) / 2 ^ (Nat.log 2 x + 1) < 1 := by
  have h1 := Nat.pow_log_le_self 2 (show x ≠ 0 by omega)
  have h2 := Nat.lt_pow_succ_log_self (b := 2) (by norm_num) x
  have hN : (0 : ℚ) < 2 ^ (Nat.log 2 x + 1) := by positivity
  have c1 : ((2 ^ Nat.log 2 x : ℕ) : ℚ) ≤ (x : ℚ) := by exact_mod_cast h1
  have c2 : (x : ℚ) < ((2 ^ (Nat.log 2 x + 1) : ℕ) : ℚ) := by exact_mod_cast h2
  push_cast at c1 c2
  constructor
  · rw [le_div_iff₀ hN, pow_succ]
    linarith
  · rw [div_lt_one hN]
    exact c2

/-- `int(math.Log2(x))` is at most one above the floor of the binary logarithm,
for every float64 `x` that is a natural number up to `2^64`. -/
theorem intLog2_le (x : ℕ) (h : 1 ≤ x) (h64 : x ≤ 2 ^ 64) :
    intLog2 x ≤ (Nat.log 2 x : ℤ) + 1 := by
  have he : Nat.log 2 x ≤ 64 := by
    have := Nat.log_mono_right (b := 2) h64
    rwa [Nat.log_pow (by norm_num)] at this
  obtain ⟨b1, b2⟩ := frac_bounds x h
  by_cases hp : (x : ℚ) / 2 ^ (Nat.log 2 x + 1) = 1 / 2
  · unfold intLog2 math.Log2
    rw [Frexp_natCast x h]
    simp only [if_pos hp]
    have key : ∀ q : ℚ, q = (Nat.log 2 x : ℚ) → truncate q = (Nat.log 2 x : ℤ) := by
      intro q hq
      rw [hq]
      exact truncate_natCast _
    rw [key _ (by push_cast; ring)]
    omega
  · unfold intLog2
    rw [Log2_natCast x h hp]
    have hT := (LogTimes_bounds _ 0 0 isFloat64_zero (le_refl _) (by norm_num) isFloat64_zero
      (by norm_num) b1 (by linarith) b2).1
    have fe : IsFloat64 ((Nat.log 2 x : ℚ) + 1) := by
      have := isFloat64_intCast ((Nat.log 2 x + 1 : ℕ) : ℤ) (by
        rw [abs_of_nonneg (by positivity)]
        have : ((Nat.log 2 x + 1 : ℕ) : ℤ) ≤ 65 := by
          exact_mod_cast (by omega : Nat.log 2 x + 1 ≤ 65)
        omega)
      simpa using this
    have hr : roundFloat64 (roundFloat64 (math.Log ((x : ℚ) / 2 ^ (Nat.log 2 x + 1)) *
        math.InvLn2) + ((Nat.log 2 x : ℚ) + 1)) ≤ (Nat.log 2 x : ℚ) + 1 :=
      roundFloat64_le fe (by linarith)
    unfold truncate
    split
    · rw [Int.floor_le_iff]
      push_cast
      linarith
    · rename_i hneg
      have hlt : roundFloat64 (roundFloat64 (math.Log ((x : ℚ) / 2 ^ (Nat.log 2 x + 1)) *
          math.InvLn2) + ((Nat.log 2 x : ℚ) + 1)) ≤ ((0 : ℤ) : ℚ) := by
        push_cast
        exact le_of_lt (not_le.mp hneg)
      have := Int.ceil_le.mpr hlt
      omega

/-- `int(math.Log2(x))` is the floor of the binary logarithm for every natural
number `x` from 1 to `2^49 - 2`. -/
theorem intLog2_exact (x : ℕ) (h : 1 ≤ x) (h49 : x + 2 ≤ 2 ^ 49) :
    intLog2 x = (Nat.log 2 x : ℤ) := by
  have h1 := Nat.pow_log_le_self 2 (show x ≠ 0 by omega)
  have h2 := Nat.lt_pow_succ_log_self (b := 2) (by norm_num) x
  have he : Nat.log 2 x ≤ 48 := by
    by_contra hc
    have : 2 ^ 49 ≤ 2 ^ Nat.log 2 x := Nat.pow_le_pow_right (by norm_num) (by omega)
    omega
  by_cases hp : (x : ℚ) / 2 ^ (Nat.log 2 x + 1) = 1 / 2
  · unfold intLog2 math.Log2
    rw [Frexp_natCast x h]
    simp only [if_pos hp]
    have key : ∀ q : ℚ, q = (Nat.log 2 x : ℚ) → truncate q = (Nat.log 2 x : ℤ) := by
      intro q hq
      rw [hq]
      exact truncate_natCast _
    exact key _ (by push_cast; ring)
  · obtain ⟨b1, b2⟩ := frac_bounds x h
    have hN : (0 : ℚ) < 2 ^ (Nat.log 2 x + 1) := by positivity
    have hxne : x ≠ 2 ^ Nat.log 2 x := by
      intro hc
      apply hp
      have : (x : ℚ) = 2 ^ Nat.log 2 x := by exact_mod_cast hc
      rw [this, pow_succ]
      field_simp
    have hx1 : 2 ^ Nat.log 2 x + 1 ≤ x := by omega
    have hN49 : 2 ^ (Nat.log 2 x + 1) ≤ 2 ^ 49 := Nat.pow_le_pow_right (by norm_num) (by omega)
    -- the distance from 1
    have hup : 2 ^ (Nat.log 2 x + 1) + x * 2 ^ 48 ≤ 2 ^ (Nat.log 2 x + 1) * 2 ^ 48 := by
      rcases Nat.lt_or_ge (Nat.log 2 x) 48 with h48 | h48
      · have h3 : 2 ^ (Nat.log 2 x + 1) ≤ 2 ^ 48 := Nat.pow_le_pow_right (by norm_num) (by omega)
        have h4 : (x + 1) * 2 ^ 48 ≤ 2 ^ (Nat.log 2 x + 1) * 2 ^ 48 :=
          Nat.mul_le_mul_right _ h2
        generalize 2 ^ (Nat.log 2 x + 1) = N at h3 h4 ⊢
        omega
      · have e48 : Nat.log 2 x = 48 := by omega
        rw [e48]
        omega
    have c1 : ((2 ^ (Nat.log 2 x + 1) + x * 2 ^ 48 : ℕ) : ℚ) ≤
        ((2 ^ (Nat.log 2 x + 1) * 2 ^ 48 : ℕ) : ℚ) := by exact_mod_cast hup
    have c2 : ((2 ^ Nat.log 2 x + 1 : ℕ) : ℚ) ≤ (x : ℚ) := by exact_mod_cast hx1
    have c3 : ((2 ^ (Nat.log 2 x + 1) : ℕ) : ℚ) ≤ ((2 ^ 49 : ℕ) : ℚ) := by exact_mod_cast hN49
    push_cast at c1 c2 c3
    have hfrac1 : (x : ℚ) / 2 ^ (Nat.log 2 x + 1) ≤ 1 - 1 / 2 ^ 48 := by
      rw [div_le_iff₀ hN]
      norm_num at c1 ⊢
      linarith
    have hfrac2 : 1 / 2 + 1 / 2 ^ 49 ≤ (x : ℚ) / 2 ^ (Nat.log 2 x + 1) := by
      rw [le_div_iff₀ hN]
      have e : (2 : ℚ) ^ (Nat.log 2 x + 1) = 2 * 2 ^ Nat.log 2 x := by rw [pow_succ]; ring
      norm_num at c3 ⊢
      rw [e] at c3 ⊢
      linarith
    have fp : IsFloat64 ((1 : ℚ) / 2 ^ 48) := by simpa using isFloat64_ofNat_div 1 48 (by norm_num)
    have fv : IsFloat64 ((5 : ℚ) / 2 ^ 50) := by simpa using isFloat64_ofNat_div 5 50 (by norm_num)
    obtain ⟨t1, t2⟩ := LogTimes_bounds _ (1 / 2 ^ 48) (5 / 2 ^ 50) fp (by positivity)
      (by norm_num) fv (by norm_num) b1 hfrac1 b2
    have t3 := t2 hfrac2
    unfold intLog2
    rw [Log2_natCast x h hp]
    have fe : IsFloat64 ((Nat.log 2 x : ℕ) : ℚ) := by
      have := isFloat64_intCast ((Nat.log 2 x : ℕ) : ℤ) (by
        rw [abs_of_nonneg (by positivity)]
        have : ((Nat.log 2 x : ℕ) : ℤ) ≤ 48 := by exact_mod_cast he
        omega)
      simpa using this
    have hc48 : ((Nat.log 2 x : ℕ) : ℚ) ≤ 48 := by exact_mod_cast he
    have hc0 : (0 : ℚ) ≤ ((Nat.log 2 x : ℕ) : ℚ) := by positivity
    have hlow : ((Nat.log 2 x : ℕ) : ℚ) ≤ roundFloat64 (roundFloat64
        (math.Log ((x : ℚ) / 2 ^ (Nat.log 2 x + 1)) * math.InvLn2) +
          ((Nat.log 2 x : ℚ) + 1)) := by
      apply roundFloat64_ge fe
      linarith
    have herr := roundFloat64_abs_error (roundFloat64
        (math.Log ((x : ℚ) / 2 ^ (Nat.log 2 x + 1)) * math.InvLn2) +
          ((Nat.log 2 x : ℚ) + 1)) 5 (by
      rw [abs_lt]
      constructor
      · norm_num
        linarith
      · norm_num
        have : (5 : ℚ) / 2 ^ 50 ≥ 0 := by positivity
        linarith)
    have hz : (2 : ℚ) ^ ((5 : ℤ) - 53) = 4 / 2 ^ 50 := by
      rw [show ((5 : ℤ) - 53) = -48 by norm_num, zpow_neg]
      norm_num
    rw [hz] at herr
    have hup2 := (abs_le.mp herr).2
    have hhigh : roundFloat64 (roundFloat64
        (math.Log ((x : ℚ) / 2 ^ (Nat.log 2 x + 1)) * math.InvLn2) +
          ((Nat.log 2 x : ℚ) + 1)) < ((Nat.log 2 x : ℕ) : ℚ) + 1 := by
      have : (0 : ℚ) < 1 / 2 ^ 50 := by positivity
      have e5 : (5 : ℚ) / 2 ^ 50 = 4 / 2 ^ 50 + 1 / 2 ^ 50 := by norm_num
      linarith
    unfold truncate
    rw [if_pos (le_trans hc0 hlow)]
    rw [Int.floor_eq_iff]
    exact ⟨by exact_mod_cast hlow, by exact_mod_cast hhigh⟩

/-- The value of `R` is at most twice a float64 bound of the square of `s`. -/
theorem logR_le (s B : ℚ) (hB : IsFloat64 B) (hB2 : IsFloat64 (2 * B)) (hs : s * s ≤ B)
    (hB16 : B ≤ 1 / 16) : math.logR s ≤ 2 * B := by
  have f2 : IsFloat64 ((1 : ℚ) / 256) := by simpa using isFloat64_ofNat_div 1 8 (by norm_num)
  have f3 : IsFloat64 ((1 : ℚ) / 2) := by simpa using isFloat64_ofNat_div 1 1 (by norm_num)
  have f4 : IsFloat64 (1 : ℚ) := by simpa using isFloat64_ofNat_div 1 0 (by norm_num)
  have f16 : IsFloat64 ((1 : ℚ) / 16) := by simpa using isFloat64_ofNat_div 1 4 (by norm_num)
  have hB0 : 0 ≤ B := le_trans (mul_self_nonneg s) hs
  have a0 : 0 ≤ roundFloat64 (s * s) := roundFloat64_nonneg _ (mul_self_nonneg s)
  have a1 : roundFloat64 (s * s) ≤ B := roundFloat64_le hB hs
  have a2 : roundFloat64 (s * s) ≤ 1 / 16 := le_trans a1 hB16
  have b0 : 0 ≤ roundFloat64 (roundFloat64 (s * s) * roundFloat64 (s * s)) :=
    roundFloat64_nonneg _ (mul_self_nonneg _)
  have b1 : roundFloat64 (roundFloat64 (s * s) * roundFloat64 (s * s)) ≤ 1 / 256 :=
    roundFloat64_le f2 (by
      have := mul_le_mul a2 a2 a0 (by norm_num : (0 : ℚ) ≤ 1 / 16)
      linarith)
  have b2 : roundFloat64 (roundFloat64 (s * s) * roundFloat64 (s * s)) ≤ B :=
    roundFloat64_le hB (by
      have := mul_le_mul a1 (le_trans a2 (by norm_num : (1 : ℚ) / 16 ≤ 1)) a0 hB0
      linarith)
  have step : ∀ (L p : ℚ), 0 ≤ L → L ≤ 1 / 2 - 1 / 256 → 0 ≤ p → p ≤ 1 →
      0 ≤ roundFloat64 (L + roundFloat64
        (roundFloat64 (roundFloat64 (s * s) * roundFloat64 (s * s)) * p)) ∧
      roundFloat64 (L + roundFloat64
        (roundFloat64 (roundFloat64 (s * s) * roundFloat64 (s * s)) * p)) ≤ 1 / 2 := by
    intro L p hL0 hL hp0 hp
    have hm : 0 ≤ roundFloat64 (roundFloat64 (roundFloat64 (s * s) * roundFloat64 (s * s)) * p) ∧
        roundFloat64 (roundFloat64 (roundFloat64 (s * s) * roundFloat64 (s * s)) * p) ≤
          1 / 256 :=
      roundFloat64_between isFloat64_zero f2 (mul_nonneg b0 hp0) (by nlinarith)
    exact roundFloat64_add_bounds f3 hL0 hm.1 (by linarith [hm.2])
  have c7 : (0 : ℚ) ≤ math.L7 ∧ math.L7 ≤ 1 := by unfold math.L7; constructor <;> norm_num
  have c5 : (0 : ℚ) ≤ math.L5 ∧ math.L5 ≤ 1 / 2 - 1 / 256 := by
    unfold math.L5; constructor <;> norm_num
  have c3 : (0 : ℚ) ≤ math.L3 ∧ math.L3 ≤ 1 / 2 - 1 / 256 := by
    unfold math.L3; constructor <;> norm_num
  have c1 : (0 : ℚ) ≤ math.L1 ∧ math.L1 ≤ 1 - 1 / 256 := by
    unfold math.L1; constructor <;> norm_num
  have c6 : (0 : ℚ) ≤ math.L6 ∧ math.L6 ≤ 1 := by unfold math.L6; constructor <;> norm_num
  have c4 : (0 : ℚ) ≤ math.L4 ∧ math.L4 ≤ 1 / 2 - 1 / 256 := by
    unfold math.L4; constructor <;> norm_num
  have c2 : (0 : ℚ) ≤ math.L2 ∧ math.L2 ≤ 1 / 2 - 1 / 256 := by
    unfold math.L2; constructor <;> norm_num
  have p3 := step math.L5 math.L7 c5.1 c5.2 c7.1 c7.2
  have p2 := step math.L3 _ c3.1 c3.2 p3.1 (by linarith [p3.2])
  have hm1 : 0 ≤ roundFloat64 (roundFloat64 (roundFloat64 (s * s) * roundFloat64 (s * s)) *
        roundFloat64 (math.L3 + roundFloat64
          (roundFloat64 (roundFloat64 (s * s) * roundFloat64 (s * s)) *
            roundFloat64 (math.L5 + roundFloat64
              (roundFloat64 (roundFloat64 (s * s) * roundFloat64 (s * s)) * math.L7))))) ∧
      roundFloat64 (roundFloat64 (roundFloat64 (s * s) * roundFloat64 (s * s)) *
        roundFloat64 (math.L3 + roundFloat64
          (roundFloat64 (roundFloat64 (s * s) * roundFloat64 (s * s)) *
            roundFloat64 (math.L5 + roundFloat64
              (roundFloat64 (roundFloat64 (s * s) * roundFloat64 (s * s)) * math.L7))))) ≤
        1 / 256 :=
    roundFloat64_between isFloat64_zero f2 (mul_nonneg b0 p2.1) (by nlinarith [p2.2])
  have p1 := roundFloat64_add_bounds (a := math.L1) f4 c1.1 hm1.1 (by linarith [hm1.2, c1.2])
  have t1 := roundFloat64_between (q := roundFloat64 (s * s) * _) isFloat64_zero hB
    (mul_nonneg a0 p1.1) (by
      have := mul_le_mul a1 p1.2 p1.1 hB0
      linarith)
  have q2 := step math.L4 math.L6 c4.1 c4.2 c6.1 c6.2
  have q1 := step math.L2 _ c2.1 c2.2 q2.1 (by linarith [q2.2])
  have t2 := roundFloat64_between (q := roundFloat64 (roundFloat64 (s * s) *
      roundFloat64 (s * s)) * _) isFloat64_zero hB (mul_nonneg b0 q1.1) (by
      have := mul_le_mul b2 (le_trans q1.2 (by norm_num : (1 : ℚ) / 2 ≤ 1)) q1.1 hB0
      linarith)
  unfold math.logR
  exact (roundFloat64_add_bounds hB2 t1.1 t2.1 (by linarith [t1.2, t2.2])).2

/-- `math.log` just below 1: for `f` from `-2^-49` to 0 the result is at least
`-(2^-49 + 2^-98)`. -/
theorem logCompute_zero_ge (f : ℚ) (h1 : -(1 / 2 ^ 49) ≤ f) (h2 : f ≤ 0) :
    -(1 / 2 ^ 49 + 1 / 2 ^ 98) ≤ math.logCompute 0 f := by
  have g49 : IsFloat64 ((1 : ℚ) / 2 ^ 49) := by simpa using isFloat64_ofNat_div 1 49 (by norm_num)
  have g50 : IsFloat64 ((1 : ℚ) / 2 ^ 50) := by simpa using isFloat64_ofNat_div 1 50 (by norm_num)
  have g98 : IsFloat64 ((1 : ℚ) / 2 ^ 98) := by simpa using isFloat64_ofNat_div 1 98 (by norm_num)
  have g97 : IsFloat64 (2 * ((1 : ℚ) / 2 ^ 98)) := by
    have : 2 * ((1 : ℚ) / 2 ^ 98) = ((1 : ℕ) : ℚ) / 2 ^ 97 := by norm_num
    rw [this]
    exact isFloat64_ofNat_div 1 97 (by norm_num)
  have g99 : IsFloat64 ((1 : ℚ) / 2 ^ 99) := by simpa using isFloat64_ofNat_div 1 99 (by norm_num)
  have g96 : IsFloat64 ((1 : ℚ) / 2 ^ 96) := by simpa using isFloat64_ofNat_div 1 96 (by norm_num)
  have g145 : IsFloat64 ((1 : ℚ) / 2 ^ 145) := by
    simpa using isFloat64_ofNat_div 1 145 (by norm_num)
  have gU : IsFloat64 ((1 : ℚ) / 2 ^ 98 + 1 / 2 ^ 49) := by
    have : (1 : ℚ) / 2 ^ 98 + 1 / 2 ^ 49 = ((562949953421313 : ℕ) : ℚ) / 2 ^ 98 := by norm_num
    rw [this]
    exact isFloat64_ofNat_div _ 98 (by norm_num)
  have f1 : IsFloat64 (1 : ℚ) := by simpa using isFloat64_ofNat_div 1 0 (by norm_num)
  have hd : 1 ≤ roundFloat64 (2 + f) := roundFloat64_ge f1 (by
    have : (1 : ℚ) / 2 ^ 49 ≤ 1 := by norm_num
    linarith)
  have hd0 : (0 : ℚ) < roundFloat64 (2 + f) := by linarith
  have hs1 : -(1 / 2 ^ 49) ≤ math.logS f := by
    unfold math.logS
    apply roundFloat64_ge (isFloat64_neg g49)
    rw [le_div_iff₀ hd0]
    nlinarith
  have hs2 : math.logS f ≤ 0 := by
    unfold math.logS
    exact roundFloat64_nonpos _ (div_nonpos_of_nonpos_of_nonneg h2 (le_of_lt hd0))
  have hss : math.logS f * math.logS f ≤ 1 / 2 ^ 98 := by
    have : (1 : ℚ) / 2 ^ 98 = 1 / 2 ^ 49 * (1 / 2 ^ 49) := by norm_num
    rw [this]
    nlinarith
  have hR0 := (logR_bounds (math.logS f) (by
    have : (1 : ℚ) / 2 ^ 49 ≤ 1 / 4 := by norm_num
    linarith) (by linarith)).1
  have hR := logR_le (math.logS f) (1 / 2 ^ 98) g98 g97 hss (by norm_num)
  have hh0 : 0 ≤ math.logHfsq f := (logHfsq_bounds f (by
    have : (1 : ℚ) / 2 ^ 49 ≤ 5 / 16 := by norm_num
    linarith) (by linarith)).1
  have hh1 : math.logHfsq f ≤ 1 / 2 ^ 99 := by
    unfold math.logHfsq
    have a := roundFloat64_between (q := 1 / 2 * f) (isFloat64_neg g50) isFloat64_zero (by
      have : (1 : ℚ) / 2 ^ 50 = 1 / 2 * (1 / 2 ^ 49) := by norm_num
      linarith) (by linarith)
    apply roundFloat64_le g99
    have : (1 : ℚ) / 2 ^ 99 = 1 / 2 ^ 50 * (1 / 2 ^ 49) := by norm_num
    rw [this]
    nlinarith [a.1, a.2]
  have hG := roundFloat64_between (q := math.logHfsq f + math.logR (math.logS f))
    isFloat64_zero g96 (by linarith) (by
      have : (1 : ℚ) / 2 ^ 99 + 2 * (1 / 2 ^ 98) ≤ 1 / 2 ^ 96 := by norm_num
      linarith)
  have hW := roundFloat64_between (q := math.logS f *
    roundFloat64 (math.logHfsq f + math.logR (math.logS f))) (isFloat64_neg g145) isFloat64_zero
    (by
      have : (1 : ℚ) / 2 ^ 145 = 1 / 2 ^ 49 * (1 / 2 ^ 96) := by norm_num
      rw [this]
      nlinarith [hG.1, hG.2])
    (mul_nonpos_of_nonpos_of_nonneg hs2 hG.1)
  unfold math.logCompute
  simp only [zero_mul, roundFloat64_zero, add_zero, zero_sub]
  have hW1 := roundFloat64_between (isFloat64_neg g145) isFloat64_zero hW.1 hW.2
  have hV := roundFloat64_le (q := math.logHfsq f - roundFloat64 (roundFloat64
    (math.logS f * roundFloat64 (math.logHfsq f + math.logR (math.logS f))))) g98 (by
      have : (1 : ℚ) / 2 ^ 99 + 1 / 2 ^ 145 ≤ 1 / 2 ^ 98 := by norm_num
      linarith [hW1.1])
  have hU := roundFloat64_le (q := roundFloat64 (math.logHfsq f - roundFloat64
    (roundFloat64 (math.logS f * roundFloat64 (math.logHfsq f + math.logR (math.logS f))))) - f)
    gU (by linarith)
  apply roundFloat64_ge (isFloat64_neg (by
    have : (1 : ℚ) / 2 ^ 49 + 1 / 2 ^ 98 = 1 / 2 ^ 98 + 1 / 2 ^ 49 := by ring
    rw [this]
    exact gU))
  linarith

/-- A number less than `3/8` of a unit in the last place below an integer from
33 to 64 rounds to that integer. -/
theorem roundFloat64_below_int (n : ℕ) (h1 : 33 ≤ n) (h2 : n ≤ 64) :
    roundFloat64 ((n : ℚ) - 3 / 2 ^ 50) = n := by
  have c1 : (33 : ℚ) ≤ n := by exact_mod_cast h1
  have c2 : (n : ℚ) ≤ 64 := by exact_mod_cast h2
  have hpos : (0 : ℚ) < (n : ℚ) - 3 / 2 ^ 50 := by
    have : (3 : ℚ) / 2 ^ 50 ≤ 1 := by norm_num
    linarith
  have hl : Int.log 2 |(n : ℚ) - 3 / 2 ^ 50| = 5 := by
    apply log_unique
    · rw [abs_of_pos hpos]
      have : (3 : ℚ) / 2 ^ 50 ≤ 1 := by norm_num
      norm_num
      linarith
    · rw [abs_of_pos hpos]
      have : (0 : ℚ) < 3 / 2 ^ 50 := by positivity
      norm_num
      linarith
  have hz : (2 : ℚ) ^ ((5 : ℤ) - 52) = 1 / 2 ^ 47 := by
    rw [show ((5 : ℤ) - 52) = -47 by norm_num, zpow_neg]
    norm_num
  have hm : ((n : ℚ) - 3 / 2 ^ 50) / (1 / 2 ^ 47) = (n : ℚ) * 2 ^ 47 - 3 / 8 := by
    field_simp
    ring
  have hfloor : ⌊(n : ℚ) * 2 ^ 47 - 3 / 8⌋ = (n : ℤ) * 2 ^ 47 - 1 := by
    rw [Int.floor_eq_iff]
    push_cast
    constructor <;> linarith
  have hrhe : roundHalfEven ((n : ℚ) * 2 ^ 47 - 3 / 8) = (n : ℤ) * 2 ^ 47 := by
    unfold roundHalfEven
    rw [hfloor]
    push_cast
    rw [if_neg (by linarith), if_pos (by linarith)]
    ring
  have hback : (((n : ℤ) * 2 ^ 47 : ℤ) : ℚ) * (1 / 2 ^ 47) = (n : ℚ) := by
    push_cast
    rw [mul_assoc]
    norm_num
  unfold roundFloat64
  rw [if_neg (ne_of_gt hpos), hl, hz, hm, hrhe]
  exact hback

/-- `int(math.Log2(x))` is one above the floor of the binary logarithm for
every natural number `x` between `2^32` and `2^64` that is below a power of two
`2^n` by at most `2^(n-49)`. -/
theorem intLog2_rounds_up (x n : ℕ) (hn : Nat.log 2 x + 1 = n) (h33 : 33 ≤ n) (h64 : n ≤ 64)
    (hclose : 2 ^ n * 2 ^ 49 ≤ x * 2 ^ 49 + 2 ^ n) : intLog2 x = (n : ℤ) := by
  have hx : 1 ≤ x := by
    by_contra hc
    have : x = 0 := by omega
    rw [this] at hn
    simp at hn
    omega
  obtain ⟨b1, b2⟩ := frac_bounds x hx
  rw [hn] at b1 b2
  have hN : (0 : ℚ) < 2 ^ n := by positivity
  have c1 : ((2 ^ n * 2 ^ 49 : ℕ) : ℚ) ≤ ((x * 2 ^ 49 + 2 ^ n : ℕ) : ℚ) := by
    exact_mod_cast hclose
  push_cast at c1
  have hfrac : 1 - 1 / 2 ^ 49 ≤ (x : ℚ) / 2 ^ n := by
    rw [le_div_iff₀ hN]
    norm_num at c1 ⊢
    linarith
  have hS : math.Sqrt2Half ≤ 1 - 1 / 2 ^ 49 := by unfold math.Sqrt2Half; norm_num
  have hp : (x : ℚ) / 2 ^ (Nat.log 2 x + 1) ≠ 1 / 2 := by
    rw [hn]
    intro hc
    rw [hc] at hfrac
    norm_num at hfrac
  have g49 : IsFloat64 ((1 : ℚ) / 2 ^ 49) := by simpa using isFloat64_ofNat_div 1 49 (by norm_num)
  have f516 : IsFloat64 ((-5 : ℚ) / 16) := by
    have := isFloat64_neg (by simpa using isFloat64_ofNat_div 5 4 (by norm_num) :
      IsFloat64 ((5 : ℚ) / 16))
    rwa [neg_div]
  have g350 : IsFloat64 ((3 : ℚ) / 2 ^ 50) := by simpa using isFloat64_ofNat_div 3 50 (by norm_num)
  have fn : IsFloat64 (n : ℚ) := by
    have := isFloat64_intCast (n : ℤ) (by
      rw [abs_of_nonneg (by positivity)]
      have : (n : ℤ) ≤ 64 := by exact_mod_cast h64
      omega)
    simpa using this
  have hf1 : -(1 / 2 ^ 49) ≤ roundFloat64 ((x : ℚ) / 2 ^ n - 1) :=
    roundFloat64_ge (isFloat64_neg g49) (by linarith)
  have hf2 : roundFloat64 ((x : ℚ) / 2 ^ n - 1) ≤ 0 := roundFloat64_nonpos _ (by linarith)
  have hL1 := logCompute_zero_ge _ hf1 hf2
  have hL2 := (logCompute_zero (roundFloat64 ((x : ℚ) / 2 ^ n - 1)) 0 isFloat64_zero (by
    have : (1 : ℚ) / 2 ^ 49 ≤ 5 / 16 := by norm_num
    linarith) (by rw [neg_zero]; exact hf2) (le_refl _)).1
  rw [neg_zero] at hL2
  have hC : (1 / 2 ^ 49 + 1 / 2 ^ 98) * math.InvLn2 ≤ 3 / 2 ^ 50 := by
    unfold math.InvLn2; norm_num
  have hC0 : (0 : ℚ) ≤ math.InvLn2 := by unfold math.InvLn2; norm_num
  have hT1 : -(3 / 2 ^ 50) ≤ roundFloat64 (math.Log ((x : ℚ) / 2 ^ n) * math.InvLn2) := by
    rw [Log_upper _ (le_trans hS hfrac) b2]
    apply roundFloat64_ge (isFloat64_neg g350)
    nlinarith
  have hT2 : roundFloat64 (math.Log ((x : ℚ) / 2 ^ n) * math.InvLn2) ≤ 0 := by
    rw [Log_upper _ (le_trans hS hfrac) b2]
    apply roundFloat64_nonpos
    nlinarith
  unfold intLog2
  rw [Log2_natCast x hx hp, hn]
  have e1 : ((Nat.log 2 x : ℚ) + 1) = (n : ℚ) := by
    rw [← hn]
    push_cast
    ring
  rw [e1]
  have hr1 : roundFloat64 (roundFloat64 (math.Log ((x : ℚ) / 2 ^ n) * math.InvLn2) + (n : ℚ)) ≤
      n := roundFloat64_le fn (by linarith)
  have hr2 : (n : ℚ) ≤
      roundFloat64 (roundFloat64 (math.Log ((x : ℚ) / 2 ^ n) * math.InvLn2) + (n : ℚ)) := by
    have := roundFloat64_mono (a := (n : ℚ) - 3 / 2 ^ 50)
      (b := roundFloat64 (math.Log ((x : ℚ) / 2 ^ n) * math.InvLn2) + (n : ℚ)) (by linarith)
    rwa [roundFloat64_below_int n h33 h64] at this
  rw [le_antisymm hr1 hr2]
  exact truncate_natCast n


/-! ## The threshold -/

theorem toFloat64_exact (n : Nat) (h : n < 2 ^ 53) : toFloat64 n = n := by
  unfold toFloat64
  rw [if_pos h]

theorem log_two_eq (n k : Nat) (h1 : 2 ^ k ≤ n) (h2 : n < 2 ^ (k + 1)) : Nat.log 2 n = k :=
  Nat.log_eq_of_pow_le_of_lt_pow h1 h2

/-- Up to the index size 4 the threshold keeps its initial value. -/
theorem threshold_small (indexSize : Int) (h : indexSize ≤ 4) : threshold indexSize = 3 := by
  unfold threshold
  rw [if_neg (by omega)]

/-- Above 4 and up to `2^49 - 2` the threshold computed through float64 is
`floor(log2(indexSize)) + 1`. -/
theorem threshold_exact (n : Nat) (h4 : 4 < n) (h : n + 2 ≤ 2 ^ 49) :
    threshold (n : Int) = ((Nat.log 2 n : Nat) : Int) + 1 := by
  unfold threshold
  rw [if_pos (by omega)]
  simp only [Int.toNat_ofNat]
  rw [toFloat64_exact n (by omega), intLog2_exact n (by omega) h]

/-- C1 (as amended): the threshold is 3 for every index size up to 4 and
`floor(log2(indexSize)) + 1` for every index size above 4 and below `2^49 - 1`;
it is 3 for the index sizes 0 to 5 and 11 for the index size 1024. The bound
cannot be raised: at `2^49 - 1` the threshold is 50, one more than
`floor(log2(2^49 - 1)) + 1`. -/
theorem threshold_values (indexSize : Int) :
    (indexSize ≤ 4 → threshold indexSize = 3) ∧
    (4 < indexSize → indexSize < 2 ^ 49 - 1 →
      threshold indexSize = (Nat.log 2 indexSize.toNat : Nat) + 1) ∧
    threshold 0 = 3 ∧ threshold 1 = 3 ∧ threshold 2 = 3 ∧ threshold 3 = 3 ∧
    threshold 4 = 3 ∧ threshold 5 = 3 ∧ threshold 1024 = 11 ∧
    threshold (2 ^ 49 - 1) = 50 ∧
    ((Nat.log 2 (2 ^ 49 - 1 : Int).toNat : Nat) : Int) + 1 = 49 := by
  have h5 : Nat.log 2 5 = 2 := log_two_eq 5 2 (by norm_num) (by norm_num)
  have h1024 : Nat.log 2 1024 = 10 := log_two_eq 1024 10 (by norm_num) (by norm_num)
  have hbig : Nat.log 2 562949953421311 = 48 := log_two_eq _ 48 (by norm_num) (by norm_num)
  refine ⟨threshold_small indexSize, ?_, threshold_small 0 (by norm_num),
    threshold_small 1 (by norm_num), threshold_small 2 (by norm_num),
    threshold_small 3 (by norm_num), threshold_small 4 (by norm_num), ?_, ?_, ?_, ?_⟩
  · intro h4 h49
    obtain ⟨n, rfl⟩ : ∃ n : Nat, indexSize = n := ⟨indexSize.toNat, by omega⟩
    rw [Int.toNat_ofNat]
    exact threshold_exact n (by omega) (by omega)
  · have h := threshold_exact 5 (by norm_num) (by norm_num)
    rw [h5] at h
    exact h
  · have h := threshold_exact 1024 (by norm_num) (by norm_num)
    rw [h1024] at h
    exact h
  · have hx : intLog2 562949953421311 = ((49 : Nat) : Int) :=
      intLog2_rounds_up 562949953421311 49 (by rw [hbig]) (by norm_num) (by norm_num)
        (by norm_num)
    have ht : threshold 562949953421311 = 50 := by
      unfold threshold
      rw [if_pos (by norm_num)]
      have hn : (562949953421311 : Int).toNat = 562949953421311 := rfl
      rw [hn, toFloat64_exact _ (by norm_num), hx]
      norm_num
    have he : (2 ^ 49 - 1 : Int) = 562949953421311 := by norm_num
    rw [he]
    exact ht
  · have he : (2 ^ 49 - 1 : Int) = 562949953421311 := by norm_num
    have hn : (562949953421311 : Int).toNat = 562949953421311 := rfl
    rw [he, hn, hbig]
    norm_num

/-- Witness of C1: the amended statement at the index size 1000, which lies in
the range of its second part (above 4, below `2^49 - 1`). -/
theorem threshold_values_witness :
    (4 : Int) < 1000 ∧ (1000 : Int) < 2 ^ 49 - 1 ∧
    threshold 1000 = (Nat.log 2 (1000 : Int).toNat : Nat) + 1 :=
  ⟨by norm_num, by norm_num, (threshold_values 1000).2.1 (by norm_num) (by norm_num)⟩

/-- Counterexample to C1 as stated: at the index size `2^55 - 1` the conversion
to float64 rounds up to `2^55`, so the threshold is 56, while
`floor(log2(2^55 - 1)) + 1` is 55. -/
theorem threshold_large_counterexample :
    threshold 36028797018963967 = 56 ∧
    ((Nat.log 2 (36028797018963967 : Int).toNat : Nat) : Int) + 1 = 55 := by
  have h1 : Nat.log 2 36028797018963967 = 54 := log_two_eq _ 54 (by norm_num) (by norm_num)
  have h2 : intLog2 36028797018963968 = 55 := by
    have h := intLog2_pow 55
    norm_num at h
    exact h
  have h3 : (36028797018963967 : Int).toNat = 36028797018963967 := rfl
  constructor
  · have hf : toFloat64 36028797018963967 = 36028797018963968 := by
      simp [toFloat64, h1]
    unfold threshold
    rw [if_pos (by norm_num), h3, hf, h2]
    norm_num
  · simp [h3, h1]

/-! ## Basic facts about the collaborators' models -/

theorem hasIdentity_iff (slug : String) (ty : AlbumType) (a : Album) :
    a.hasIdentity slug ty = true ↔ a.AlbumSlug = slug ∧ a.AlbumType = ty := by
  simp [Album.hasIdentity]

theorem find_some_identity {albums : List Album} {slug : String} {ty : AlbumType} {a : Album}
    (h : FindAlbumBySlug albums slug ty = some a) :
    a ∈ albums ∧ a.AlbumSlug = slug ∧ a.AlbumType = ty := by
  unfold FindAlbumBySlug at h
  exact ⟨List.mem_of_find?_eq_some h, (hasIdentity_iff slug ty a).mp (List.find?_some h)⟩

theorem newAlbum_some {ok : Bool} {ty : AlbumType} {title slug filter : String} {a : Album}
    (h : newAlbum ok ty title slug filter = some a) :
    a.AlbumSlug = slug ∧ a.AlbumType = ty ∧ a.DeletedAt = none ∧ a.AlbumFilter = filter := by
  unfold newAlbum at h
  split at h
  · cases h; simp
  · cases h

theorem newMonthAlbum_some {env : Env} {title slug : String} {year month : Int} {a : Album}
    (h : NewMonthAlbum env title slug year month = some a) :
    a.AlbumSlug = slug ∧ a.AlbumType = AlbumType.TypeMonth ∧ a.DeletedAt = none := by
  unfold NewMonthAlbum at h
  simp only [Option.map_eq_some'] at h
  obtain ⟨b, hb, rfl⟩ := h
  obtain ⟨h1, h2, h3, -⟩ := newAlbum_some hb
  exact ⟨h1, h2, h3⟩

/-! ## Every run stays within the reachable states -/

theorem reconcileFolder_reach (env : Env) (L : List String) (s0 s : State) (mom : Folder)
    (h : Reach env L s0 s) : Reach env L s0 (reconcileFolder env mom s).state := by
  unfold reconcileFolder
  cases hf : FindAlbumBySlug s.albums mom.Slug AlbumType.TypeFolder with
  | some a => simpa [Flow.state] using h
  | none =>
    simp only
    cases hn : NewFolderAlbum env mom.Title mom.Slug
        (env.serialize { PhotoSearch.zero with Path := mom.Path }) with
    | none => simpa [Flow.state] using h
    | some a =>
      obtain ⟨h1, h2, h3, -⟩ := newAlbum_some hn
      simp only
      apply Reach.create _ _ h
      · simpa [h1, h2] using hf
      · simpa using h3

theorem reconcileMonth_reach (env : Env) (L : List String) (s0 s : State) (mom : Moment)
    (h : Reach env L s0 s) : Reach env L s0 (reconcileMonth env mom s).state := by
  unfold reconcileMonth
  cases hf : FindAlbumBySlug s.albums mom.Slug AlbumType.TypeMonth with
  | some a => simpa [Flow.state] using h
  | none =>
    simp only
    cases hn : NewMonthAlbum env mom.Title mom.Slug mom.Year mom.Month with
    | none => simpa [Flow.state] using h
    | some a =>
      obtain ⟨h1, h2, h3⟩ := newMonthAlbum_some hn
      simp only
      apply Reach.create _ _ h
      · simpa [h1, h2] using hf
      · simpa using h3

theorem reconcileCountry_reach (env : Env) (L : List String) (s0 s : State) (mom : Moment)
    (h : Reach env L s0 s) : Reach env L s0 (reconcileCountry env mom s).state := by
  unfold reconcileCountry
  cases hf : FindAlbumBySlug s.albums mom.Slug AlbumType.TypeMoment with
  | some a => simpa [Flow.state] using h
  | none =>
    simp only
    cases hn : NewMomentsAlbum env mom.Title mom.Slug
        (env.serialize { PhotoSearch.zero with Country := mom.Country, Year := mom.Year }) with
    | none => simpa [Flow.state] using h
    | some a =>
      obtain ⟨h1, h2, h3, -⟩ := newAlbum_some hn
      simp only
      apply Reach.create _ _ h
      · simpa [h1, h2] using hf
      · simpa using h3

theorem reconcileState_reach (env : Env) (L : List String) (s0 s : State) (mom : Moment)
    (h : Reach env L s0 s) : Reach env L s0 (reconcileState env mom s).state := by
  unfold reconcileState
  cases hf : FindAlbumBySlug s.albums mom.Slug AlbumType.TypeMoment with
  | some a => simpa [Flow.state] using h
  | none =>
    simp only
    cases hn : NewMomentsAlbum env mom.Title mom.Slug
        (env.serialize { PhotoSearch.zero with Country := mom.Country, State := mom.State }) with
    | none => simpa [Flow.state] using h
    | some a =>
      obtain ⟨h1, h2, h3, -⟩ := newAlbum_some hn
      simp only
      apply Reach.create _ _ h
      · simpa [h1, h2] using hf
      · simpa using h3

theorem reconcileLabel_reach (env : Env) (L : List String) (s0 s : State) (mom : Moment)
    (hL : mom.Slug ∈ L) (h : Reach env L s0 s) :
    Reach env L s0 (reconcileLabel env mom s).state := by
  unfold reconcileLabel
  cases hf : FindAlbumBySlug s.albums mom.Slug AlbumType.TypeMoment with
  | some a =>
    simp only
    obtain ⟨-, hs, -⟩ := find_some_identity hf
    split
    · simpa [Flow.state] using h
    · rename_i hc
      simp only [not_or, not_not] at hc
      apply Reach.update _ _ _ h
      · simpa [hs] using hf
      · exact hc.2
      · simpa [hs] using hL
  | none =>
    simp only
    cases hn : NewMomentsAlbum env mom.Title mom.Slug
        (env.serialize { PhotoSearch.zero with Label := mom.Label }) with
    | none => simpa [Flow.state] using h
    | some a =>
      obtain ⟨h1, h2, h3, -⟩ := newAlbum_some hn
      simp only
      apply Reach.create _ _ h
      · simpa [h1, h2] using hf
      · exact h3

theorem forEach_reach {α : Type} (env : Env) (L : List String) (s0 : State)
    (step : α → State → Flow) (xs : List α)
    (hstep : ∀ x ∈ xs, ∀ s, Reach env L s0 s → Reach env L s0 (step x s).state) :
    ∀ s, Reach env L s0 s → Reach env L s0 (forEach step xs s).state := by
  induction xs with
  | nil => intro s h; simpa [forEach, Flow.state] using h
  | cons x xs ih =>
    intro s h
    have hx := hstep x (List.mem_cons_self x xs) s h
    unfold forEach
    cases hr : step x s with
    | done s1 =>
      simp only
      rw [hr] at hx
      exact ih (fun y hy => hstep y (List.mem_cons_of_mem x hy)) s1 hx
    | panicked s1 =>
      simp only
      rw [hr] at hx
      exact hx

theorem runPass_reach {α : Type} (env : Env) (L : List String) (s0 : State) (call : Call)
    (hcall : call.isRead = true) (q : QueryResult α) (step : α → State → Flow)
    (hstep : ∀ xs, q = QueryResult.ok xs → ∀ x ∈ xs, ∀ s,
      Reach env L s0 s → Reach env L s0 (step x s).state) :
    ∀ s, Reach env L s0 s → Reach env L s0 (runPass call q step s).state := by
  intro s h
  have hr := Reach.read s call h hcall
  unfold runPass
  cases q with
  | ok results => exact forEach_reach env L s0 step results (hstep results rfl) _ hr
  | failed e => exact hr
  | panicked => exact hr

theorem andThen_reach (env : Env) (L : List String) (s0 : State) (fl : Flow)
    (k : State → Flow) (h : Reach env L s0 fl.state)
    (hk : ∀ s, Reach env L s0 s → Reach env L s0 (k s).state) :
    Reach env L s0 (fl.andThen k).state := by
  cases fl with
  | done s => exact hk s h
  | panicked s => exact h

theorem passes_reach (env : Env) (thr : Int) (s0 s : State)
    (h : Reach env (labelSlugs env thr) s0 s) :
    Reach env (labelSlugs env thr) s0 (passes env thr s).state := by
  unfold passes
  refine andThen_reach _ _ _ _ _ (andThen_reach _ _ _ _ _ (andThen_reach _ _ _ _ _
    (andThen_reach _ _ _ _ _ ?_ ?_) ?_) ?_) ?_
  · exact runPass_reach env _ s0 (Call.albumFolders 1) rfl _ _
      (fun _ _ x _ t ht => reconcileFolder_reach env _ s0 t x ht) s h
  · exact runPass_reach env _ s0 (Call.momentsTime 1) rfl _ _
      (fun _ _ x _ t ht => reconcileMonth_reach env _ s0 t x ht)
  · exact runPass_reach env _ s0 (Call.momentsCountries thr) rfl _ _
      (fun _ _ x _ t ht => reconcileCountry_reach env _ s0 t x ht)
  · exact runPass_reach env _ s0 (Call.momentsStates thr) rfl _ _
      (fun _ _ x _ t ht => reconcileState_reach env _ s0 t x ht)
  · refine runPass_reach env _ s0 (Call.momentsLabels thr) rfl _ _ (fun xs hq x hx t ht => ?_)
    refine reconcileLabel_reach env _ s0 t x ?_ ht
    simp only [labelSlugs, hq]
    exact List.mem_map_of_mem _ hx

theorem body_reach (env : Env) (s0 s : State)
    (h : Reach env (labelSlugs env (threshold env.indexSize)) s0 s) :
    Reach env (labelSlugs env (threshold env.indexSize)) s0 (body env s).state := by
  unfold body
  have hr := Reach.read s Call.countsRefresh h rfl
  simp only
  split
  · exact hr
  · exact passes_reach env _ s0 _ hr

theorem Start_reach (env : Env) (s : State) :
    Reach env (labelSlugs env (threshold env.indexSize)) s (Start env s).2 := by
  unfold Start
  split
  · exact Reach.start
  · exact Reach.guard _ false (body_reach env s _ (Reach.guard s true Reach.start))

/-! ## Soft-deleted albums -/

theorem find_none_filter {albums : List Album} {slug : String} {ty : AlbumType}
    (h : FindAlbumBySlug albums slug ty = none) :
    albums.filter (Album.hasIdentity slug ty) = [] := by
  unfold FindAlbumBySlug at h
  rw [List.find?_eq_none] at h
  rw [List.filter_eq_nil_iff]
  exact h

theorem filter_setFilter_other (slug slug1 : String) (ty ty1 : AlbumType) (v : String)
    (hne : ¬ (slug1 = slug ∧ ty1 = ty)) (albums : List Album) :
    (setFilter slug1 ty1 v albums).filter (Album.hasIdentity slug ty) =
      albums.filter (Album.hasIdentity slug ty) := by
  induction albums with
  | nil => rfl
  | cons a rest ih =>
    unfold setFilter
    split
    · rename_i h1
      have h1' := (hasIdentity_iff slug1 ty1 a).mp h1
      have h2 : a.hasIdentity slug ty = false := by
        rw [Bool.eq_false_iff]
        intro h
        have h' := (hasIdentity_iff slug ty a).mp h
        exact hne ⟨h1'.1.symm.trans h'.1, h1'.2.symm.trans h'.2⟩
      have h3 : Album.hasIdentity slug ty { a with AlbumFilter := v } = false := h2
      simp [List.filter_cons, h2, h3]
    · simp [List.filter_cons, ih]

/-- The invariant behind C2: along a run the albums with the identity
`(slug, type)` stay as they were and no call creates or updates one, as long as
all of them were soft-deleted at the start and there was at least one. -/
theorem reach_soft_deleted (env : Env) (L : List String) (s t : State)
    (slug : String) (ty : AlbumType)
    (hex : ∃ a ∈ s.albums, a.hasIdentity slug ty = true)
    (hdel : ∀ a ∈ s.albums, a.hasIdentity slug ty = true → a.DeletedAt ≠ none)
    (h : Reach env L s t) :
    t.albums.filter (Album.hasIdentity slug ty) = s.albums.filter (Album.hasIdentity slug ty) ∧
    ∃ calls, t.calls = s.calls ++ calls ∧ ∀ c ∈ calls, c.touches slug ty = false := by
  induction h with
  | start => exact ⟨rfl, [], by simp, by simp⟩
  | guard t b _ ih => exact ih
  | read t c _ hc ih =>
    obtain ⟨h1, calls, h2, h3⟩ := ih
    refine ⟨h1, calls ++ [c], by simp [State.record, h2], ?_⟩
    intro c1 hc1
    rcases List.mem_append.mp hc1 with hc1 | hc1
    · exact h3 c1 hc1
    · rw [List.mem_singleton.mp hc1]
      cases c <;> simp_all [Call.touches, Call.isRead]
  | create t a _ hf ha ih =>
    obtain ⟨h1, calls, h2, h3⟩ := ih
    have hid : a.hasIdentity slug ty = false := by
      rw [Bool.eq_false_iff]
      intro hid
      obtain ⟨e1, e2⟩ := (hasIdentity_iff slug ty a).mp hid
      rw [e1, e2] at hf
      have := find_none_filter hf
      rw [h1] at this
      obtain ⟨b, hb, hb2⟩ := hex
      have hmem : b ∈ s.albums.filter (Album.hasIdentity slug ty) :=
        List.mem_filter.mpr ⟨hb, hb2⟩
      rw [this] at hmem
      exact List.not_mem_nil _ hmem
    have hcalls : ∀ c ∈ calls ++ [Call.create a], c.touches slug ty = false := by
      intro c1 hc1
      rcases List.mem_append.mp hc1 with hc1 | hc1
      · exact h3 c1 hc1
      · rw [List.mem_singleton.mp hc1]; exact hid
    unfold doCreate
    cases env.create t.albums a with
    | ok =>
      refine ⟨?_, calls ++ [Call.create a], by simp [Flow.state, State.record, h2], hcalls⟩
      simp [Flow.state, State.record, List.filter_append, List.filter_cons, hid, h1]
    | failed e =>
      exact ⟨by simpa [Flow.state, State.record] using h1, calls ++ [Call.create a],
        by simp [Flow.state, State.record, h2], hcalls⟩
    | panicked =>
      exact ⟨by simpa [Flow.state, State.record] using h1, calls ++ [Call.create a],
        by simp [Flow.state, State.record, h2], hcalls⟩
  | update t a v _ hf ha hL ih =>
    obtain ⟨h1, calls, h2, h3⟩ := ih
    obtain ⟨hmem, -, hty⟩ := find_some_identity hf
    have hid : a.hasIdentity slug ty = false := by
      rw [Bool.eq_false_iff]
      intro hid
      have hm : a ∈ t.albums.filter (Album.hasIdentity slug ty) :=
        List.mem_filter.mpr ⟨hmem, hid⟩
      rw [h1] at hm
      exact hdel a (List.mem_filter.mp hm).1 hid ha
    have hne : ¬ (a.AlbumSlug = slug ∧ a.AlbumType = ty) := by
      intro hh
      rw [(hasIdentity_iff slug ty a).mpr hh] at hid
      cases hid
    have hcalls : ∀ c ∈ calls ++ [Call.update a v], c.touches slug ty = false := by
      intro c1 hc1
      rcases List.mem_append.mp hc1 with hc1 | hc1
      · exact h3 c1 hc1
      · rw [List.mem_singleton.mp hc1]; exact hid
    unfold doUpdate
    cases env.update t.albums a v with
    | ok =>
      refine ⟨?_, calls ++ [Call.update a v], by simp [Flow.state, State.record, h2], hcalls⟩
      simp only [Flow.state, State.record]
      rw [filter_setFilter_other slug a.AlbumSlug ty a.AlbumType v hne, h1]
    | failed e =>
      exact ⟨by simpa [Flow.state, State.record] using h1, calls ++ [Call.update a v],
        by simp [Flow.state, State.record, h2], hcalls⟩
    | panicked =>
      exact ⟨by simpa [Flow.state, State.record] using h1, calls ++ [Call.update a v],
        by simp [Flow.state, State.record, h2], hcalls⟩

/-- C2: when the albums with the identity `(slug, type)` of a candidate are
soft-deleted (with unique identities: when the album with that identity is),
a run of `Start` issues no Create and no Update for that identity, whatever the
dimension, and leaves those albums exactly as they were, adding none. -/
theorem Start_soft_deleted (env : Env) (s : State) (slug : String) (ty : AlbumType)
    (hex : ∃ a ∈ s.albums, a.hasIdentity slug ty = true)
    (hdel : ∀ a ∈ s.albums, a.hasIdentity slug ty = true → a.DeletedAt ≠ none) :
    (Start env s).2.albums.filter (Album.hasIdentity slug ty) =
      s.albums.filter (Album.hasIdentity slug ty) ∧
    ∃ calls, (Start env s).2.calls = s.calls ++ calls ∧
      ∀ c ∈ calls, c.touches slug ty = false :=
  reach_soft_deleted env _ s _ slug ty hex hdel (Start_reach env s)

/-- Witness of C2: a label candidate "beach" whose album was soft-deleted; the
run leaves the album and issues no call for it. -/
theorem Start_soft_deleted_witness :
    (∃ a ∈ [labelAlbum "beach" "label:sand" (some 7)],
        a.hasIdentity "beach" AlbumType.TypeMoment = true) ∧
    (∀ a ∈ [labelAlbum "beach" "label:sand" (some 7)],
        a.hasIdentity "beach" AlbumType.TypeMoment = true → a.DeletedAt ≠ none) ∧
    ((Start (exampleEnv [] [] [] [] [labelMoment "beach" "beach"])
        { busy := false, albums := [labelAlbum "beach" "label:sand" (some 7)],
          calls := [] }).2.albums.filter (Album.hasIdentity "beach" AlbumType.TypeMoment) =
      [labelAlbum "beach" "label:sand" (some 7)].filter
        (Album.hasIdentity "beach" AlbumType.TypeMoment) ∧
     ∃ calls, (Start (exampleEnv [] [] [] [] [labelMoment "beach" "beach"])
        { busy := false, albums := [labelAlbum "beach" "label:sand" (some 7)],
          calls := [] }).2.calls = [] ++ calls ∧
      ∀ c ∈ calls, c.touches "beach" AlbumType.TypeMoment = false) :=
  ⟨by decide, by decide,
   Start_soft_deleted (exampleEnv [] [] [] [] [labelMoment "beach" "beach"])
     { busy := false, albums := [labelAlbum "beach" "label:sand" (some 7)], calls := [] }
     "beach" AlbumType.TypeMoment (by decide) (by decide)⟩


/-! ## Which albums a run can update -/

theorem getElem?_append_of_some {α : Type} (xs ys : List α) (i : Nat) (a : α)
    (h : xs[i]? = some a) : (xs ++ ys)[i]? = some a := by
  have hi : i < xs.length := by
    by_contra hc
    rw [List.getElem?_eq_none (Nat.le_of_not_lt hc)] at h
    cases h
  rw [List.getElem?_append_left hi]
  exact h

theorem setFilter_getElem?_other (slug : String) (ty : AlbumType) (v : String) (a : Album)
    (ha : a.hasIdentity slug ty = false) :
    ∀ (albums : List Album) (i : Nat), albums[i]? = some a →
      (setFilter slug ty v albums)[i]? = some a := by
  intro albums
  induction albums with
  | nil => intro i h; simp at h
  | cons b rest ih =>
    intro i h
    unfold setFilter
    cases i with
    | zero =>
      simp only [List.getElem?_cons_zero, Option.some.injEq] at h
      subst h
      simp [ha]
    | succ j =>
      simp only [List.getElem?_cons_succ] at h
      split
      · simpa using h
      · simpa using ih j h

/-- The invariant behind C3: along a run an album keeps its place and its
content unless it is a moment album whose slug is that of a label candidate,
and every Update is for an active moment album with such a slug. -/
theorem reach_frame (env : Env) (L : List String) (s t : State) (h : Reach env L s t) :
    (∀ (i : Nat) (a : Album), s.albums[i]? = some a →
        (a.AlbumType ≠ AlbumType.TypeMoment ∨ a.AlbumSlug ∉ L) → t.albums[i]? = some a) ∧
    ∃ calls, t.calls = s.calls ++ calls ∧
      ∀ a v, Call.update a v ∈ calls →
        a.AlbumType = AlbumType.TypeMoment ∧ a.AlbumSlug ∈ L ∧ a.DeletedAt = none := by
  induction h with
  | start => exact ⟨fun _ _ h _ => h, [], by simp, by simp⟩
  | guard t b _ ih => exact ih
  | read t c _ hc ih =>
    obtain ⟨h1, calls, h2, h3⟩ := ih
    refine ⟨h1, calls ++ [c], by simp [State.record, h2], ?_⟩
    intro a v hm
    rcases List.mem_append.mp hm with hm | hm
    · exact h3 a v hm
    · rw [← List.mem_singleton.mp hm] at hc
      simp [Call.isRead] at hc
  | create t a _ hf ha ih =>
    obtain ⟨h1, calls, h2, h3⟩ := ih
    have hcalls : ∀ b v, Call.update b v ∈ calls ++ [Call.create a] →
        b.AlbumType = AlbumType.TypeMoment ∧ b.AlbumSlug ∈ L ∧ b.DeletedAt = none := by
      intro b v hm
      rcases List.mem_append.mp hm with hm | hm
      · exact h3 b v hm
      · simp at hm
    unfold doCreate
    cases env.create t.albums a with
    | ok =>
      refine ⟨?_, calls ++ [Call.create a], by simp [Flow.state, State.record, h2], hcalls⟩
      intro i b hb hc
      exact getElem?_append_of_some _ _ i b (h1 i b hb hc)
    | failed e =>
      exact ⟨h1, calls ++ [Call.create a], by simp [Flow.state, State.record, h2], hcalls⟩
    | panicked =>
      exact ⟨h1, calls ++ [Call.create a], by simp [Flow.state, State.record, h2], hcalls⟩
  | update t a v _ hf ha hL ih =>
    obtain ⟨h1, calls, h2, h3⟩ := ih
    obtain ⟨-, -, hty⟩ := find_some_identity hf
    have hcalls : ∀ b w, Call.update b w ∈ calls ++ [Call.update a v] →
        b.AlbumType = AlbumType.TypeMoment ∧ b.AlbumSlug ∈ L ∧ b.DeletedAt = none := by
      intro b w hm
      rcases List.mem_append.mp hm with hm | hm
      · exact h3 b w hm
      · simp only [List.mem_singleton, Call.update.injEq] at hm
        rw [hm.1]
        exact ⟨hty, hL, ha⟩
    unfold doUpdate
    cases env.update t.albums a v with
    | ok =>
      refine ⟨?_, calls ++ [Call.update a v], by simp [Flow.state, State.record, h2], hcalls⟩
      intro i b hb hc
      have hid : b.hasIdentity a.AlbumSlug a.AlbumType = false := by
        rw [Bool.eq_false_iff]
        intro hid
        obtain ⟨e1, e2⟩ := (hasIdentity_iff _ _ b).mp hid
        rcases hc with hc | hc
        · exact hc (e2.trans hty)
        · exact hc (e1 ▸ hL)
      exact setFilter_getElem?_other _ _ v b hid t.albums i (h1 i b hb hc)
    | failed e =>
      exact ⟨h1, calls ++ [Call.update a v], by simp [Flow.state, State.record, h2], hcalls⟩
    | panicked =>
      exact ⟨h1, calls ++ [Call.update a v], by simp [Flow.state, State.record, h2], hcalls⟩

/-- C3 (as amended): a run never updates an album of the folder or month type,
and never updates a moment album (the type shared by the country, state and
label dimensions) unless a label candidate of the run has its slug; every
Update of the run is for an active moment album with the slug of a label
candidate. -/
theorem Start_frame (env : Env) (s : State) :
    (∀ (i : Nat) (a : Album), s.albums[i]? = some a →
        (a.AlbumType ≠ AlbumType.TypeMoment ∨
          a.AlbumSlug ∉ labelSlugs env (threshold env.indexSize)) →
        (Start env s).2.albums[i]? = some a) ∧
    ∃ calls, (Start env s).2.calls = s.calls ++ calls ∧
      ∀ a v, Call.update a v ∈ calls →
        a.AlbumType = AlbumType.TypeMoment ∧
        a.AlbumSlug ∈ labelSlugs env (threshold env.indexSize) ∧
        a.DeletedAt = none :=
  reach_frame env _ s _ (Start_reach env s)

/-- Witness of C3: the album of the country candidate "france-2020" keeps its
content in a run whose only label candidate has the slug "beach". -/
theorem Start_frame_witness :
    (Start (exampleEnv [] [] [countryMoment "fr" 2020 "France 2020" "france-2020"] []
        [labelMoment "beach" "beach"])
      { busy := false
        albums := [{ labelAlbum "france-2020" "country:fr year:2020" none with
                      AlbumYear := 2020, AlbumCountry := "fr" }]
        calls := [] }).2.albums[0]? =
      some { labelAlbum "france-2020" "country:fr year:2020" none with
              AlbumYear := 2020, AlbumCountry := "fr" } :=
  (Start_frame (exampleEnv [] [] [countryMoment "fr" 2020 "France 2020" "france-2020"] []
        [labelMoment "beach" "beach"])
      { busy := false
        albums := [{ labelAlbum "france-2020" "country:fr year:2020" none with
                      AlbumYear := 2020, AlbumCountry := "fr" }]
        calls := [] }).1 0 _ (by decide) (Or.inr (by decide))

/-- Counterexample to C3 as stated: the album that the countries pass creates
for the candidate "france-2020" is active, and a later run with a label
candidate of the same slug updates its filter to the label filter. -/
theorem Start_label_updates_country_album :
    (Start (exampleEnv [] [] [countryMoment "fr" 2020 "France 2020" "france-2020"] [] [])
        State.empty).2.albums =
      [{ labelAlbum "france-2020" "country:fr year:2020" none with
          AlbumTitle := "France 2020", AlbumYear := 2020, AlbumCountry := "fr" }] ∧
    (Start (exampleEnv [] [] [countryMoment "fr" 2020 "France 2020" "france-2020"] []
          [labelMoment "france-2020" "france-2020"])
        { busy := false
          albums := [{ labelAlbum "france-2020" "country:fr year:2020" none with
                        AlbumTitle := "France 2020", AlbumYear := 2020, AlbumCountry := "fr" }]
          calls := [] }).2 =
      { busy := false
        albums := [{ labelAlbum "france-2020" "label:france-2020" none with
                      AlbumTitle := "France 2020", AlbumYear := 2020, AlbumCountry := "fr" }]
        calls := [Call.countsRefresh, Call.albumFolders 1, Call.momentsTime 1,
          Call.momentsCountries 3, Call.momentsStates 3, Call.momentsLabels 3,
          Call.update { labelAlbum "france-2020" "country:fr year:2020" none with
              AlbumTitle := "France 2020", AlbumYear := 2020, AlbumCountry := "fr" }
            "label:france-2020"] } := by
  decide

/-! ## The labels pass -/

/-- What the labels loop does for a candidate that matches an active album with
a different stored filter: it updates that album with the serialized merged
form, which is computed from the candidate alone. -/
theorem reconcileLabel_found (env : Env) (mom : Moment) (s : State) (a : Album)
    (hf : FindAlbumBySlug s.albums mom.Slug AlbumType.TypeMoment = some a)
    (ha : a.DeletedAt = none)
    (hne : env.serialize { PhotoSearch.zero with Label := mom.Label } ≠ a.AlbumFilter) :
    reconcileLabel env mom s = doUpdate env a (env.serialize (mergedForm env mom)) s := by
  unfold reconcileLabel
  simp only [hf]
  rw [if_neg]
  simp [hne, ha]

/-- The filter that the labels loop writes does not depend on the filter that
is stored: two albums with different stored filters receive the same text. -/
theorem reconcileLabel_ignores_stored (env : Env) (mom : Moment) (s1 s2 : State)
    (a1 a2 : Album)
    (hf1 : FindAlbumBySlug s1.albums mom.Slug AlbumType.TypeMoment = some a1)
    (hf2 : FindAlbumBySlug s2.albums mom.Slug AlbumType.TypeMoment = some a2)
    (ha1 : a1.DeletedAt = none) (ha2 : a2.DeletedAt = none)
    (hne1 : env.serialize { PhotoSearch.zero with Label := mom.Label } ≠ a1.AlbumFilter)
    (hne2 : env.serialize { PhotoSearch.zero with Label := mom.Label } ≠ a2.AlbumFilter) :
    ∃ v, reconcileLabel env mom s1 = doUpdate env a1 v s1 ∧
      reconcileLabel env mom s2 = doUpdate env a2 v s2 :=
  ⟨_, reconcileLabel_found env mom s1 a1 hf1 ha1 hne1,
    reconcileLabel_found env mom s2 a2 hf2 ha2 hne2⟩

/-- C5 (the code at the failing input): for an existing active album with the
filter "label:beach" and a label candidate "sunset" with the same slug, the
Update writes "label:sunset": the stored label "beach" is not part of it, so
the label field is not "beach,sunset". -/
theorem Start_label_merge_drops_stored :
    (Start (exampleEnv [] [] [] [] [labelMoment "sunset" "seaside"])
        { busy := false, albums := [labelAlbum "seaside" "label:beach" none],
          calls := [] }).2 =
      { busy := false
        albums := [labelAlbum "seaside" "label:sunset" none]
        calls := [Call.countsRefresh, Call.albumFolders 1, Call.momentsTime 1,
          Call.momentsCountries 3, Call.momentsStates 3, Call.momentsLabels 3,
          Call.update (labelAlbum "seaside" "label:beach" none) "label:sunset"] } ∧
    (mergedForm (exampleEnv [] [] [] [] [labelMoment "sunset" "seaside"])
        (labelMoment "sunset" "seaside")).Label = "sunset" ∧
    specSerialize { PhotoSearch.zero with Label := "beach,sunset" } ≠ "label:sunset" := by
  decide

/-- C6 (as amended): when `form.ParseQueryString` returns an error for a label
candidate that matches an active album with a different stored filter, the
merge of labels is skipped and the Update is still issued; it writes the
serialization of the candidate's form as the failed call left it. -/
theorem reconcileLabel_parse_error (env : Env) (mom : Moment) (s : State) (a : Album)
    (f1 : PhotoSearch) (e : String)
    (hf : FindAlbumBySlug s.albums mom.Slug AlbumType.TypeMoment = some a)
    (ha : a.DeletedAt = none)
    (hne : env.serialize { PhotoSearch.zero with Label := mom.Label } ≠ a.AlbumFilter)
    (hp : env.parseQueryString { PhotoSearch.zero with Label := mom.Label } = (f1, some e)) :
    reconcileLabel env mom s = doUpdate env a (env.serialize f1) s := by
  rw [reconcileLabel_found env mom s a hf ha hne]
  unfold mergedForm
  simp only [hp]

/-- Witness of C6: the parser fails on the candidate "beach", whose album holds
the filter "label:sand". -/
theorem reconcileLabel_parse_error_witness :
    reconcileLabel
        { exampleEnv [] [] [] [] [] with parseQueryString := fun f => (f, some "parse error") }
        (labelMoment "beach" "beach")
        { busy := true, albums := [labelAlbum "beach" "label:sand" none], calls := [] } =
      doUpdate
        { exampleEnv [] [] [] [] [] with parseQueryString := fun f => (f, some "parse error") }
        (labelAlbum "beach" "label:sand" none)
        (specSerialize { PhotoSearch.zero with Label := "beach" })
        { busy := true, albums := [labelAlbum "beach" "label:sand" none], calls := [] } :=
  reconcileLabel_parse_error
    { exampleEnv [] [] [] [] [] with parseQueryString := fun f => (f, some "parse error") }
    (labelMoment "beach" "beach")
    { busy := true, albums := [labelAlbum "beach" "label:sand" none], calls := [] }
    (labelAlbum "beach" "label:sand" none) { PhotoSearch.zero with Label := "beach" }
    "parse error" (by decide) (by decide) (by decide) rfl

/-- Counterexample to C6 as stated: the parser returns an error for the label
candidate "beach", and the run still issues the Update and replaces the stored
filter "label:sand". -/
theorem Start_parse_error_still_updates :
    (Start { exampleEnv [] [] [] [] [labelMoment "beach" "beach"] with
              parseQueryString := fun f => (f, some "parse error") }
        { busy := false, albums := [labelAlbum "beach" "label:sand" none],
          calls := [] }).2 =
      { busy := false
        albums := [labelAlbum "beach" "label:beach" none]
        calls := [Call.countsRefresh, Call.albumFolders 1, Call.momentsTime 1,
          Call.momentsCountries 3, Call.momentsStates 3, Call.momentsLabels 3,
          Call.update (labelAlbum "beach" "label:sand" none) "label:beach"] } := by
  decide

theorem doCreate_calls (env : Env) (a : Album) (s : State) :
    (doCreate env a s).state.calls = s.calls ++ [Call.create a] := by
  unfold doCreate
  cases env.create s.albums a <;> rfl

theorem doUpdate_calls (env : Env) (a : Album) (v : String) (s : State) :
    (doUpdate env a v s).state.calls = s.calls ++ [Call.update a v] := by
  unfold doUpdate
  cases env.update s.albums a v <;> rfl

theorem setFilter_clearFilter (slug : String) (ty : AlbumType) (v : String)
    (albums : List Album) :
    (setFilter slug ty v albums).map Album.clearFilter = albums.map Album.clearFilter := by
  induction albums with
  | nil => rfl
  | cons a rest ih =>
    unfold setFilter
    split
    · simp [Album.clearFilter]
    · simp [ih]

theorem doUpdate_clearFilter (env : Env) (s : State) (a : Album) (v : String) :
    (doUpdate env a v s).state.albums.map Album.clearFilter =
      s.albums.map Album.clearFilter := by
  unfold doUpdate
  cases env.update s.albums a v with
  | ok => simp only [Flow.state, State.record]; exact setFilter_clearFilter _ _ _ _
  | failed e => rfl
  | panicked => rfl

/-- Along a run the albums present at the start keep every field but the
filter, in place; albums are only added behind them. -/
theorem reach_clearFilter (env : Env) (L : List String) (s t : State) (h : Reach env L s t) :
    s.albums.map Album.clearFilter <+: t.albums.map Album.clearFilter := by
  induction h with
  | start => exact List.prefix_refl _
  | guard t b _ ih => exact ih
  | read t c _ _ ih => exact ih
  | create t a _ _ _ ih =>
    unfold doCreate
    cases env.create t.albums a with
    | ok =>
      simp only [Flow.state, State.record, List.map_append]
      exact ih.trans (List.prefix_append _ _)
    | failed e => exact ih
    | panicked => exact ih
  | update t a v _ _ _ _ ih =>
    unfold doUpdate
    cases env.update t.albums a v with
    | ok =>
      simp only [Flow.state, State.record]
      rw [setFilter_clearFilter]
      exact ih
    | failed e => exact ih
    | panicked => exact ih

/-- The labels loop issues an Update exactly when the candidate matches an
album that is not soft-deleted and whose stored filter differs from the
serialized filter of the candidate itself. -/
theorem reconcileLabel_issuedUpdate_iff (env : Env) (mom : Moment) (s : State) :
    (reconcileLabel env mom s).issuedUpdate s ↔
      ∃ a, FindAlbumBySlug s.albums mom.Slug AlbumType.TypeMoment = some a ∧
        a.DeletedAt = none ∧
        env.serialize { PhotoSearch.zero with Label := mom.Label } ≠ a.AlbumFilter := by
  constructor
  · intro h
    obtain ⟨b, v, hb⟩ := h
    cases hf : FindAlbumBySlug s.albums mom.Slug AlbumType.TypeMoment with
    | some a =>
      refine ⟨a, rfl, ?_⟩
      by_contra hc
      have hskip : env.serialize { PhotoSearch.zero with Label := mom.Label } = a.AlbumFilter ∨
          a.DeletedAt ≠ none := by
        by_cases h1 : a.DeletedAt = none
        · by_cases h2 : env.serialize { PhotoSearch.zero with Label := mom.Label } = a.AlbumFilter
          · exact Or.inl h2
          · exact absurd ⟨h1, h2⟩ hc
        · exact Or.inr h1
      unfold reconcileLabel at hb
      simp only [hf] at hb
      rw [if_pos hskip] at hb
      simp [Flow.state] at hb
    | none =>
      unfold reconcileLabel at hb
      simp only [hf] at hb
      cases hn : NewMomentsAlbum env mom.Title mom.Slug
          (env.serialize { PhotoSearch.zero with Label := mom.Label }) with
      | none =>
        simp only [hn] at hb
        simp [Flow.state] at hb
      | some a =>
        simp only [hn] at hb
        rw [doCreate_calls] at hb
        simp at hb
  · rintro ⟨a, hf, ha, hne⟩
    rw [reconcileLabel_found env mom s a hf ha hne]
    exact ⟨a, _, doUpdate_calls env a _ s⟩

/-- C7 (as amended): the labels loop issues an Update exactly when the
candidate matches an album that is not soft-deleted and whose stored filter
differs from the candidate's own serialized filter (the merged filter is not
compared with the stored one); for a stored filter of the label "beach" and the
candidate "beach" the run issues no Update; an Update changes no field other
than the filter, and over a whole run every album keeps all other fields. -/
theorem Start_label_update_rule (env : Env) (mom : Moment) (s : State) :
    ((reconcileLabel env mom s).issuedUpdate s ↔
      ∃ a, FindAlbumBySlug s.albums mom.Slug AlbumType.TypeMoment = some a ∧
        a.DeletedAt = none ∧
        env.serialize { PhotoSearch.zero with Label := mom.Label } ≠ a.AlbumFilter) ∧
    (∀ a v, (doUpdate env a v s).state.albums.map Album.clearFilter =
      s.albums.map Album.clearFilter) ∧
    s.albums.map Album.clearFilter <+: (Start env s).2.albums.map Album.clearFilter ∧
    (Start (exampleEnv [] [] [] [] [labelMoment "beach" "beach"])
        { busy := false, albums := [labelAlbum "beach" "label:beach" none],
          calls := [] }).2 =
      { busy := false
        albums := [labelAlbum "beach" "label:beach" none]
        calls := [Call.countsRefresh, Call.albumFolders 1, Call.momentsTime 1,
          Call.momentsCountries 3, Call.momentsStates 3, Call.momentsLabels 3] } :=
  ⟨reconcileLabel_issuedUpdate_iff env mom s, doUpdate_clearFilter env s,
    reach_clearFilter env _ s _ (Start_reach env s), by decide⟩

/-- Witness of C7: the rule at the candidate "sunset" and an album with the
stored filter "label:beach", where an Update is issued. -/
theorem Start_label_update_rule_witness :
    (reconcileLabel (exampleEnv [] [] [] [] []) (labelMoment "sunset" "seaside")
        { busy := true, albums := [labelAlbum "seaside" "label:beach" none],
          calls := [] }).issuedUpdate
      { busy := true, albums := [labelAlbum "seaside" "label:beach" none], calls := [] } :=
  (Start_label_update_rule (exampleEnv [] [] [] [] []) (labelMoment "sunset" "seaside")
      { busy := true, albums := [labelAlbum "seaside" "label:beach" none],
        calls := [] }).1.mpr
    ⟨labelAlbum "seaside" "label:beach" none, by decide, by decide, by decide⟩

/-- Counterexample to C7 as stated: for the stored filter "label:beach" and the
candidate "Beach" the merged label is "beach", so the merged serialized filter
equals the stored one, and the run issues the Update all the same. -/
theorem Start_updates_with_equal_filter :
    specSerialize (mergedForm (exampleEnv [] [] [] [] [labelMoment "Beach" "beach"])
        (labelMoment "Beach" "beach")) =
      (labelAlbum "beach" "label:beach" none).AlbumFilter ∧
    (Start (exampleEnv [] [] [] [] [labelMoment "Beach" "beach"])
        { busy := false, albums := [labelAlbum "beach" "label:beach" none],
          calls := [] }).2.calls =
      [Call.countsRefresh, Call.albumFolders 1, Call.momentsTime 1,
        Call.momentsCountries 3, Call.momentsStates 3, Call.momentsLabels 3,
        Call.update (labelAlbum "beach" "label:beach" none) "label:beach"] := by
  decide

/-! ## The run as a whole -/

/-- C8: when the index size is below the threshold, `Start` returns nil (the
guard being free), calls none of the five queries, creates and updates
nothing, and leaves the album collection as it was: the only call is the read
of the counts. -/
theorem Start_small_index (env : Env) (s : State)
    (h : env.indexSize < threshold env.indexSize) :
    (s.busy = false → (Start env s).1 = none) ∧
    (Start env s).2.albums = s.albums ∧
    ∃ calls, (Start env s).2.calls = s.calls ++ calls ∧
      ∀ c ∈ calls, c = Call.countsRefresh := by
  unfold Start
  by_cases hb : s.busy = true
  · simp [hb]
  · have hb1 : s.busy = false := by simpa using hb
    rw [if_neg hb]
    have hbody : body env { s with busy := true } =
        Flow.done ({ s with busy := true }.record Call.countsRefresh) := by
      unfold body
      simp only [h, if_true]
    rw [hbody]
    exact ⟨fun _ => rfl, rfl, [Call.countsRefresh], rfl, by simp⟩

/-- Witness of C8: a catalog of one photo and one video, below the threshold 3. -/
theorem Start_small_index_witness :
    (2 : Int) < threshold 2 ∧
    (Start { exampleEnv [] [] [] [] [labelMoment "beach" "beach"] with
              photos := 1, videos := 1 } State.empty).1 = none ∧
    (Start { exampleEnv [] [] [] [] [labelMoment "beach" "beach"] with
              photos := 1, videos := 1 } State.empty).2.albums = [] :=
  ⟨by decide,
   (Start_small_index { exampleEnv [] [] [] [] [labelMoment "beach" "beach"] with
      photos := 1, videos := 1 } State.empty (by decide)).1 rfl,
   (Start_small_index { exampleEnv [] [] [] [] [labelMoment "beach" "beach"] with
      photos := 1, videos := 1 } State.empty (by decide)).2.1⟩

theorem runPass_skipFailed {α : Type} (call : Call) (q : QueryResult α)
    (step : α → State → Flow) :
    runPass call q.skipFailed step = runPass call q step := by
  funext s
  cases q <;> rfl

theorem passes_skipFailed (env : Env) (thr : Int) (s : State) :
    passes env.skipFailed thr s = passes env thr s := by
  unfold passes
  have h1 : reconcileFolder env.skipFailed = reconcileFolder env := rfl
  have h2 : reconcileMonth env.skipFailed = reconcileMonth env := rfl
  have h3 : reconcileCountry env.skipFailed = reconcileCountry env := rfl
  have h4 : reconcileState env.skipFailed = reconcileState env := rfl
  have h5 : reconcileLabel env.skipFailed = reconcileLabel env := rfl
  rw [h1, h2, h3, h4, h5]
  simp only [Env.skipFailed, runPass_skipFailed]

theorem Start_skipFailed (env : Env) (s : State) : Start env.skipFailed s = Start env s := by
  unfold Start body
  have hi : env.skipFailed.indexSize = env.indexSize := rfl
  simp only [hi, passes_skipFailed]

theorem forEach_calls_mono {α : Type} (step : α → State → Flow)
    (hstep : ∀ x s, ∀ c ∈ s.calls, c ∈ (step x s).state.calls) (xs : List α) :
    ∀ s, ∀ c ∈ s.calls, c ∈ (forEach step xs s).state.calls := by
  induction xs with
  | nil => intro s c hc; exact hc
  | cons x xs ih =>
    intro s c hc
    have hx := hstep x s c hc
    unfold forEach
    cases hr : step x s with
    | done s1 =>
      rw [hr] at hx
      exact ih s1 c hx
    | panicked s1 =>
      rw [hr] at hx
      exact hx

theorem doCreate_calls_mono (env : Env) (a : Album) (s : State) :
    ∀ c ∈ s.calls, c ∈ (doCreate env a s).state.calls := by
  intro c hc
  rw [doCreate_calls]
  exact List.mem_append_left _ hc

theorem doUpdate_calls_mono (env : Env) (a : Album) (v : String) (s : State) :
    ∀ c ∈ s.calls, c ∈ (doUpdate env a v s).state.calls := by
  intro c hc
  rw [doUpdate_calls]
  exact List.mem_append_left _ hc

theorem reconcileFolder_calls_mono (env : Env) (mom : Folder) (s : State) :
    ∀ c ∈ s.calls, c ∈ (reconcileFolder env mom s).state.calls := by
  intro c hc
  unfold reconcileFolder
  simp only
  split
  · exact hc
  · split
    · exact doCreate_calls_mono env _ s c hc
    · exact hc

theorem reconcileMonth_calls_mono (env : Env) (mom : Moment) (s : State) :
    ∀ c ∈ s.calls, c ∈ (reconcileMonth env mom s).state.calls := by
  intro c hc
  unfold reconcileMonth
  split
  · exact hc
  · split
    · exact doCreate_calls_mono env _ s c hc
    · exact hc

theorem reconcileCountry_calls_mono (env : Env) (mom : Moment) (s : State) :
    ∀ c ∈ s.calls, c ∈ (reconcileCountry env mom s).state.calls := by
  intro c hc
  unfold reconcileCountry
  simp only
  split
  · exact hc
  · split
    · exact doCreate_calls_mono env _ s c hc
    · exact hc

theorem reconcileState_calls_mono (env : Env) (mom : Moment) (s : State) :
    ∀ c ∈ s.calls, c ∈ (reconcileState env mom s).state.calls := by
  intro c hc
  unfold reconcileState
  simp only
  split
  · exact hc
  · split
    · exact doCreate_calls_mono env _ s c hc
    · exact hc

theorem reconcileLabel_calls_mono (env : Env) (mom : Moment) (s : State) :
    ∀ c ∈ s.calls, c ∈ (reconcileLabel env mom s).state.calls := by
  intro c hc
  unfold reconcileLabel
  simp only
  split
  · split
    · exact hc
    · exact doUpdate_calls_mono env _ _ s c hc
  · split
    · exact doCreate_calls_mono env _ s c hc
    · exact hc

/-- A pass that ends normally has called its query and kept the earlier calls. -/
theorem runPass_done_calls {α : Type} (call : Call) (q : QueryResult α)
    (step : α → State → Flow)
    (hstep : ∀ x s, ∀ c ∈ s.calls, c ∈ (step x s).state.calls) (s : State) :
    call ∈ (runPass call q step s).state.calls ∧
    ∀ c ∈ s.calls, c ∈ (runPass call q step s).state.calls := by
  have hrec : ∀ c, c ∈ s.calls ∨ c = call → c ∈ (s.record call).calls := by
    intro c hc
    simp only [State.record, List.mem_append, List.mem_singleton]
    exact hc
  unfold runPass
  cases q with
  | ok results =>
    exact ⟨forEach_calls_mono step hstep results _ call (hrec call (Or.inr rfl)),
      fun c hc => forEach_calls_mono step hstep results _ c (hrec c (Or.inl hc))⟩
  | failed e => exact ⟨hrec call (Or.inr rfl), fun c hc => hrec c (Or.inl hc)⟩
  | panicked => exact ⟨hrec call (Or.inr rfl), fun c hc => hrec c (Or.inl hc)⟩

theorem andThen_done {fl : Flow} {k : State → Flow} {t : State}
    (h : fl.andThen k = Flow.done t) : ∃ s1, fl = Flow.done s1 ∧ k s1 = Flow.done t := by
  cases fl with
  | done s1 => exact ⟨s1, rfl, h⟩
  | panicked s1 => cases h

/-- When the five passes end without a panic, each of the five queries was
called, whatever the queries returned. -/
theorem passes_done_calls (env : Env) (thr : Int) (s t : State)
    (h : passes env thr s = Flow.done t) :
    Call.albumFolders 1 ∈ t.calls ∧ Call.momentsTime 1 ∈ t.calls ∧
    Call.momentsCountries thr ∈ t.calls ∧ Call.momentsStates thr ∈ t.calls ∧
    Call.momentsLabels thr ∈ t.calls := by
  unfold passes at h
  obtain ⟨s4, h4, h5⟩ := andThen_done h
  obtain ⟨s3, h3, h4⟩ := andThen_done h4
  obtain ⟨s2, h2, h3⟩ := andThen_done h3
  obtain ⟨s1, h1, h2⟩ := andThen_done h2
  have c1 := runPass_done_calls (Call.albumFolders 1) (env.albumFolders 1)
    (reconcileFolder env) (reconcileFolder_calls_mono env) s
  have c2 := runPass_done_calls (Call.momentsTime 1) (env.momentsTime 1)
    (reconcileMonth env) (reconcileMonth_calls_mono env) s1
  have c3 := runPass_done_calls (Call.momentsCountries thr) (env.momentsCountries thr)
    (reconcileCountry env) (reconcileCountry_calls_mono env) s2
  have c4 := runPass_done_calls (Call.momentsStates thr) (env.momentsStates thr)
    (reconcileState env) (reconcileState_calls_mono env) s3
  have c5 := runPass_done_calls (Call.momentsLabels thr) (env.momentsLabels thr)
    (reconcileLabel env) (reconcileLabel_calls_mono env) s4
  rw [h1] at c1
  rw [h2] at c2
  rw [h3] at c3
  rw [h4] at c4
  rw [h5] at c5
  simp only [Flow.state] at c1 c2 c3 c4 c5
  refine ⟨?_, ?_, ?_, ?_, c5.1⟩
  · exact c5.2 _ (c4.2 _ (c3.2 _ (c2.2 _ c1.1)))
  · exact c5.2 _ (c4.2 _ (c3.2 _ c2.1))
  · exact c5.2 _ (c4.2 _ c3.1)
  · exact c5.2 _ c4.1

/-- C9: `Start` returns an error exactly when the guard was held at the call,
and then nothing is read or changed. With the guard free the result is nil
whatever fails (a query, a Create, an Update, a panic) and the guard is free
again on return. A query error skips only its own dimension: the run is the
same as if that query had returned no candidates, and whenever the passes end
without a panic all five queries were called. -/
theorem Start_error_rule (env : Env) (s : State) :
    ((Start env s).1 ≠ none ↔ s.busy = true) ∧
    (s.busy = true → (Start env s).2 = s) ∧
    (s.busy = false → (Start env s).1 = none ∧ (Start env s).2.busy = false) ∧
    Start env.skipFailed s = Start env s ∧
    (∀ t, ¬ (env.indexSize < threshold env.indexSize) →
      body env { s with busy := true } = Flow.done t →
      Call.albumFolders 1 ∈ t.calls ∧ Call.momentsTime 1 ∈ t.calls ∧
      Call.momentsCountries (threshold env.indexSize) ∈ t.calls ∧
      Call.momentsStates (threshold env.indexSize) ∈ t.calls ∧
      Call.momentsLabels (threshold env.indexSize) ∈ t.calls) := by
  refine ⟨?_, ?_, ?_, Start_skipFailed env s, ?_⟩
  · unfold Start
    by_cases hb : s.busy = true <;> simp [hb]
  · intro hb
    unfold Start
    simp [hb]
  · intro hb
    unfold Start
    simp [hb]
  · intro t hthr hbody
    unfold body at hbody
    simp only [hthr, if_false] at hbody
    exact passes_done_calls env _ _ t hbody

/-- Witness of C9: the countries query fails. With the guard held the run
returns an error and leaves the state; with the guard free it returns nil,
frees the guard, and still creates the album of the label candidate. -/
theorem Start_error_rule_witness :
    (Start { exampleEnv [] [] [] [] [labelMoment "beach" "beach"] with
              momentsCountries := fun _ => QueryResult.failed "no database" }
        { busy := true, albums := [], calls := [] }).2 =
      { busy := true, albums := [], calls := [] } ∧
    ((Start { exampleEnv [] [] [] [] [labelMoment "beach" "beach"] with
              momentsCountries := fun _ => QueryResult.failed "no database" }
        State.empty).1 = none ∧
     (Start { exampleEnv [] [] [] [] [labelMoment "beach" "beach"] with
              momentsCountries := fun _ => QueryResult.failed "no database" }
        State.empty).2.busy = false) ∧
    (Start { exampleEnv [] [] [] [] [labelMoment "beach" "beach"] with
              momentsCountries := fun _ => QueryResult.failed "no database" }
        State.empty).2.albums = [labelAlbum "beach" "label:beach" none] :=
  ⟨(Start_error_rule { exampleEnv [] [] [] [] [labelMoment "beach" "beach"] with
        momentsCountries := fun _ => QueryResult.failed "no database" }
      { busy := true, albums := [], calls := [] }).2.1 rfl,
   (Start_error_rule { exampleEnv [] [] [] [] [labelMoment "beach" "beach"] with
        momentsCountries := fun _ => QueryResult.failed "no database" }
      State.empty).2.2.1 rfl,
   by decide⟩

/-! ## Idempotence -/

theorem find_isNone_iff (albums : List Album) (slug : String) (ty : AlbumType) :
    (FindAlbumBySlug albums slug ty).isNone = true ↔ (slug, ty) ∉ albums.map Album.ident := by
  unfold FindAlbumBySlug
  rw [Option.isNone_iff_eq_none, List.find?_eq_none]
  constructor
  · intro h hm
    obtain ⟨a, ha, hid⟩ := List.mem_map.mp hm
    simp only [Album.ident, Prod.mk.injEq] at hid
    exact h a ha ((hasIdentity_iff slug ty a).mpr hid)
  · intro h a ha hid
    apply h
    refine List.mem_map.mpr ⟨a, ha, ?_⟩
    obtain ⟨e1, e2⟩ := (hasIdentity_iff slug ty a).mp hid
    simp [Album.ident, e1, e2]

theorem setFilter_map_ident (slug : String) (ty : AlbumType) (v : String)
    (albums : List Album) :
    (setFilter slug ty v albums).map Album.ident = albums.map Album.ident := by
  induction albums with
  | nil => rfl
  | cons a rest ih =>
    unfold setFilter
    split
    · simp [Album.ident]
    · simp [ih]

/-- Pending depends on the collection through the identities only. -/
theorem pending_congr (env : Env) (w : Wanted) (l1 l2 : List Album)
    (h : l1.map Album.ident = l2.map Album.ident) :
    w.pending env l1 = w.pending env l2 := by
  unfold Wanted.pending
  have : (FindAlbumBySlug l1 w.slug w.ty).isNone = (FindAlbumBySlug l2 w.slug w.ty).isNone := by
    rw [Bool.eq_iff_iff, find_isNone_iff, find_isNone_iff, h]
  rw [this]

/-- A candidate that is not pending stays so when identities are only added. -/
theorem pending_false_mono (env : Env) (w : Wanted) (l1 l2 : List Album)
    (hsub : ∀ p ∈ l1.map Album.ident, p ∈ l2.map Album.ident)
    (h : w.pending env l1 = false) : w.pending env l2 = false := by
  unfold Wanted.pending at h ⊢
  rw [Bool.and_eq_false_iff] at h ⊢
  rcases h with h | h
  · left
    rw [Bool.eq_false_iff] at h ⊢
    intro h2
    apply h
    rw [find_isNone_iff] at h2 ⊢
    exact fun hm => h2 (hsub _ hm)
  · exact Or.inr h

theorem NoCreate.refl (s : State) : NoCreate s s :=
  ⟨rfl, [], by simp, by simp⟩

theorem NoCreate.trans {s t u : State} (h1 : NoCreate s t) (h2 : NoCreate t u) :
    NoCreate s u := by
  obtain ⟨a1, c1, b1, d1⟩ := h1
  obtain ⟨a2, c2, b2, d2⟩ := h2
  refine ⟨a2.trans a1, c1 ++ c2, by rw [b2, b1, List.append_assoc], ?_⟩
  intro a ha
  rcases List.mem_append.mp ha with ha | ha
  · exact d1 a ha
  · exact d2 a ha

theorem NoCreate.record (s : State) (c : Call) (hc : c.isRead = true) :
    NoCreate s (s.record c) := by
  refine ⟨rfl, [c], rfl, ?_⟩
  intro a ha
  rw [List.mem_singleton] at ha
  rw [← ha] at hc
  simp [Call.isRead] at hc

theorem NoCreate.doUpdate (env : Env) (a : Album) (v : String) (s : State) :
    NoCreate s (doUpdate env a v s).state := by
  refine ⟨?_, [Call.update a v], doUpdate_calls env a v s, by simp⟩
  unfold photoprism.doUpdate
  cases env.update s.albums a v with
  | ok => simp only [Flow.state, State.record]; exact setFilter_map_ident _ _ _ _
  | failed e => rfl
  | panicked => rfl

/-- Second run, one loop: when no candidate is pending, the loop calls no
Create and keeps the identities. -/
theorem forEach_noCreate {α : Type} (env : Env) (w : α → Wanted) (step : α → State → Flow)
    (hstep : Reconciles env w step) (xs : List α) :
    ∀ s, (∀ x ∈ xs, (w x).pending env s.albums = false) →
      NoCreate s (forEach step xs s).state := by
  induction xs with
  | nil => intro s _; exact NoCreate.refl s
  | cons x xs ih =>
    intro s hp
    have hx := (hstep x s).2 (hp x (List.mem_cons_self x xs))
    have hone : NoCreate s (step x s).state := by
      rcases hx with hx | ⟨a, v, hx⟩
      · rw [hx]; exact NoCreate.refl s
      · rw [hx]; exact NoCreate.doUpdate env a v s
    unfold forEach
    cases hr : step x s with
    | done s1 =>
      rw [hr] at hone
      simp only [Flow.state] at hone
      refine hone.trans (ih s1 ?_)
      intro y hy
      rw [pending_congr env (w y) s1.albums s.albums hone.1]
      exact hp y (List.mem_cons_of_mem x hy)
    | panicked s1 =>
      rw [hr] at hone
      exact hone

/-- First run, one loop: with steady collaborators the loop ends normally,
keeps the identities it found, and leaves no candidate pending. -/
theorem forEach_settles {α : Type} (env : Env) (henv : env.steady) (w : α → Wanted)
    (step : α → State → Flow) (hstep : Reconciles env w step) (xs : List α) :
    ∀ s, ∃ t, forEach step xs s = Flow.done t ∧
      (∀ p ∈ s.albums.map Album.ident, p ∈ t.albums.map Album.ident) ∧
      ∀ x ∈ xs, (w x).pending env t.albums = false := by
  induction xs with
  | nil => intro s; exact ⟨s, rfl, fun _ h => h, by simp⟩
  | cons x xs ih =>
    intro s
    have hone : ∃ s1, step x s = Flow.done s1 ∧
        (∀ p ∈ s.albums.map Album.ident, p ∈ s1.albums.map Album.ident) ∧
        (w x).pending env s1.albums = false := by
      cases hp : (w x).pending env s.albums with
      | true =>
        obtain ⟨a, ha, hs⟩ := (hstep x s).1 hp
        refine ⟨{ s.record (Call.create a) with albums := s.albums ++ [a] }, ?_, ?_, ?_⟩
        · rw [hs]
          unfold doCreate
          rw [henv.2.2.2.2.2.1]
        · intro p hp1
          simp only [List.map_append, List.mem_append]
          exact Or.inl hp1
        · unfold Wanted.pending
          rw [Bool.and_eq_false_iff]
          left
          rw [Bool.eq_false_iff]
          intro hcon
          rw [find_isNone_iff] at hcon
          apply hcon
          simp only [List.map_append, List.mem_append, List.map_cons, List.map_nil,
            List.mem_singleton]
          exact Or.inr ha.symm
      | false =>
        rcases (hstep x s).2 hp with hs | ⟨a, v, hs⟩
        · exact ⟨s, hs, fun _ h => h, hp⟩
        · have hnc := NoCreate.doUpdate env a v s
          rw [hs]
          unfold doUpdate at hnc ⊢
          have hnp := henv.2.2.2.2.2.2 s.albums a v
          cases hu : env.update s.albums a v with
          | ok =>
            rw [hu] at hnc
            simp only [Flow.state] at hnc
            refine ⟨_, rfl, ?_, ?_⟩
            · intro p hp1; rw [hnc.1]; exact hp1
            · rw [pending_congr env (w x) _ s.albums hnc.1]; exact hp
          | failed e => exact ⟨_, rfl, fun _ h => h, hp⟩
          | panicked => exact absurd hu hnp
    obtain ⟨s1, h1, h2, h3⟩ := hone
    obtain ⟨t, g1, g2, g3⟩ := ih s1
    refine ⟨t, ?_, fun p hp => g2 p (h2 p hp), ?_⟩
    · unfold forEach
      rw [h1]
      exact g1
    · intro y hy
      rcases List.mem_cons.mp hy with hy | hy
      · rw [hy]
        exact pending_false_mono env (w x) s1.albums t.albums g2 h3
      · exact g3 y hy

theorem reconcileFolder_reconciles (env : Env) :
    Reconciles env (folderWanted env) (reconcileFolder env) := by
  intro x s
  unfold reconcileFolder NewFolderAlbum Wanted.pending folderWanted
  simp only
  generalize env.serialize { PhotoSearch.zero with Path := x.Path } = flt
  cases hf : FindAlbumBySlug s.albums x.Slug AlbumType.TypeFolder with
  | some a => simp
  | none =>
    cases hok : env.albumOk x.Title x.Slug flt with
    | true =>
      simp only [newAlbum, Album.ident, Option.isNone_none, Bool.true_and, if_true,
        Option.map_some', forall_const, Bool.true_eq_false, false_implies, and_true,
        Prod.mk.injEq]
      exact ⟨_, ⟨rfl, rfl⟩, rfl⟩
    | false => simp [newAlbum]

theorem reconcileMonth_reconciles (env : Env) :
    Reconciles env (monthWanted env) (reconcileMonth env) := by
  intro x s
  unfold reconcileMonth NewMonthAlbum Wanted.pending monthWanted
  simp only
  generalize env.serialize { PhotoSearch.zero with Year := x.Year, Month := x.Month } = flt
  cases hf : FindAlbumBySlug s.albums x.Slug AlbumType.TypeMonth with
  | some a => simp
  | none =>
    cases hok : env.albumOk x.Title x.Slug flt with
    | true =>
      simp only [newAlbum, Album.ident, Option.isNone_none, Bool.true_and, if_true,
        Option.map_some', forall_const, Bool.true_eq_false, false_implies, and_true,
        Prod.mk.injEq]
      exact ⟨_, ⟨rfl, rfl⟩, rfl⟩
    | false => simp [newAlbum]

theorem reconcileCountry_reconciles (env : Env) :
    Reconciles env (countryWanted env) (reconcileCountry env) := by
  intro x s
  unfold reconcileCountry NewMomentsAlbum Wanted.pending countryWanted
  simp only
  generalize env.serialize { PhotoSearch.zero with Country := x.Country, Year := x.Year } = flt
  cases hf : FindAlbumBySlug s.albums x.Slug AlbumType.TypeMoment with
  | some a => simp
  | none =>
    cases hok : env.albumOk x.Title x.Slug flt with
    | true =>
      simp only [newAlbum, Album.ident, Option.isNone_none, Bool.true_and, if_true,
        Option.map_some', forall_const, Bool.true_eq_false, false_implies, and_true,
        Prod.mk.injEq]
      exact ⟨_, ⟨rfl, rfl⟩, rfl⟩
    | false => simp [newAlbum]

theorem reconcileState_reconciles (env : Env) :
    Reconciles env (stateWanted env) (reconcileState env) := by
  intro x s
  unfold reconcileState NewMomentsAlbum Wanted.pending stateWanted
  simp only
  generalize env.serialize { PhotoSearch.zero with Country := x.Country, State := x.State } = flt
  cases hf : FindAlbumBySlug s.albums x.Slug AlbumType.TypeMoment with
  | some a => simp
  | none =>
    cases hok : env.albumOk x.Title x.Slug flt with
    | true =>
      simp only [newAlbum, Album.ident, Option.isNone_none, Bool.true_and, if_true,
        Option.map_some', forall_const, Bool.true_eq_false, false_implies, and_true,
        Prod.mk.injEq]
      exact ⟨_, ⟨rfl, rfl⟩, rfl⟩
    | false => simp [newAlbum]

theorem reconcileLabel_reconciles (env : Env) :
    Reconciles env (labelWanted env) (reconcileLabel env) := by
  intro x s
  unfold reconcileLabel NewMomentsAlbum Wanted.pending labelWanted
  simp only
  cases hf : FindAlbumBySlug s.albums x.Slug AlbumType.TypeMoment with
  | some a =>
    simp only [Option.isNone_some, Bool.false_and, Bool.false_eq_true, false_implies,
      true_and, forall_const]
    split
    · exact Or.inl rfl
    · exact Or.inr ⟨a, _, rfl⟩
  | none =>
    generalize env.serialize { PhotoSearch.zero with Label := x.Label } = flt
    cases hok : env.albumOk x.Title x.Slug flt with
    | true =>
      simp only [newAlbum, Album.ident, Option.isNone_none, Bool.true_and, if_true,
        Option.map_some', forall_const, Bool.true_eq_false, false_implies, and_true,
        Prod.mk.injEq]
      exact ⟨_, ⟨rfl, rfl⟩, rfl⟩
    | false => simp [newAlbum]

/-- Second run, one pass. -/
theorem runPass_noCreate {α : Type} (env : Env) (w : α → Wanted) (step : α → State → Flow)
    (hstep : Reconciles env w step) (call : Call) (hcall : call.isRead = true)
    (q : QueryResult α) (s : State)
    (hp : ∀ x ∈ q.candidates, (w x).pending env s.albums = false) :
    NoCreate s (runPass call q step s).state := by
  have hr := NoCreate.record s call hcall
  unfold runPass
  cases q with
  | ok results => exact hr.trans (forEach_noCreate env w step hstep results _ hp)
  | failed e => exact hr
  | panicked => exact hr

/-- First run, one pass. -/
theorem runPass_settles {α : Type} (env : Env) (henv : env.steady) (w : α → Wanted)
    (step : α → State → Flow) (hstep : Reconciles env w step) (call : Call)
    (q : QueryResult α) (hq : q ≠ QueryResult.panicked) (s : State) :
    ∃ t, runPass call q step s = Flow.done t ∧
      (∀ p ∈ s.albums.map Album.ident, p ∈ t.albums.map Album.ident) ∧
      ∀ x ∈ q.candidates, (w x).pending env t.albums = false := by
  unfold runPass
  cases q with
  | ok results => exact forEach_settles env henv w step hstep results (s.record call)
  | failed e => exact ⟨_, rfl, fun _ h => h, by simp [QueryResult.candidates]⟩
  | panicked => exact absurd rfl hq

theorem andThen_noCreate (s : State) (fl : Flow) (k : State → Flow)
    (h : NoCreate s fl.state) (hk : ∀ s1, NoCreate s s1 → NoCreate s1 (k s1).state) :
    NoCreate s (fl.andThen k).state := by
  cases fl with
  | done s1 => exact h.trans (hk s1 h)
  | panicked s1 => exact h

theorem settled_congr (env : Env) (thr : Int) (l1 l2 : List Album)
    (h : l2.map Album.ident = l1.map Album.ident) (hs : Settled env thr l1) :
    Settled env thr l2 := by
  obtain ⟨h1, h2, h3, h4, h5⟩ := hs
  refine ⟨?_, ?_, ?_, ?_, ?_⟩
  · intro x hx; rw [pending_congr env _ l2 l1 h]; exact h1 x hx
  · intro x hx; rw [pending_congr env _ l2 l1 h]; exact h2 x hx
  · intro x hx; rw [pending_congr env _ l2 l1 h]; exact h3 x hx
  · intro x hx; rw [pending_congr env _ l2 l1 h]; exact h4 x hx
  · intro x hx; rw [pending_congr env _ l2 l1 h]; exact h5 x hx

/-- Second run: when no candidate is pending, the five passes call no Create. -/
theorem passes_noCreate (env : Env) (thr : Int) (s : State)
    (hs : Settled env thr s.albums) : NoCreate s (passes env thr s).state := by
  unfold passes
  refine andThen_noCreate _ _ _ (andThen_noCreate _ _ _ (andThen_noCreate _ _ _
    (andThen_noCreate _ _ _ ?_ ?_) ?_) ?_) ?_
  · exact runPass_noCreate env _ _ (reconcileFolder_reconciles env) (Call.albumFolders 1) rfl
      _ s hs.1
  · intro s1 h1
    exact runPass_noCreate env _ _ (reconcileMonth_reconciles env) (Call.momentsTime 1) rfl
      _ s1 (settled_congr env thr _ _ h1.1 hs).2.1
  · intro s1 h1
    exact runPass_noCreate env _ _ (reconcileCountry_reconciles env)
      (Call.momentsCountries thr) rfl _ s1 (settled_congr env thr _ _ h1.1 hs).2.2.1
  · intro s1 h1
    exact runPass_noCreate env _ _ (reconcileState_reconciles env)
      (Call.momentsStates thr) rfl _ s1 (settled_congr env thr _ _ h1.1 hs).2.2.2.1
  · intro s1 h1
    exact runPass_noCreate env _ _ (reconcileLabel_reconciles env)
      (Call.momentsLabels thr) rfl _ s1 (settled_congr env thr _ _ h1.1 hs).2.2.2.2

/-- First run: with steady collaborators the five passes end normally and leave
no candidate pending. -/
theorem passes_settles (env : Env) (henv : env.steady) (thr : Int) (s : State) :
    ∃ t, passes env thr s = Flow.done t ∧ Settled env thr t.albums := by
  obtain ⟨s1, e1, m1, p1⟩ := runPass_settles env henv _ _ (reconcileFolder_reconciles env)
    (Call.albumFolders 1) (env.albumFolders 1) (henv.1 1) s
  obtain ⟨s2, e2, m2, p2⟩ := runPass_settles env henv _ _ (reconcileMonth_reconciles env)
    (Call.momentsTime 1) (env.momentsTime 1) (henv.2.1 1) s1
  obtain ⟨s3, e3, m3, p3⟩ := runPass_settles env henv _ _ (reconcileCountry_reconciles env)
    (Call.momentsCountries thr) (env.momentsCountries thr) (henv.2.2.1 thr) s2
  obtain ⟨s4, e4, m4, p4⟩ := runPass_settles env henv _ _ (reconcileState_reconciles env)
    (Call.momentsStates thr) (env.momentsStates thr) (henv.2.2.2.1 thr) s3
  obtain ⟨s5, e5, m5, p5⟩ := runPass_settles env henv _ _ (reconcileLabel_reconciles env)
    (Call.momentsLabels thr) (env.momentsLabels thr) (henv.2.2.2.2.1 thr) s4
  refine ⟨s5, ?_, ?_, ?_, ?_, ?_, p5⟩
  · unfold passes
    rw [e1]; simp only [Flow.andThen]
    rw [e2]; simp only
    rw [e3]; simp only
    rw [e4]; simp only
    rw [e5]
  · intro x hx
    exact pending_false_mono env _ s1.albums s5.albums
      (fun p hp => m5 p (m4 p (m3 p (m2 p hp)))) (p1 x hx)
  · intro x hx
    exact pending_false_mono env _ s2.albums s5.albums
      (fun p hp => m5 p (m4 p (m3 p hp))) (p2 x hx)
  · intro x hx
    exact pending_false_mono env _ s3.albums s5.albums (fun p hp => m5 p (m4 p hp)) (p3 x hx)
  · intro x hx
    exact pending_false_mono env _ s4.albums s5.albums (fun p hp => m5 p hp) (p4 x hx)

/-- C4 (as amended): when in the first run no query, Create or Update fails
internally (panics) and every Create persists its album, a second run of
`Start` with the same catalog and the same query results, begun in the state
the first run left (its record of calls cleared), calls no Create at all,
however Create and Update behave in the second run. -/
theorem Start_idempotent (env : Env) (henv : env.steady)
    (create2 : List Album → Album → Outcome)
    (update2 : List Album → Album → String → Outcome) (s : State) (a : Album) :
    Call.create a ∉ (Start (env.secondRun create2 update2)
      { (Start env s).2 with calls := [] }).2.calls := by
  have hidx : (env.secondRun create2 update2).indexSize = env.indexSize := rfl
  by_cases hb : s.busy = true
  · have h1 : (Start env s).2 = s := by unfold Start; simp [hb]
    rw [h1]
    unfold Start
    simp [hb]
  · have hb1 : s.busy = false := by simpa using hb
    by_cases hsmall : env.indexSize < threshold env.indexSize
    · have h1 : (Start (env.secondRun create2 update2)
          { (Start env s).2 with calls := [] }).2.calls = [Call.countsRefresh] := by
        unfold Start body
        simp [hb1, hsmall, hidx, Flow.state, State.record]
      rw [h1]
      simp
    · obtain ⟨t, ht, hset⟩ := passes_settles env henv (threshold env.indexSize)
        (State.record { s with busy := true } Call.countsRefresh)
      have h1 : (Start env s).2 = { t with busy := false } := by
        unfold Start body
        simp only [hb1, Bool.false_eq_true, if_false, hsmall]
        rw [ht]
        rfl
      rw [h1]
      have hset2 : Settled (env.secondRun create2 update2) (threshold env.indexSize)
          t.albums := hset
      have hnc := passes_noCreate (env.secondRun create2 update2) (threshold env.indexSize)
        (State.record { busy := true, albums := t.albums, calls := [] } Call.countsRefresh)
        hset2
      obtain ⟨-, calls, hcalls, hno⟩ := hnc
      have h2 : (Start (env.secondRun create2 update2)
          { busy := false, albums := t.albums, calls := [] }).2.calls =
          [Call.countsRefresh] ++ calls := by
        unfold Start body
        simp only [Bool.false_eq_true, if_false, hidx, hsmall]
        exact hcalls
      show Call.create a ∉ (Start (env.secondRun create2 update2)
        { busy := false, albums := t.albums, calls := [] }).2.calls
      rw [h2]
      intro hm
      rcases List.mem_append.mp hm with hm | hm
      · simp at hm
      · exact hno a hm

theorem exampleEnv_steady (folders : List Folder) (months countries states labels : List Moment) :
    (exampleEnv folders months countries states labels).steady :=
  ⟨fun _ h => QueryResult.noConfusion h, fun _ h => QueryResult.noConfusion h,
    fun _ h => QueryResult.noConfusion h, fun _ h => QueryResult.noConfusion h,
    fun _ h => QueryResult.noConfusion h, fun _ _ => rfl, fun _ _ _ h => Outcome.noConfusion h⟩

/-- Witness of C4: a first run that creates the albums of a country candidate
and of a label candidate, followed by a second run, with an Update that would
fail internally, that creates nothing. -/
theorem Start_idempotent_witness :
    (Start (exampleEnv [] [] [countryMoment "fr" 2020 "France 2020" "france-2020"] []
        [labelMoment "beach" "beach"]) State.empty).2.albums.length = 2 ∧
    Call.create (labelAlbum "beach" "label:beach" none) ∉
      (Start ((exampleEnv [] [] [countryMoment "fr" 2020 "France 2020" "france-2020"] []
          [labelMoment "beach" "beach"]).secondRun (fun _ _ => Outcome.ok) updatePanics)
        { (Start (exampleEnv [] [] [countryMoment "fr" 2020 "France 2020" "france-2020"] []
            [labelMoment "beach" "beach"]) State.empty).2 with calls := [] }).2.calls :=
  ⟨by decide,
   Start_idempotent (exampleEnv [] [] [countryMoment "fr" 2020 "France 2020" "france-2020"] []
      [labelMoment "beach" "beach"]) (exampleEnv_steady _ _ _ _ _) _ _ State.empty _⟩

/-- Counterexample to C4 as stated. First part: the album `cat` exists with an
older filter and the labels query returns `cat` and `dog`, both times. In the
first run the Update of `cat` fails internally: the run is ended by the
recovered panic, returns nil and has made no Create call. In the second run
Update succeeds and `dog` is created. Second part: one and the same
environment in both runs, with an Update that depends on the collection. The
first run creates `n` (which persists) and is ended by the panic of the Update
of `q`; the second run updates `p` and `q` and then creates `y`. -/
theorem Start_idempotent_counterexample :
    (Start ((exampleEnv [] [] [] [] [labelMoment "cat" "cat", labelMoment "dog" "dog"]).secondRun
        (fun _ _ => Outcome.ok) updatePanics)
      { busy := false, albums := [labelAlbum "cat" "label:old" none], calls := [] }) =
      (none, { busy := false, albums := [labelAlbum "cat" "label:old" none],
               calls := [Call.countsRefresh, Call.albumFolders 1, Call.momentsTime 1,
                 Call.momentsCountries 3, Call.momentsStates 3, Call.momentsLabels 3,
                 Call.update (labelAlbum "cat" "label:old" none) "label:cat"] }) ∧
    Call.create (labelAlbum "dog" "label:dog" none) ∈
      (Start (exampleEnv [] [] [] [] [labelMoment "cat" "cat", labelMoment "dog" "dog"])
        { (Start ((exampleEnv [] [] [] [] [labelMoment "cat" "cat",
              labelMoment "dog" "dog"]).secondRun (fun _ _ => Outcome.ok) updatePanics)
            { busy := false, albums := [labelAlbum "cat" "label:old" none], calls := [] }).2
          with calls := [] }).2.calls ∧
    (Start ((exampleEnv [] [] [] [] [labelMoment "p" "p", labelMoment "n" "n",
          labelMoment "q" "q", labelMoment "y" "y"]).secondRun
        (fun _ _ => Outcome.ok) updateByState)
      { busy := false,
        albums := [labelAlbum "p" "label:old" none, labelAlbum "q" "label:old" none],
        calls := [] }).2.albums =
      [labelAlbum "p" "label:old" none, labelAlbum "q" "label:old" none,
        labelAlbum "n" "label:n" none] ∧
    Call.create (labelAlbum "y" "label:y" none) ∈
      (Start ((exampleEnv [] [] [] [] [labelMoment "p" "p", labelMoment "n" "n",
            labelMoment "q" "q", labelMoment "y" "y"]).secondRun
          (fun _ _ => Outcome.ok) updateByState)
        { (Start ((exampleEnv [] [] [] [] [labelMoment "p" "p", labelMoment "n" "n",
              labelMoment "q" "q", labelMoment "y" "y"]).secondRun
            (fun _ _ => Outcome.ok) updateByState)
            { busy := false,
              albums := [labelAlbum "p" "label:old" none, labelAlbum "q" "label:old" none],
              calls := [] }).2
          with calls := [] }).2.calls := by
  refine ⟨by decide, by decide, by decide, by decide⟩

/-! ## txt.Time, canonical names -/

theorem isDigitByte_add (x : Nat) (h : x < 10) : isDigitByte (48 + x) = true := by
  simp [isDigitByte]; omega

theorem runeWidth_ascii (b : Nat) (rest : List Nat) (h : b < 128) :
    runeWidth (b :: rest) = 1 := by
  cases rest with
  | nil => rfl
  | cons c rest => simp [runeWidth, h]

theorem matchRep_done (c : CharClass) (k : List Nat → Option Nat) (input : List Nat) :
    matchRep c k 0 0 input = k input := by
  rw [matchRep]; simp

theorem matchRep_digit_step (k : List Nat → Option Nat) (n m d : Nat) (rest : List Nat)
    (h : isDigitByte d = true) :
    matchRep CharClass.digit k (n + 1) (m + 1) (d :: rest) =
      (matchRep CharClass.digit k n m rest).map (· + 1) := by
  rw [matchRep]
  simp only [stepClass, h, if_true, Nat.add_sub_cancel, List.drop_succ_cons, List.drop_zero]
  cases matchRep CharClass.digit k n m rest <;> simp

theorem matchRep_digit_fail (k : List Nat → Option Nat) (n m d : Nat) (rest : List Nat)
    (h : isDigitByte d = false) :
    matchRep CharClass.digit k (n + 1) (m + 1) (d :: rest) = none := by
  rw [matchRep]
  simp [stepClass, h]

theorem matchRep_byte_step (k : List Nat → Option Nat) (x : Nat) (rest : List Nat) :
    matchRep (CharClass.byte x) k 1 1 (x :: rest) = (k rest).map (· + 1) := by
  rw [matchRep]
  simp only [stepClass, if_true, Nat.sub_self, List.drop_succ_cons, List.drop_zero,
    matchRep_done]
  cases k rest <;> simp

theorem matchRep_nonDigit_step (k : List Nat → Option Nat) (b : Nat) (rest : List Nat)
    (hb : b < 128) (h : isDigitByte b = false) :
    matchRep CharClass.nonDigit k 1 1 (b :: rest) = (k rest).map (· + 1) := by
  rw [matchRep]
  simp only [stepClass, h, Bool.false_eq_true, if_false, runeWidth_ascii b rest hb,
    Nat.sub_self, List.drop_succ_cons, List.drop_zero, matchRep_done]
  cases k rest <;> simp

/-- The canonical pattern does not match where a non-digit follows the first
character. -/
theorem canonical_no_match (b c : Nat) (rest : List Nat) (hb : b < 128)
    (h : isDigitByte b = false) (hc : isDigitByte c = false) :
    matchPattern DateCanonicalRegexp (b :: c :: rest) = none := by
  simp only [DateCanonicalRegexp, Item.times, matchPattern, Option.getD_some]
  rw [matchRep_nonDigit_step _ b _ hb h, matchRep_digit_fail _ _ _ c _ hc]
  rfl

/-- The canonical pattern matches an underscore, eight digits, an underscore,
six digits and `_12345.`; the match has 23 bytes. -/
theorem canonical_match (d1 d2 d3 d4 d5 d6 d7 d8 e1 e2 e3 e4 e5 e6 : Nat)
    (h1 : isDigitByte d1 = true) (h2 : isDigitByte d2 = true) (h3 : isDigitByte d3 = true)
    (h4 : isDigitByte d4 = true) (h5 : isDigitByte d5 = true) (h6 : isDigitByte d6 = true)
    (h7 : isDigitByte d7 = true) (h8 : isDigitByte d8 = true) (g1 : isDigitByte e1 = true)
    (g2 : isDigitByte e2 = true) (g3 : isDigitByte e3 = true) (g4 : isDigitByte e4 = true)
    (g5 : isDigitByte e5 = true) (g6 : isDigitByte e6 = true) :
    matchPattern DateCanonicalRegexp
      (95 :: d1 :: d2 :: d3 :: d4 :: d5 :: d6 :: d7 :: d8 :: 95 ::
        e1 :: e2 :: e3 :: e4 :: e5 :: e6 :: 95 :: 49 :: 50 :: 51 :: 52 :: 53 :: 46 ::
        106 :: 112 :: 103 :: []) = some 23 := by
  have htail : matchPattern
      [{ cls := CharClass.word, min := 1, max := none }, Item.times (CharClass.byte 46) 1]
      (49 :: 50 :: 51 :: 52 :: 53 :: 46 :: 106 :: 112 :: 103 :: []) = some 6 := by
    decide
  have hu : isDigitByte 95 = false := by decide
  simp only [DateCanonicalRegexp, Item.times, matchPattern, Option.getD_some] at htail ⊢
  rw [matchRep_nonDigit_step _ 95 _ (by norm_num) hu]
  simp only [matchRep_digit_step, matchRep_done, matchRep_byte_step, h1, h2, h3, h4, h5, h6,
    h7, h8, g1, g2, g3, g4, g5, g6, htail, Option.map_some']

theorem findFrom_skip (p : Pattern) (fuel b : Nat) (rest : List Nat) (hb : b < 128)
    (h : matchPattern p (b :: rest) = none) :
    findFrom p (fuel + 1) (b :: rest) = findFrom p fuel rest := by
  simp only [findFrom, h, runeWidth_ascii b rest hb, List.drop_succ_cons, List.drop_zero]

theorem findFrom_hit (p : Pattern) (fuel len : Nat) (input : List Nat)
    (h : matchPattern p input = some len) :
    findFrom p (fuel + 1) input = input.take len := by
  simp only [findFrom, h]

/-- In `/IMG_YYYYMMDD_HHMMSS_12345.jpg` the canonical pattern is found at the
underscore before the date. -/
theorem find_canonical_name (d1 d2 d3 d4 d5 d6 d7 d8 e1 e2 e3 e4 e5 e6 : Nat)
    (h1 : isDigitByte d1 = true) (h2 : isDigitByte d2 = true) (h3 : isDigitByte d3 = true)
    (h4 : isDigitByte d4 = true) (h5 : isDigitByte d5 = true) (h6 : isDigitByte d6 = true)
    (h7 : isDigitByte d7 = true) (h8 : isDigitByte d8 = true) (g1 : isDigitByte e1 = true)
    (g2 : isDigitByte e2 = true) (g3 : isDigitByte e3 = true) (g4 : isDigitByte e4 = true)
    (g5 : isDigitByte e5 = true) (g6 : isDigitByte e6 = true) :
    Find DateCanonicalRegexp
      (47 :: 73 :: 77 :: 71 :: 95 :: d1 :: d2 :: d3 :: d4 :: d5 :: d6 :: d7 :: d8 :: 95 ::
        e1 :: e2 :: e3 :: e4 :: e5 :: e6 :: 95 :: 49 :: 50 :: 51 :: 52 :: 53 :: 46 ::
        106 :: 112 :: 103 :: []) =
      [95, d1, d2, d3, d4, d5, d6, d7, d8, 95, e1, e2, e3, e4, e5, e6, 95, 49, 50, 51, 52, 53,
        46] := by
  unfold Find
  simp only [List.length_cons, List.length_nil]
  rw [findFrom_skip _ _ 47 _ (by norm_num)
    (canonical_no_match 47 73 _ (by norm_num) (by decide) (by decide))]
  rw [findFrom_skip _ _ 73 _ (by norm_num)
    (canonical_no_match 73 77 _ (by norm_num) (by decide) (by decide))]
  rw [findFrom_skip _ _ 77 _ (by norm_num)
    (canonical_no_match 77 71 _ (by norm_num) (by decide) (by decide))]
  rw [findFrom_skip _ _ 71 _ (by norm_num)
    (canonical_no_match 71 95 _ (by norm_num) (by decide) (by decide))]
  rw [findFrom_hit _ _ 23 _
    (canonical_match d1 d2 d3 d4 d5 d6 d7 d8 e1 e2 e3 e4 e5 e6 h1 h2 h3 h4 h5 h6 h7 h8
      g1 g2 g3 g4 g5 g6)]
  rfl

theorem digitsValue_two (a b : Nat) : digitsValue [48 + a, 48 + b] = a * 10 + b := by
  simp [digitsValue]

theorem getnum_two (fixed : Bool) (a b : Nat) (rest : List Nat) (ha : a < 10) (hb : b < 10) :
    getnum fixed ((48 + a) :: (48 + b) :: rest) = some (((a * 10 + b : Nat) : Int), rest) := by
  simp only [getnum, isDigitByte_add a ha, isDigitByte_add b hb, if_true, digitsValue_two]

theorem getnum_digits2 (fixed : Bool) (n : Nat) (rest : List Nat) (h : n < 100) :
    getnum fixed (digits2 n ++ rest) = some ((n : Int), rest) := by
  have e : n / 10 % 10 * 10 + n % 10 = n := by omega
  simp only [digits2, List.cons_append, List.nil_append]
  rw [getnum_two fixed _ _ rest (by omega) (by omega), e]

/-- `time.Parse` reads the fifteen bytes `YYYYMMDD_HHMMSS` of a calendar date
and a time of day back as that instant. -/
theorem timeParseCanonical_digits (year month day hour min sec : Nat) (hY : year ≤ 9999)
    (hM1 : 1 ≤ month) (hM2 : month ≤ 12) (hD1 : 1 ≤ day)
    (hD2 : (day : Int) ≤ daysIn month year) (hh : hour ≤ 23) (hm : min ≤ 59) (hs : sec ≤ 59) :
    timeParseCanonical
        (digits4 year ++ (digits2 month ++ (digits2 day ++
          95 :: (digits2 hour ++ (digits2 min ++ (digits2 sec ++ [])))))) =
      some (Date year month day hour min sec) := by
  have hD3 : day < 100 := by
    have : daysIn (month : Int) (year : Int) ≤ 31 := by
      unfold daysIn; split
      · split <;> norm_num
      · split <;> norm_num
    omega
  have hy : digitsValue (digits4 year) = year := by
    simp only [digits4, digitsValue, List.foldl_cons, List.foldl_nil]
    omega
  have hall : (digits4 year).all isDigitByte = true := by
    simp only [digits4, List.all_cons, List.all_nil, Bool.and_true, Bool.and_eq_true]
    exact ⟨isDigitByte_add _ (by omega), isDigitByte_add _ (by omega),
      isDigitByte_add _ (by omega), isDigitByte_add _ (by omega)⟩
  have htake : (digits4 year ++ (digits2 month ++ (digits2 day ++
      95 :: (digits2 hour ++ (digits2 min ++ (digits2 sec ++ [])))))).take 4 = digits4 year := by
    simp [digits4]
  have hdrop : (digits4 year ++ (digits2 month ++ (digits2 day ++
      95 :: (digits2 hour ++ (digits2 min ++ (digits2 sec ++ [])))))).drop 4 =
      digits2 month ++ (digits2 day ++
        95 :: (digits2 hour ++ (digits2 min ++ (digits2 sec ++ [])))) := by
    simp [digits4]
  have hlen : (digits4 year).length = 4 := rfl
  unfold timeParseCanonical
  simp only [htake, hdrop, hlen, hall, hy]
  rw [getnum_digits2 true month _ (by omega)]
  simp only
  rw [getnum_digits2 true day _ hD3]
  simp only
  rw [getnum_digits2 false hour _ (by omega)]
  simp only
  rw [getnum_digits2 true min _ (by omega)]
  simp only
  rw [getnum_digits2 true sec _ (by omega)]
  simp only
  have c1 : ¬ ((month : Int) ≤ 0 ∨ 12 < (month : Int)) := by omega
  have c2 : ¬ ((hour : Int) < 0 ∨ 24 ≤ (hour : Int)) := by omega
  have c3 : ¬ ((min : Int) < 0 ∨ 60 ≤ (min : Int)) := by omega
  have c4 : ¬ ((sec : Int) < 0 ∨ 60 ≤ (sec : Int)) := by omega
  have c5 : ¬ ((day : Int) < 1 ∨ (day : Int) > daysIn month year) := by omega
  simp only [c1, c2, c3, c4, c5, if_false, ne_eq, not_true_eq_false]
  rw [if_neg (by simp)]

/-- C10: for every calendar date with a four-digit year and every time of day,
`txt.Time` of `IMG_YYYYMMDD_HHMMSS_12345.jpg` is that instant in UTC with no
sub-second part; for `IMG_20210315_143022_12345.jpg` it is
2021-03-15T14:30:22Z, which is 1615818622 seconds after 1970-01-01T00:00:00Z. -/
theorem Time_canonical (yearNow : Int) (year month day hour min sec : Nat) (hY : year ≤ 9999)
    (hM1 : 1 ≤ month) (hM2 : month ≤ 12) (hD1 : 1 ≤ day)
    (hD2 : (day : Int) ≤ daysIn month year) (hh : hour ≤ 23) (hm : min ≤ 59) (hs : sec ≤ 59) :
    txt.Time yearNow (canonicalName year month day hour min sec) =
      Date year month day hour min sec ∧
    (txt.Time yearNow (canonicalName year month day hour min sec)).nsec = 0 ∧
    txt.Time yearNow (ascii "IMG_20210315_143022_12345.jpg") = Date 2021 3 15 14 30 22 ∧
    Date 2021 3 15 14 30 22 = { unix := 1615818622, nsec := 0 } := by
  have key : ∀ (y mo d h mi s : Nat), y ≤ 9999 → 1 ≤ mo → mo ≤ 12 → 1 ≤ d →
      (d : Int) ≤ daysIn mo y → h ≤ 23 → mi ≤ 59 → s ≤ 59 →
      txt.Time yearNow (canonicalName y mo d h mi s) = Date y mo d h mi s := by
    intro y mo d h mi s hy hm1 hm2 hd1 hd2 hh1 hmi1 hs1
    have hd3 : d < 100 := by
      have : daysIn (mo : Int) (y : Int) ≤ 31 := by
        unfold daysIn; split
        · split <;> norm_num
        · split <;> norm_num
      omega
    have hname : canonicalName y mo d h mi s =
        73 :: 77 :: 71 :: 95 :: (48 + y / 1000 % 10) :: (48 + y / 100 % 10) ::
          (48 + y / 10 % 10) :: (48 + y % 10) :: (48 + mo / 10 % 10) :: (48 + mo % 10) ::
          (48 + d / 10 % 10) :: (48 + d % 10) :: 95 :: (48 + h / 10 % 10) :: (48 + h % 10) ::
          (48 + mi / 10 % 10) :: (48 + mi % 10) :: (48 + s / 10 % 10) :: (48 + s % 10) ::
          95 :: 49 :: 50 :: 51 :: 52 :: 53 :: 46 :: 106 :: 112 :: 103 :: [] := by
      have e1 : ascii "IMG_" = [73, 77, 71, 95] := by decide
      have e2 : ascii "_12345.jpg" = [95, 49, 50, 51, 52, 53, 46, 106, 112, 103] := by decide
      simp only [canonicalName, e1, e2, digits4, digits2, List.cons_append, List.nil_append]
    have hparse := timeParseCanonical_digits y mo d h mi s hy hm1 hm2 hd1 hd2 hh1 hmi1 hs1
    simp only [digits4, digits2, List.cons_append, List.nil_append] at hparse
    unfold txt.Time
    rw [hname]
    simp only [List.length_cons, List.length_nil, List.head?_cons]
    have hfind := find_canonical_name
      (48 + y / 1000 % 10) (48 + y / 100 % 10) (48 + y / 10 % 10) (48 + y % 10)
      (48 + mo / 10 % 10) (48 + mo % 10) (48 + d / 10 % 10) (48 + d % 10)
      (48 + h / 10 % 10) (48 + h % 10) (48 + mi / 10 % 10) (48 + mi % 10)
      (48 + s / 10 % 10) (48 + s % 10)
      (isDigitByte_add _ (by omega)) (isDigitByte_add _ (by omega))
      (isDigitByte_add _ (by omega)) (isDigitByte_add _ (by omega))
      (isDigitByte_add _ (by omega)) (isDigitByte_add _ (by omega))
      (isDigitByte_add _ (by omega)) (isDigitByte_add _ (by omega))
      (isDigitByte_add _ (by omega)) (isDigitByte_add _ (by omega))
      (isDigitByte_add _ (by omega)) (isDigitByte_add _ (by omega))
      (isDigitByte_add _ (by omega)) (isDigitByte_add _ (by omega))
    simp only [show ¬ ((29 : Nat) < 6) by norm_num, if_false,
      show ¬ ((some 73 : Option Nat) = some 47) by decide, hfind, List.length_cons,
      List.length_nil]
    simp only [show (0 + 1 + 1 + 1 + 1 + 1 + 1 + 1 + 1 + 1 + 1 + 1 + 1 + 1 + 1 + 1 + 1 + 1 + 1 +
      1 + 1 + 1 + 1 + 1 : Nat) = 23 by norm_num, show (23 : Nat) > 0 by norm_num,
      show ¬ ((23 : Nat) < 16) by norm_num, if_true, if_false, List.take, List.drop]
    rw [hparse]
    rfl
  refine ⟨key year month day hour min sec hY hM1 hM2 hD1 hD2 hh hm hs, ?_, ?_, ?_⟩
  · rw [key year month day hour min sec hY hM1 hM2 hD1 hD2 hh hm hs]
    rfl
  · have e : ascii "IMG_20210315_143022_12345.jpg" = canonicalName 2021 3 15 14 30 22 := by
      decide
    rw [e]
    exact key 2021 3 15 14 30 22 (by norm_num) (by norm_num) (by norm_num) (by norm_num)
      (by decide) (by norm_num) (by norm_num) (by norm_num)
  · decide

/-- Witness of C10: the last second of the leap day 2024-02-29. -/
theorem Time_canonical_witness :
    txt.Time 2026 (canonicalName 2024 2 29 23 59 59) = Date 2024 2 29 23 59 59 :=
  (Time_canonical 2026 2024 2 29 23 59 59 (by norm_num) (by norm_num) (by norm_num)
    (by norm_num) (by decide) (by norm_num) (by norm_num) (by norm_num)).1

/-! ## Matching does not tell digits apart -/

theorem isDigitByte_canon (b : Nat) : isDigitByte (canonByte b) = isDigitByte b := by
  unfold canonByte
  split
  · rename_i h; rw [h]; decide
  · rfl

theorem canonByte_of_not_digit (b : Nat) (h : isDigitByte b = false) : canonByte b = b := by
  simp [canonByte, h]

theorem canonByte_of_digit (b : Nat) (h : isDigitByte b = true) : canonByte b = 48 := by
  simp [canonByte, h]

theorem canonByte_ge (b : Nat) (h : 128 ≤ b) : canonByte b = b := by
  apply canonByte_of_not_digit
  simp only [isDigitByte, Bool.and_eq_false_iff, decide_eq_false_iff_not]
  right; omega

theorem canonByte_lt (b : Nat) (h : b < 128) : canonByte b < 128 := by
  unfold canonByte
  split
  · norm_num
  · exact h

theorem canonByte_facts (b : Nat) :
    (canonByte b < 128 ↔ b < 128) ∧ (∀ lo, 128 ≤ lo → (lo ≤ canonByte b ↔ lo ≤ b)) ∧
    (canonByte b = 10 ↔ b = 10) ∧ isWordByte (canonByte b) = isWordByte b ∧
    isContByte (canonByte b) = isContByte b ∧
    (∀ lo hi, 128 ≤ lo → ((lo ≤ canonByte b ∧ canonByte b ≤ hi) ↔ (lo ≤ b ∧ b ≤ hi))) := by
  by_cases h : isDigitByte b = true
  · have hb : 48 ≤ b ∧ b ≤ 57 := by
      simpa [isDigitByte] using h
    rw [canonByte_of_digit b h]
    refine ⟨by omega, fun lo hlo => by omega, by omega, ?_, ?_, fun lo hi hlo => by omega⟩
    · simp [isWordByte, h]; decide
    · simp only [isContByte]
      have : ¬ (128 ≤ b) := by omega
      simp [this]
  · have h' : isDigitByte b = false := by simpa using h
    rw [canonByte_of_not_digit b h']
    simp

theorem runeWidth_canon (input : List Nat) :
    runeWidth (input.map canonByte) = runeWidth input := by
  match input with
  | [] => rfl
  | [b0] => rfl
  | b0 :: b1 :: rest =>
    obtain ⟨-, -, -, -, c1, r1⟩ := canonByte_facts b1
    by_cases h0 : b0 < 128
    · simp [runeWidth, h0, canonByte_lt b0 h0]
    · have e0 : canonByte b0 = b0 := canonByte_ge b0 (by omega)
      have k1 := r1 (if b0 = 224 then 160 else 128) (if b0 = 237 then 159 else 191)
        (by split <;> norm_num)
      have k2 := r1 (if b0 = 240 then 144 else 128) (if b0 = 244 then 143 else 191)
        (by split <;> norm_num)
      match rest with
      | [] => simp only [List.map_cons, List.map_nil, runeWidth, e0, c1]
      | [b2] =>
        obtain ⟨-, -, -, -, c2, -⟩ := canonByte_facts b2
        simp only [List.map_cons, List.map_nil, runeWidth, e0, c1, c2, and_assoc.symm, k1]
      | b2 :: b3 :: rest2 =>
        obtain ⟨-, -, -, -, c2, -⟩ := canonByte_facts b2
        obtain ⟨-, -, -, -, c3, -⟩ := canonByte_facts b3
        simp only [List.map_cons, runeWidth, e0, c1, c2, c3, and_assoc.symm, k1, k2]

theorem stepClass_canon (c : CharClass) (hc : c.plain = true) (input : List Nat) :
    stepClass c (input.map canonByte) = stepClass c input := by
  cases input with
  | nil => rfl
  | cons b rest =>
    obtain ⟨-, -, e10, ew, -, -⟩ := canonByte_facts b
    have hw := runeWidth_canon (b :: rest)
    simp only [List.map_cons] at hw
    cases c with
    | digit => simp only [List.map_cons, stepClass, isDigitByte_canon]
    | nonDigit => simp only [List.map_cons, stepClass, isDigitByte_canon, hw]
    | word => simp only [List.map_cons, stepClass, ew]
    | anyChar => simp only [List.map_cons, stepClass, e10, hw]
    | byte x =>
      simp only [CharClass.plain, Bool.not_eq_true'] at hc
      simp only [List.map_cons, stepClass]
      by_cases hb : isDigitByte b = true
      · have n1 : canonByte b ≠ x := by
          intro h; rw [← h, isDigitByte_canon, hb] at hc; cases hc
        have n2 : b ≠ x := by
          intro h; rw [← h, hb] at hc; cases hc
        simp [n1, n2]
      · rw [canonByte_of_not_digit b (by simpa using hb)]
    | oneOf xs =>
      simp only [CharClass.plain, List.all_eq_true, Bool.not_eq_true'] at hc
      simp only [List.map_cons, stepClass]
      by_cases hb : isDigitByte b = true
      · have n1 : canonByte b ∉ xs := by
          intro h; have := hc _ h; rw [isDigitByte_canon, hb] at this; cases this
        have n2 : b ∉ xs := by
          intro h; have := hc _ h; rw [hb] at this; cases this
        simp [n1, n2]
      · rw [canonByte_of_not_digit b (by simpa using hb)]

theorem matchRep_canon (c : CharClass) (hc : c.plain = true) (k : List Nat → Option Nat)
    (hk : ∀ inp, k (inp.map canonByte) = k inp) (max : Nat) :
    ∀ (min : Nat) (input : List Nat),
      matchRep c k min max (input.map canonByte) = matchRep c k min max input := by
  induction max with
  | zero => intro min input; simp only [matchRep, hk]
  | succ m ih =>
    intro min input
    simp only [matchRep, stepClass_canon c hc, hk, ← List.map_drop, ih]

theorem matchPattern_canon (p : Pattern) (hp : plainPattern p = true) :
    ∀ input, matchPattern p (input.map canonByte) = matchPattern p input := by
  induction p with
  | nil => intro input; rfl
  | cons it rest ih =>
    intro input
    simp only [plainPattern, List.all_cons, Bool.and_eq_true] at hp
    simp only [matchPattern, List.length_map]
    exact matchRep_canon it.cls hp.1 _ (ih hp.2) _ _ _

theorem findPosFrom_canon (p : Pattern) (hp : plainPattern p = true) (fuel : Nat) :
    ∀ input, findPosFrom p fuel (input.map canonByte) = findPosFrom p fuel input := by
  induction fuel with
  | zero => intro input; rfl
  | succ f ih =>
    intro input
    simp only [findPosFrom, matchPattern_canon p hp, runeWidth_canon, ← List.map_drop, ih]
    cases input <;> rfl

theorem findAllPosFrom_canon (p : Pattern) (hp : plainPattern p = true) (fuel : Nat) :
    ∀ input, findAllPosFrom p fuel (input.map canonByte) = findAllPosFrom p fuel input := by
  induction fuel with
  | zero => intro input; rfl
  | succ f ih =>
    intro input
    simp only [findAllPosFrom, matchPattern_canon p hp, runeWidth_canon, ← List.map_drop, ih]
    cases input <;> rfl

theorem findFrom_eq_slice (p : Pattern) (fuel : Nat) :
    ∀ input, findFrom p fuel input =
      match findPosFrom p fuel input with
      | some r => slice input r
      | none => [] := by
  induction fuel with
  | zero => intro input; rfl
  | succ f ih =>
    intro input
    simp only [findFrom, findPosFrom]
    cases hm : matchPattern p input with
    | some len => simp [slice]
    | none =>
      cases input with
      | nil => rfl
      | cons b rest =>
        simp only [ih]
        cases findPosFrom p f (List.drop (runeWidth (b :: rest)) (b :: rest)) with
        | none => rfl
        | some r => simp only [Option.map_some', slice, List.drop_drop, Nat.add_comm]

theorem findAllFrom_eq_slices (p : Pattern) (fuel : Nat) :
    ∀ input, findAllFrom p fuel input = (findAllPosFrom p fuel input).map (slice input) := by
  induction fuel with
  | zero => intro input; rfl
  | succ f ih =>
    intro input
    have hshift : ∀ (w : Nat) (l : List (Nat × Nat)),
        (l.map (fun r => (r.1 + w, r.2))).map (slice input) = l.map (slice (input.drop w)) := by
      intro w l
      simp only [List.map_map]
      apply List.map_congr_left
      intro r _
      simp only [Function.comp, slice, List.drop_drop, Nat.add_comm]
    simp only [findAllFrom, findAllPosFrom]
    cases hm : matchPattern p input with
    | some len =>
      cases len with
      | zero =>
        cases input with
        | nil => rfl
        | cons b rest => simp only [ih, hshift]
      | succ l =>
        simp only [ih, List.map_cons, hshift]
        simp [slice]
    | none =>
      cases input with
      | nil => rfl
      | cons b rest => simp only [ih, hshift]

/-- `Find` on a text, from the position computed on its template (the text
with every digit replaced by `0`). -/
theorem Find_of_template (p : Pattern) (hp : plainPattern p = true) (input tpl : List Nat)
    (ht : input.map canonByte = tpl) (r : Nat × Nat)
    (h : findPosFrom p (tpl.length + 1) tpl = some r) : Find p input = slice input r := by
  have hl : tpl.length = input.length := by rw [← ht, List.length_map]
  rw [← ht, findPosFrom_canon p hp, List.length_map] at h
  rw [Find, findFrom_eq_slice, h]

/-- `Find` finds nothing when it finds nothing on the template. -/
theorem Find_none_of_template (p : Pattern) (hp : plainPattern p = true)
    (input tpl : List Nat) (ht : input.map canonByte = tpl)
    (h : findPosFrom p (tpl.length + 1) tpl = none) : Find p input = [] := by
  rw [← ht, findPosFrom_canon p hp, List.length_map] at h
  rw [Find, findFrom_eq_slice, h]

/-- `FindAll` on a text, from the positions computed on its template. -/
theorem FindAll_of_template (p : Pattern) (hp : plainPattern p = true) (input tpl : List Nat)
    (ht : input.map canonByte = tpl) (rs : List (Nat × Nat))
    (h : findAllPosFrom p (tpl.length + 1) tpl = rs) :
    FindAll p input = rs.map (slice input) := by
  rw [← ht, findAllPosFrom_canon p hp, List.length_map] at h
  rw [FindAll, findAllFrom_eq_slices, h]

/-! ## txt.Time, the lower tiers -/

theorem digits4_canon (n : Nat) : (digits4 n).map canonByte = [48, 48, 48, 48] := by
  simp only [digits4, List.map_cons, List.map_nil]
  rw [canonByte_of_digit _ (isDigitByte_add _ (Nat.mod_lt _ (by norm_num))),
    canonByte_of_digit _ (isDigitByte_add _ (Nat.mod_lt _ (by norm_num))),
    canonByte_of_digit _ (isDigitByte_add _ (Nat.mod_lt _ (by norm_num))),
    canonByte_of_digit _ (isDigitByte_add _ (Nat.mod_lt _ (by norm_num)))]

theorem digits2_canon (n : Nat) : (digits2 n).map canonByte = [48, 48] := by
  simp only [digits2, List.map_cons, List.map_nil]
  rw [canonByte_of_digit _ (isDigitByte_add _ (Nat.mod_lt _ (by norm_num))),
    canonByte_of_digit _ (isDigitByte_add _ (Nat.mod_lt _ (by norm_num)))]

theorem digitsValue_digits4 (n : Nat) (h : n ≤ 9999) : digitsValue (digits4 n) = n := by
  simp only [digits4, digitsValue, List.foldl_cons, List.foldl_nil]
  omega

theorem digitsValue_digits2 (n : Nat) (h : n < 100) : digitsValue (digits2 n) = n := by
  simp only [digits2, digitsValue, List.foldl_cons, List.foldl_nil]
  omega

theorem digits4_all (n : Nat) : (digits4 n).all isDigitByte = true := by
  simp only [digits4, List.all_cons, List.all_nil, Bool.and_true, Bool.and_eq_true]
  exact ⟨isDigitByte_add _ (Nat.mod_lt _ (by norm_num)),
    isDigitByte_add _ (Nat.mod_lt _ (by norm_num)),
    isDigitByte_add _ (Nat.mod_lt _ (by norm_num)),
    isDigitByte_add _ (Nat.mod_lt _ (by norm_num))⟩

theorem digits2_all (n : Nat) : (digits2 n).all isDigitByte = true := by
  simp only [digits2, List.all_cons, List.all_nil, Bool.and_true, Bool.and_eq_true]
  exact ⟨isDigitByte_add _ (Nat.mod_lt _ (by norm_num)),
    isDigitByte_add _ (Nat.mod_lt _ (by norm_num))⟩

/-- `txt.Int` of a run of digits without a sign is the value of the digits. -/
theorem GoInt_digits (ds : List Nat) (hne : ds ≠ []) (hall : ds.all isDigitByte = true)
    (hsmall : digitsValue ds ≤ 9223372036854775807) :
    txt.GoInt ds = (digitsValue ds : Nat) := by
  obtain ⟨d, rest, rfl⟩ := List.exists_cons_of_ne_nil hne
  have hd : isDigitByte d = true := by
    simp only [List.all_cons, Bool.and_eq_true] at hall
    exact hall.1
  have hd' : 48 ≤ d ∧ d ≤ 57 := by simpa [isDigitByte] using hd
  have h45 : d ≠ 45 := by omega
  have h43 : d ≠ 43 := by omega
  unfold txt.GoInt parseInt64
  simp only [List.head?_cons, Option.some.injEq, h45, h43, or_self, if_false, hall,
    decide_False, Bool.false_eq_true, reduceCtorEq, or_false]
  split
  · rename_i v hv
    split at hv
    · cases hv
    · cases hv; rfl
  · rename_i hv
    split at hv
    · rename_i hc
      omega
    · cases hv

theorem GoInt_digits4 (n : Nat) (h : n ≤ 9999) : txt.GoInt (digits4 n) = n := by
  rw [GoInt_digits _ (by simp [digits4]) (digits4_all n)
    (by rw [digitsValue_digits4 n h]; omega), digitsValue_digits4 n h]

theorem GoInt_digits2 (n : Nat) (h : n < 100) : txt.GoInt (digits2 n) = n := by
  rw [GoInt_digits _ (by simp [digits2]) (digits2_all n)
    (by rw [digitsValue_digits2 n h]; omega), digitsValue_digits2 n h]

/-- `txt.Time` is the cascade of its four tiers. -/
theorem Time_tiers (yearNow : Int) (s : List Nat) :
    txt.Time yearNow s =
      if s.length < 6 then GoTime.zero
      else if (Find DateCanonicalRegexp (withSlash s)).length > 0 then
        canonicalTier (Find DateCanonicalRegexp (withSlash s))
      else if (Find DateTimeRegexp (withSlash s)).length > 0 then
        dateTimeTier yearNow (FindAll DateIntRegexp (Find DateTimeRegexp (withSlash s)))
      else if (Find DateRegexp (withSlash s)).length > 0 then
        dateTier yearNow (FindAll DateIntRegexp (Find DateRegexp (withSlash s)))
      else if (Find DatePathRegexp (withSlash s)).length > 0 then
        datePathTier yearNow (FindAll DateIntRegexp (Find DatePathRegexp (withSlash s)))
      else GoTime.zero := by
  rfl

theorem pathName_withSlash (year month : Nat) :
    withSlash (pathName year month) = 47 :: pathName year month := by
  have e : ascii "Photos/" = [80, 104, 111, 116, 111, 115, 47] := by decide
  simp [withSlash, pathName, e]

theorem pathName_template (year month : Nat) :
    (47 :: pathName year month).map canonByte = ascii "/Photos/0000/00/x.jpg" := by
  have e1 : (ascii "Photos/").map canonByte = ascii "Photos/" := by decide
  have e2 : (ascii "/x.jpg").map canonByte = ascii "/x.jpg" := by decide
  have e3 : canonByte 47 = 47 := by decide
  simp only [pathName, List.map_cons, List.map_append, List.map_nil, digits4_canon,
    digits2_canon, e1, e2, e3]
  decide

theorem pathName_groups (year month : Nat) :
    Find DateCanonicalRegexp (47 :: pathName year month) = [] ∧
    Find DateTimeRegexp (47 :: pathName year month) = [] ∧
    Find DateRegexp (47 :: pathName year month) = [] ∧
    Find DatePathRegexp (47 :: pathName year month) =
      47 :: (digits4 year ++ 47 :: (digits2 month ++ [47])) ∧
    FindAll DateIntRegexp (47 :: (digits4 year ++ 47 :: (digits2 month ++ [47]))) =
      [digits4 year, digits2 month] := by
  refine ⟨?_, ?_, ?_, ?_, ?_⟩
  · exact Find_none_of_template _ (by decide) _ _ (pathName_template year month) (by decide)
  · exact Find_none_of_template _ (by decide) _ _ (pathName_template year month) (by decide)
  · exact Find_none_of_template _ (by decide) _ _ (pathName_template year month) (by decide)
  · rw [Find_of_template _ (by decide) _ _ (pathName_template year month) (7, 9) (by decide)]
    have e : ascii "Photos/" = [80, 104, 111, 116, 111, 115, 47] := by decide
    have e2 : ascii "/x.jpg" = [47, 120, 46, 106, 112, 103] := by decide
    simp [slice, pathName, e, e2, digits4, digits2]
  · have ht : (47 :: (digits4 year ++ 47 :: (digits2 month ++ [47]))).map canonByte =
        ascii "/0000/00/" := by
      have e3 : canonByte 47 = 47 := by decide
      simp only [List.map_cons, List.map_append, List.map_nil, digits4_canon, digits2_canon, e3]
      decide
    rw [FindAll_of_template _ (by decide) _ _ ht [(1, 4), (6, 2)] (by decide)]
    simp [slice, digits4, digits2]

/-- With no match of any of the four patterns the result is the zero time. -/
theorem Time_no_match (yearNow : Int) (s : List Nat)
    (h1 : Find DateCanonicalRegexp (withSlash s) = [])
    (h2 : Find DateTimeRegexp (withSlash s) = [])
    (h3 : Find DateRegexp (withSlash s) = [])
    (h4 : Find DatePathRegexp (withSlash s) = []) : txt.Time yearNow s = GoTime.zero := by
  rw [Time_tiers, h1, h2, h3, h4]
  simp

theorem Time_pathName (yearNow : Int) (year month : Nat) (hY1 : 1990 ≤ year)
    (hY2 : (year : Int) ≤ yearNow + 3) (hY3 : year ≤ 9999) (hM1 : 1 ≤ month)
    (hM2 : month ≤ 12) :
    txt.Time yearNow (pathName year month) = Date year month 1 0 0 0 := by
  obtain ⟨h1, h2, h3, h4, h5⟩ := pathName_groups year month
  have hlen : ¬ (pathName year month).length < 6 := by
    simp [pathName, ascii, digits4, digits2]
  rw [Time_tiers, if_neg hlen, pathName_withSlash, h1, h2, h3, h4, h5]
  simp only [List.length_nil, gt_iff_lt, lt_self_iff_false, if_false, List.length_cons,
    List.length_append, digits4, digits2]
  simp only [datePathTier, List.length_cons, List.length_nil, List.getD_cons_zero,
    List.getD_cons_succ]
  have g4 := GoInt_digits4 year hY3
  have g2 := GoInt_digits2 month (by omega)
  simp only [digits4, digits2] at g4 g2
  rw [g4, g2]
  have c1 : ¬ ((year : Int) < YearMin ∨ (year : Int) > YearMax yearNow ∨
      (month : Int) < MonthMin ∨ (month : Int) > MonthMax) := by
    simp only [YearMin, YearMax, MonthMin, MonthMax]; omega
  simp [c1]

theorem dateName_withSlash (year month day : Nat) :
    withSlash (dateName year month day) = 47 :: dateName year month day := by
  have h : 48 + year / 1000 % 10 ≠ 47 := by omega
  simp [withSlash, dateName, digits4, h]

theorem dateName_template (year month day : Nat) :
    (47 :: dateName year month day).map canonByte = ascii "/0000-00-00" := by
  have e1 : canonByte 47 = 47 := by decide
  have e2 : canonByte 45 = 45 := by decide
  simp only [dateName, List.map_cons, List.map_append, List.map_nil, digits4_canon,
    digits2_canon, e1, e2]
  decide

/-- On `YYYY-MM-DD` the date-only tier decides, with the three groups of digits. -/
theorem Time_dateName (yearNow : Int) (year month day : Nat) :
    txt.Time yearNow (dateName year month day) =
      dateTier yearNow [digits4 year, digits2 month, digits2 day] := by
  have ht := dateName_template year month day
  have h1 : Find DateCanonicalRegexp (47 :: dateName year month day) = [] :=
    Find_none_of_template _ (by decide) _ _ ht (by decide)
  have h2 : Find DateTimeRegexp (47 :: dateName year month day) = [] :=
    Find_none_of_template _ (by decide) _ _ ht (by decide)
  have h3 : Find DateRegexp (47 :: dateName year month day) = 47 :: dateName year month day := by
    rw [Find_of_template _ (by decide) _ _ ht (0, 11) (by decide)]
    simp [slice, dateName, digits4, digits2]
  have h4 : FindAll DateIntRegexp (47 :: dateName year month day) =
      [digits4 year, digits2 month, digits2 day] := by
    rw [FindAll_of_template _ (by decide) _ _ ht [(1, 4), (6, 2), (9, 2)] (by decide)]
    simp [slice, dateName, digits4, digits2]
  have hlen : ¬ (dateName year month day).length < 6 := by
    simp [dateName, digits4, digits2]
  rw [Time_tiers, if_neg hlen, dateName_withSlash, h1, h2, h3, h4]
  simp

theorem stampName_withSlash (year month day hour min sec : Nat) :
    withSlash (stampName year month day hour min sec) =
      47 :: stampName year month day hour min sec := by
  have h : 48 + year / 1000 % 10 ≠ 47 := by omega
  simp [withSlash, stampName, dateName, digits4, h]

theorem stampName_template (year month day hour min sec : Nat) :
    (47 :: stampName year month day hour min sec).map canonByte =
      ascii "/0000-00-00_00-00-00.jpg" := by
  have e1 : canonByte 47 = 47 := by decide
  have e2 : canonByte 45 = 45 := by decide
  have e3 : canonByte 95 = 95 := by decide
  have e4 : (ascii ".jpg").map canonByte = ascii ".jpg" := by decide
  simp only [stampName, dateName, List.map_cons, List.map_append, List.map_nil, digits4_canon,
    digits2_canon, e1, e2, e3, e4]
  decide

/-- On `YYYY-MM-DD_HH-MM-SS.jpg` the date-time tier decides, with the six groups
of digits. -/
theorem Time_stampName (yearNow : Int) (year month day hour min sec : Nat) :
    txt.Time yearNow (stampName year month day hour min sec) =
      dateTimeTier yearNow
        [digits4 year, digits2 month, digits2 day, digits2 hour, digits2 min, digits2 sec] := by
  have ht := stampName_template year month day hour min sec
  have e4 : ascii ".jpg" = [46, 106, 112, 103] := by decide
  have h1 : Find DateCanonicalRegexp (47 :: stampName year month day hour min sec) = [] :=
    Find_none_of_template _ (by decide) _ _ ht (by decide)
  have h2 : Find DateTimeRegexp (47 :: stampName year month day hour min sec) =
      47 :: (dateName year month day ++ [95] ++ digits2 hour ++ [45] ++ digits2 min ++ [45] ++
        digits2 sec) := by
    rw [Find_of_template _ (by decide) _ _ ht (0, 20) (by decide)]
    simp [slice, stampName, dateName, digits4, digits2, e4]
  have h3 : FindAll DateIntRegexp
      (47 :: (dateName year month day ++ [95] ++ digits2 hour ++ [45] ++ digits2 min ++ [45] ++
        digits2 sec)) =
      [digits4 year, digits2 month, digits2 day, digits2 hour, digits2 min, digits2 sec] := by
    have ht2 : (47 :: (dateName year month day ++ [95] ++ digits2 hour ++ [45] ++
        digits2 min ++ [45] ++ digits2 sec)).map canonByte = ascii "/0000-00-00_00-00-00" := by
      have e1 : canonByte 47 = 47 := by decide
      have e2 : canonByte 45 = 45 := by decide
      have e3 : canonByte 95 = 95 := by decide
      simp only [dateName, List.map_cons, List.map_append, List.map_nil, digits4_canon,
        digits2_canon, e1, e2, e3]
      decide
    rw [FindAll_of_template _ (by decide) _ _ ht2
      [(1, 4), (6, 2), (9, 2), (12, 2), (15, 2), (18, 2)] (by decide)]
    simp [slice, dateName, digits4, digits2]
  have hlen : ¬ (stampName year month day hour min sec).length < 6 := by
    simp [stampName, dateName, digits4, digits2]
  rw [Time_tiers, if_neg hlen, stampName_withSlash, h1, h2, h3]
  simp [dateName, digits4, digits2]

theorem dateTier_digits (yearNow : Int) (year month day : Nat) (hY : year ≤ 9999)
    (hM : month < 100) (hD : day < 100) :
    dateTier yearNow [digits4 year, digits2 month, digits2 day] =
      if (year : Int) < 1990 ∨ (year : Int) > yearNow + 3 ∨ (month : Int) < 1 ∨
          (month : Int) > 12 ∨ (day : Int) < 1 ∨ (day : Int) > 31 then GoTime.zero
      else Date year month day 0 0 0 := by
  simp only [dateTier, List.length_cons, List.length_nil, List.getD_cons_zero,
    List.getD_cons_succ, GoInt_digits4 year hY, GoInt_digits2 month hM, GoInt_digits2 day hD,
    YearMin, YearMax, MonthMin, MonthMax, DayMin, DayMax]
  rw [if_neg (by norm_num)]

theorem dateTimeTier_digits (yearNow : Int) (year month day hour min sec : Nat)
    (hY : year ≤ 9999) (hM : month < 100) (hD : day < 100) (hh : hour < 100) (hm : min < 100)
    (hs : sec < 100) :
    dateTimeTier yearNow
        [digits4 year, digits2 month, digits2 day, digits2 hour, digits2 min, digits2 sec] =
      if (year : Int) < 1990 ∨ (year : Int) > yearNow + 3 ∨ (month : Int) < 1 ∨
          (month : Int) > 12 ∨ (day : Int) < 1 ∨ (day : Int) > 31 then GoTime.zero
      else if (hour : Int) < 0 ∨ (hour : Int) > 24 ∨ (min : Int) < 0 ∨ (min : Int) > 59 ∨
          (sec : Int) < 0 ∨ (sec : Int) > 59 then GoTime.zero
      else Date year month day hour min sec := by
  simp only [dateTimeTier, List.length_cons, List.length_nil, List.getD_cons_zero,
    List.getD_cons_succ, GoInt_digits4 year hY, GoInt_digits2 month hM, GoInt_digits2 day hD,
    GoInt_digits2 hour hh, GoInt_digits2 min hm, GoInt_digits2 sec hs,
    YearMin, YearMax, MonthMin, MonthMax, DayMin, DayMax, HourMin, HourMax, MinMin, MinMax,
    SecMin, SecMax]
  rw [if_neg (by norm_num)]

/-- C13: for every four-digit year from 1990 to the current year plus 3 and every
month, `txt.Time` of `Photos/YYYY/MM/x.jpg` is the first day of that month at
00:00:00 UTC (2019-07-01T00:00:00Z, unix second 1561939200, for
`Photos/2019/07/x.jpg`); an input in which none of the four patterns matches,
such as `random_name.jpg`, gives the zero time. -/
theorem Time_date_path (yearNow : Int) :
    (∀ year month : Nat, 1990 ≤ year → (year : Int) ≤ yearNow + 3 → year ≤ 9999 →
      1 ≤ month → month ≤ 12 →
      txt.Time yearNow (pathName year month) = Date year month 1 0 0 0) ∧
    (2016 ≤ yearNow →
      txt.Time yearNow (ascii "Photos/2019/07/x.jpg") = Date 2019 7 1 0 0 0) ∧
    Date 2019 7 1 0 0 0 = { unix := 1561939200, nsec := 0 } ∧
    (∀ s : List Nat, Find DateCanonicalRegexp (withSlash s) = [] →
      Find DateTimeRegexp (withSlash s) = [] → Find DateRegexp (withSlash s) = [] →
      Find DatePathRegexp (withSlash s) = [] → txt.Time yearNow s = GoTime.zero) ∧
    txt.Time yearNow (ascii "random_name.jpg") = GoTime.zero := by
  refine ⟨fun year month h1 h2 h3 h4 h5 => Time_pathName yearNow year month h1 h2 h3 h4 h5,
    ?_, by decide, fun s h1 h2 h3 h4 => Time_no_match yearNow s h1 h2 h3 h4, ?_⟩
  · intro h
    have e : ascii "Photos/2019/07/x.jpg" = pathName 2019 7 := by decide
    rw [e]
    exact Time_pathName yearNow 2019 7 (by norm_num) (by push_cast; omega) (by norm_num)
      (by norm_num) (by norm_num)
  · exact Time_no_match yearNow _ (by decide) (by decide) (by decide) (by decide)

/-- Witness of C13: February 2024, seen from the year 2026. -/
theorem Time_date_path_witness :
    txt.Time 2026 (pathName 2024 2) = Date 2024 2 1 0 0 0 ∧
    txt.Time 2026 (ascii "Photos/2019/07/x.jpg") = Date 2019 7 1 0 0 0 :=
  ⟨(Time_date_path 2026).1 2024 2 (by norm_num) (by norm_num) (by norm_num) (by norm_num)
      (by norm_num),
   (Time_date_path 2026).2.1 (by norm_num)⟩

/-! ## txt.Year and the bounds of the year -/

theorem dateName_template_bare (year month day : Nat) :
    (dateName year month day).map canonByte = ascii "0000-00-00" := by
  have e2 : canonByte 45 = 45 := by decide
  simp only [dateName, List.map_cons, List.map_append, List.map_nil, digits4_canon,
    digits2_canon, e2]
  decide

/-- On `YYYY-MM-DD` the only match of `YearRegexp` is the year, and `txt.Year`
accepts it exactly within the strict bounds. -/
theorem Year_dateName (yearNow : Int) (year month day : Nat) (hY : year ≤ 9999) :
    txt.Year yearNow (dateName year month day) =
      if (1990 : Int) < year ∧ (year : Int) < yearNow + 3 then (year : Int) else 0 := by
  have h : FindAll YearRegexp (dateName year month day) = [digits4 year] := by
    rw [FindAll_of_template _ (by decide) _ _ (dateName_template_bare year month day)
      [(0, 4)] (by decide)]
    simp [slice, dateName, digits4, digits2]
  unfold txt.Year
  rw [h]
  simp only [List.find?_cons, List.find?_nil, GoInt_digits4 year hY, YearMin, YearMax, gt_iff_lt]
  by_cases h1 : (1990 : Int) < year
  · by_cases h2 : (year : Int) < yearNow + 3
    · simp [h1, h2, GoInt_digits4 year hY]
    · simp [h1, h2]
  · simp [h1]

theorem Date_unix (year month day hour min sec : Int) (hm1 : 1 ≤ month) (hm2 : month ≤ 12) :
    (Date year month day hour min sec).unix =
      (365 * (year - 1) + (year - 1) / 4 - (year - 1) / 100 + (year - 1) / 400 +
        daysBefore month + (if isLeap year ∧ month ≥ 3 then 1 else 0) + (day - 1) - 719162) *
        86400 + hour * 3600 + min * 60 + sec := by
  have e1 : (month - 1) / 12 = 0 := by omega
  have e2 : (month - 1) % 12 + 1 = month := by omega
  simp only [Date, e1, e2, add_zero, sub_add_cancel]

theorem daysBefore_nonneg (month : Int) : 0 ≤ daysBefore month := by
  unfold daysBefore
  repeat' split
  all_goals omega

/-- A date in or after 1990 is not the zero time. -/
theorem Date_ne_zero (year month day hour min sec : Int) (hy : 1990 ≤ year) (hm1 : 1 ≤ month)
    (hm2 : month ≤ 12) (hd : 1 ≤ day) (hh : 0 ≤ hour) (hmi : 0 ≤ min) (hs : 0 ≤ sec) :
    Date year month day hour min sec ≠ GoTime.zero := by
  intro h
  have hu := congrArg GoTime.unix h
  rw [Date_unix year month day hour min sec hm1 hm2] at hu
  simp only [GoTime.zero] at hu
  have hb : 0 ≤ daysBefore month := daysBefore_nonneg month
  have hl : (0 : Int) ≤ (if isLeap year ∧ month ≥ 3 then 1 else 0) := by
    split_ifs <;> omega
  generalize daysBefore month = db at hu hb
  generalize (if isLeap year ∧ month ≥ 3 then (1 : Int) else 0) = lp at hu hl
  omega

/-- C16: at each boundary year (1990 and the current year plus 3, written with
four digits) `txt.Time` of `YYYY-06-15` is that day at 00:00:00 UTC, not the
zero time, while `txt.Year` of the same text is 0; for every year strictly
between the boundaries `txt.Time` gives the day and `txt.Year` gives the year. -/
theorem Time_Year_boundaries (yearNow : Int) (h1 : 1987 ≤ yearNow) (h2 : yearNow ≤ 9996) :
    (txt.Time yearNow (dateName 1990 6 15) = Date 1990 6 15 0 0 0 ∧
      Date 1990 6 15 0 0 0 ≠ GoTime.zero ∧ txt.Year yearNow (dateName 1990 6 15) = 0) ∧
    (txt.Time yearNow (dateName (yearNow + 3).toNat 6 15) = Date (yearNow + 3) 6 15 0 0 0 ∧
      Date (yearNow + 3) 6 15 0 0 0 ≠ GoTime.zero ∧
      txt.Year yearNow (dateName (yearNow + 3).toNat 6 15) = 0) ∧
    (∀ year : Nat, 1990 < year → (year : Int) < yearNow + 3 →
      txt.Time yearNow (dateName year 6 15) = Date year 6 15 0 0 0 ∧
      Date year 6 15 0 0 0 ≠ GoTime.zero ∧ txt.Year yearNow (dateName year 6 15) = year) ∧
    dateName 1990 6 15 = ascii "1990-06-15" := by
  have key : ∀ year : Nat, 1990 ≤ year → (year : Int) ≤ yearNow + 3 →
      txt.Time yearNow (dateName year 6 15) = Date year 6 15 0 0 0 := by
    intro year hy1 hy2
    rw [Time_dateName, dateTier_digits yearNow year 6 15 (by omega) (by norm_num) (by norm_num)]
    rw [if_neg (by push_cast; simp only [or_false, not_or]; omega)]
    rfl
  have hcast : (((yearNow + 3).toNat : Nat) : Int) = yearNow + 3 := by omega
  refine ⟨⟨?_, ?_, ?_⟩, ⟨?_, ?_, ?_⟩, ?_, by decide⟩
  · exact key 1990 (by norm_num) (by push_cast; omega)
  · exact Date_ne_zero _ _ _ _ _ _ (by norm_num) (by norm_num) (by norm_num) (by norm_num)
      (by norm_num) (by norm_num) (by norm_num)
  · rw [Year_dateName yearNow 1990 6 15 (by norm_num)]
    simp
  · have := key (yearNow + 3).toNat (by omega) (by omega)
    rw [hcast] at this
    exact this
  · exact Date_ne_zero _ _ _ _ _ _ (by omega) (by norm_num) (by norm_num) (by norm_num)
      (by norm_num) (by norm_num) (by norm_num)
  · rw [Year_dateName yearNow _ 6 15 (by omega), hcast]
    simp
  · intro year hy1 hy2
    refine ⟨key year (by omega) (by omega), ?_, ?_⟩
    · exact Date_ne_zero _ _ _ _ _ _ (by omega) (by norm_num) (by norm_num) (by norm_num)
        (by norm_num) (by norm_num) (by norm_num)
    · rw [Year_dateName yearNow year 6 15 (by omega)]
      simp [hy1, hy2]

/-- Witness of C16: the current year 2026, whose upper boundary is 2029. -/
theorem Time_Year_boundaries_witness :
    txt.Time 2026 (dateName 2029 6 15) = Date 2029 6 15 0 0 0 ∧
    txt.Year 2026 (dateName 2029 6 15) = 0 ∧
    txt.Year 2026 (dateName 2028 6 15) = 2028 :=
  ⟨(Time_Year_boundaries 2026 (by norm_num) (by norm_num)).2.1.1,
   (Time_Year_boundaries 2026 (by norm_num) (by norm_num)).2.1.2.2,
   ((Time_Year_boundaries 2026 (by norm_num) (by norm_num)).2.2.1 2028 (by norm_num)
      (by norm_num)).2.2⟩

/-! ## Dates that are not calendar dates -/

/-- `time.Parse` refuses a day that the month does not have. -/
theorem timeParseCanonical_bad_day (year month day hour min sec : Nat) (hY : year ≤ 9999)
    (hM1 : 1 ≤ month) (hM2 : month ≤ 12) (hD : day < 100)
    (hD2 : daysIn month year < (day : Int)) (hh : hour ≤ 23) (hm : min ≤ 59) (hs : sec ≤ 59) :
    timeParseCanonical
        (digits4 year ++ (digits2 month ++ (digits2 day ++
          95 :: (digits2 hour ++ (digits2 min ++ (digits2 sec ++ [])))))) = none := by
  have hy : digitsValue (digits4 year) = year := digitsValue_digits4 year hY
  have hall : (digits4 year).all isDigitByte = true := digits4_all year
  have htake : (digits4 year ++ (digits2 month ++ (digits2 day ++
      95 :: (digits2 hour ++ (digits2 min ++ (digits2 sec ++ [])))))).take 4 = digits4 year := by
    simp [digits4]
  have hdrop : (digits4 year ++ (digits2 month ++ (digits2 day ++
      95 :: (digits2 hour ++ (digits2 min ++ (digits2 sec ++ [])))))).drop 4 =
      digits2 month ++ (digits2 day ++
        95 :: (digits2 hour ++ (digits2 min ++ (digits2 sec ++ [])))) := by
    simp [digits4]
  have hlen : (digits4 year).length = 4 := rfl
  unfold timeParseCanonical
  simp only [htake, hdrop, hlen, hall, hy]
  rw [getnum_digits2 true month _ (by omega)]
  simp only
  rw [getnum_digits2 true day _ hD]
  simp only
  rw [getnum_digits2 false hour _ (by omega)]
  simp only
  rw [getnum_digits2 true min _ (by omega)]
  simp only
  rw [getnum_digits2 true sec _ (by omega)]
  simp only
  have c1 : ¬ ((month : Int) ≤ 0 ∨ 12 < (month : Int)) := by omega
  have c2 : ¬ ((hour : Int) < 0 ∨ 24 ≤ (hour : Int)) := by omega
  have c3 : ¬ ((min : Int) < 0 ∨ 60 ≤ (min : Int)) := by omega
  have c4 : ¬ ((sec : Int) < 0 ∨ 60 ≤ (sec : Int)) := by omega
  have c5 : ((day : Int) < 1 ∨ (day : Int) > daysIn month year) := Or.inr hD2
  simp only [c1, c2, c3, c4, c5, if_false, if_true, ne_eq, not_true_eq_false]
  rw [if_neg (by simp)]

theorem compactName_withSlash (year month day : Nat) :
    withSlash (compactName year month day) = 47 :: compactName year month day := by
  have h : 48 + year / 1000 % 10 ≠ 47 := by omega
  simp [withSlash, compactName, digits4, h]

theorem compactName_template (year month day : Nat) :
    (47 :: compactName year month day).map canonByte = ascii "/00000000_000000_0.jpg" := by
  have e1 : canonByte 47 = 47 := by decide
  have e2 : (ascii "_000000_1.jpg").map canonByte = ascii "_000000_0.jpg" := by decide
  simp only [compactName, List.map_cons, List.map_append, List.map_nil, digits4_canon,
    digits2_canon, e1, e2]
  decide

/-- On `YYYYMMDD_000000_1.jpg` the canonical tier decides, and `time.Parse` is
given `YYYYMMDD_000000`. -/
theorem Time_compactName (yearNow : Int) (year month day : Nat) :
    txt.Time yearNow (compactName year month day) =
      match timeParseCanonical (digits4 year ++ (digits2 month ++ (digits2 day ++
          95 :: (digits2 0 ++ (digits2 0 ++ (digits2 0 ++ [])))))) with
      | some date => date.roundSecond
      | none => GoTime.zero := by
  have ht := compactName_template year month day
  have e : ascii "_000000_1.jpg" = [95, 48, 48, 48, 48, 48, 48, 95, 49, 46, 106, 112, 103] := by
    decide
  have h1 : Find DateCanonicalRegexp (47 :: compactName year month day) =
      47 :: (digits4 year ++ digits2 month ++ digits2 day ++
        [95, 48, 48, 48, 48, 48, 48, 95, 49, 46]) := by
    rw [Find_of_template _ (by decide) _ _ ht (0, 19) (by decide)]
    simp [slice, compactName, digits4, digits2, e]
  have hlen : ¬ (compactName year month day).length < 6 := by
    simp [compactName, digits4, digits2, e]
  rw [Time_tiers, if_neg hlen, compactName_withSlash, h1, if_pos (by simp)]
  rfl

/-- February 31 is the day 61 days after the end of January: March 2 in a leap
year and March 3 in a common year. -/
theorem Date_february_31 (year : Int) :
    Date year 2 31 0 0 0 = if isLeap year then Date year 3 2 0 0 0 else Date year 3 3 0 0 0 := by
  have d2 : daysBefore 2 = 31 := by decide
  have d3 : daysBefore 3 = 59 := by decide
  have e : ∀ a b : GoTime, a.unix = b.unix → a.nsec = b.nsec → a = b := by
    intro a b h1 h2
    cases a; cases b
    simp only at h1 h2
    rw [h1, h2]
  cases hl : isLeap year
  · simp only [Bool.false_eq_true, if_false]
    apply e
    · rw [Date_unix _ _ _ _ _ _ (by norm_num) (by norm_num),
        Date_unix _ _ _ _ _ _ (by norm_num) (by norm_num), d2, d3, hl]
      simp
      omega
    · rfl
  · simp only [if_true]
    apply e
    · rw [Date_unix _ _ _ _ _ _ (by norm_num) (by norm_num),
        Date_unix _ _ _ _ _ _ (by norm_num) (by norm_num), d2, d3, hl]
      simp
      omega
    · rfl

/-- Hour 24 of a day is hour 0 of the day after it. -/
theorem Date_hour_24 (year month day min sec : Int) :
    Date year month day 24 min sec = Date year month (day + 1) 0 min sec := by
  simp only [Date, GoTime.mk.injEq, and_true]
  ring

/-- C19: for every four-digit year Y in [1990, current year + 3], `txt.Time` of
`Y-02-31` is `time.Date(Y, 2, 31, ...)`, which is March 2 of Y in a leap year
and March 3 otherwise, and not the zero time; a date-time text with hour 24 gives
00:MM:SS of the following day; and the canonical tier gives the zero time for
`Y0231_000000_1.jpg`. -/
theorem Time_normalizes_dates (yearNow : Int) (year : Nat) (h1 : 1990 ≤ year)
    (h2 : (year : Int) ≤ yearNow + 3) (h3 : year ≤ 9999) :
    txt.Time yearNow (dateName year 2 31) = Date year 2 31 0 0 0 ∧
    Date year 2 31 0 0 0 = (if isLeap year then Date year 3 2 0 0 0 else Date year 3 3 0 0 0) ∧
    Date year 2 31 0 0 0 ≠ GoTime.zero ∧
    (∀ month day min sec : Nat, 1 ≤ month → month ≤ 12 → 1 ≤ day → day ≤ 31 → min ≤ 59 →
      sec ≤ 59 →
      txt.Time yearNow (stampName year month day 24 min sec) =
        Date year month (day + 1 : Nat) 0 min sec) ∧
    txt.Time yearNow (compactName year 2 31) = GoTime.zero ∧
    stampName 2020 1 30 24 0 0 = ascii "2020-01-30_24-00-00.jpg" ∧
    Date 2020 1 31 0 0 0 = { unix := 1580428800, nsec := 0 } := by
  refine ⟨?_, Date_february_31 year, ?_, ?_, ?_, by decide, by decide⟩
  · rw [Time_dateName, dateTier_digits yearNow year 2 31 h3 (by norm_num) (by norm_num)]
    rw [if_neg (by simp; omega)]
    rfl
  · exact Date_ne_zero _ _ _ _ _ _ (by omega) (by norm_num) (by norm_num) (by norm_num)
      (by norm_num) (by norm_num) (by norm_num)
  · intro month day min sec hm1 hm2 hd1 hd2 hmi hs
    rw [Time_stampName, dateTimeTier_digits yearNow year month day 24 min sec h3 (by omega)
      (by omega) (by norm_num) (by omega) (by omega)]
    rw [if_neg (by simp; omega),
      if_neg (by simp; omega)]
    have := Date_hour_24 year month day min sec
    push_cast
    exact this
  · rw [Time_compactName, timeParseCanonical_bad_day year 2 31 0 0 0 h3 (by norm_num)
      (by norm_num) (by norm_num) ?_ (by norm_num) (by norm_num) (by norm_num)]
    unfold daysIn
    simp only [Nat.cast_ofNat, if_true]
    split <;> norm_num

/-- Witness of C19: the leap year 2024 with the current year 2026. -/
theorem Time_normalizes_dates_witness :
    txt.Time 2026 (dateName 2024 2 31) = Date (2024 : Nat) 2 31 0 0 0 ∧
    txt.Time 2026 (compactName 2024 2 31) = GoTime.zero :=
  ⟨(Time_normalizes_dates 2026 2024 (by norm_num) (by norm_num) (by norm_num)).1,
   (Time_normalizes_dates 2026 2024 (by norm_num) (by norm_num) (by norm_num)).2.2.2.2.1⟩

/-! ## No fall-through after a failed validation -/

theorem dateTimeTier_rejects (yearNow : Int) (n : List (List Nat))
    (h : n.length ≠ 6 ∨
      txt.GoInt (n.getD 0 []) < YearMin ∨ txt.GoInt (n.getD 0 []) > YearMax yearNow ∨
      txt.GoInt (n.getD 1 []) < MonthMin ∨ txt.GoInt (n.getD 1 []) > MonthMax ∨
      txt.GoInt (n.getD 2 []) < DayMin ∨ txt.GoInt (n.getD 2 []) > DayMax ∨
      txt.GoInt (n.getD 3 []) < HourMin ∨ txt.GoInt (n.getD 3 []) > HourMax ∨
      txt.GoInt (n.getD 4 []) < MinMin ∨ txt.GoInt (n.getD 4 []) > MinMax ∨
      txt.GoInt (n.getD 5 []) < SecMin ∨ txt.GoInt (n.getD 5 []) > SecMax) :
    dateTimeTier yearNow n = GoTime.zero := by
  unfold dateTimeTier
  by_cases h6 : n.length ≠ 6
  · rw [if_pos h6]
  · rw [if_neg h6]
    simp only
    by_cases hd : txt.GoInt (n.getD 0 []) < YearMin ∨ txt.GoInt (n.getD 0 []) > YearMax yearNow ∨
        txt.GoInt (n.getD 1 []) < MonthMin ∨ txt.GoInt (n.getD 1 []) > MonthMax ∨
        txt.GoInt (n.getD 2 []) < DayMin ∨ txt.GoInt (n.getD 2 []) > DayMax
    · rw [if_pos hd]
    · rw [if_neg hd]
      by_cases ht : txt.GoInt (n.getD 3 []) < HourMin ∨ txt.GoInt (n.getD 3 []) > HourMax ∨
          txt.GoInt (n.getD 4 []) < MinMin ∨ txt.GoInt (n.getD 4 []) > MinMax ∨
          txt.GoInt (n.getD 5 []) < SecMin ∨ txt.GoInt (n.getD 5 []) > SecMax
      · rw [if_pos ht]
      · exfalso
        tauto

theorem length_pos_of_ne_nil (l : List Nat) (h : l ≠ []) : l.length > 0 :=
  List.length_pos.mpr h

/-- When the canonical pattern finds nothing and the date-time pattern finds a
text, the date-time tier alone decides the result. -/
theorem Time_dateTime_tier (yearNow : Int) (s : List Nat)
    (hc : Find DateCanonicalRegexp (withSlash s) = [])
    (hd : Find DateTimeRegexp (withSlash s) ≠ []) :
    txt.Time yearNow s =
      if s.length < 6 then GoTime.zero
      else dateTimeTier yearNow (FindAll DateIntRegexp (Find DateTimeRegexp (withSlash s))) := by
  rw [Time_tiers, hc]
  by_cases hl : s.length < 6
  · rw [if_pos hl, if_pos hl]
  · rw [if_neg hl, if_neg hl, if_neg (by simp), if_pos (length_pos_of_ne_nil _ hd)]

/-- C11 (as amended): for every input on which the canonical pattern finds
nothing and the date-time pattern finds a text, if the number of numeric groups
is not six or some field is out of range, `txt.Time` is the zero time; so it is
for `YYYY-MM-DD_HH-MM-SS.jpg` with any field out of range, also when `YYYY-MM-DD`
alone gives a date; `2020-01-30_25-00-00.jpg` gives the zero time, while
`2020-01-30` gives 2020-01-30T00:00:00Z. -/
theorem Time_no_fall_through (yearNow : Int) :
    (∀ s : List Nat, Find DateCanonicalRegexp (withSlash s) = [] →
      Find DateTimeRegexp (withSlash s) ≠ [] →
      ((FindAll DateIntRegexp (Find DateTimeRegexp (withSlash s))).length ≠ 6 ∨
        txt.GoInt ((FindAll DateIntRegexp (Find DateTimeRegexp (withSlash s))).getD 0 []) <
          YearMin ∨
        txt.GoInt ((FindAll DateIntRegexp (Find DateTimeRegexp (withSlash s))).getD 0 []) >
          YearMax yearNow ∨
        txt.GoInt ((FindAll DateIntRegexp (Find DateTimeRegexp (withSlash s))).getD 1 []) <
          MonthMin ∨
        txt.GoInt ((FindAll DateIntRegexp (Find DateTimeRegexp (withSlash s))).getD 1 []) >
          MonthMax ∨
        txt.GoInt ((FindAll DateIntRegexp (Find DateTimeRegexp (withSlash s))).getD 2 []) <
          DayMin ∨
        txt.GoInt ((FindAll DateIntRegexp (Find DateTimeRegexp (withSlash s))).getD 2 []) >
          DayMax ∨
        txt.GoInt ((FindAll DateIntRegexp (Find DateTimeRegexp (withSlash s))).getD 3 []) <
          HourMin ∨
        txt.GoInt ((FindAll DateIntRegexp (Find DateTimeRegexp (withSlash s))).getD 3 []) >
          HourMax ∨
        txt.GoInt ((FindAll DateIntRegexp (Find DateTimeRegexp (withSlash s))).getD 4 []) <
          MinMin ∨
        txt.GoInt ((FindAll DateIntRegexp (Find DateTimeRegexp (withSlash s))).getD 4 []) >
          MinMax ∨
        txt.GoInt ((FindAll DateIntRegexp (Find DateTimeRegexp (withSlash s))).getD 5 []) <
          SecMin ∨
        txt.GoInt ((FindAll DateIntRegexp (Find DateTimeRegexp (withSlash s))).getD 5 []) >
          SecMax) →
      txt.Time yearNow s = GoTime.zero) ∧
    (∀ year month day hour min sec : Nat, year ≤ 9999 → month < 100 → day < 100 →
      hour < 100 → min < 100 → sec < 100 →
      (year < 1990 ∨ (year : Int) > yearNow + 3 ∨ month < 1 ∨ month > 12 ∨ day < 1 ∨
        day > 31 ∨ hour > 24 ∨ min > 59 ∨ sec > 59) →
      txt.Time yearNow (stampName year month day hour min sec) = GoTime.zero) ∧
    txt.Time yearNow (ascii "2020-01-30_25-00-00.jpg") = GoTime.zero ∧
    (2017 ≤ yearNow → txt.Time yearNow (ascii "2020-01-30") = Date 2020 1 30 0 0 0) := by
  refine ⟨?_, ?_, ?_, ?_⟩
  · intro s hc hd hbad
    rw [Time_dateTime_tier yearNow s hc hd, dateTimeTier_rejects yearNow _ hbad]
    simp
  · intro year month day hour min sec hY hM hD hh hm hs hbad
    rw [Time_stampName, dateTimeTier_digits yearNow year month day hour min sec hY hM hD hh hm hs]
    by_cases h1 : (year : Int) < 1990 ∨ (year : Int) > yearNow + 3 ∨ (month : Int) < 1 ∨
        (month : Int) > 12 ∨ (day : Int) < 1 ∨ (day : Int) > 31
    · rw [if_pos h1]
    · rw [if_neg h1, if_pos]
      omega
  · have e : ascii "2020-01-30_25-00-00.jpg" = stampName 2020 1 30 25 0 0 := by decide
    rw [e, Time_stampName, dateTimeTier_digits yearNow 2020 1 30 25 0 0 (by norm_num)
      (by norm_num) (by norm_num) (by norm_num) (by norm_num) (by norm_num)]
    split
    · rfl
    · rw [if_pos (by norm_num)]
  · intro hy
    have e : ascii "2020-01-30" = dateName 2020 1 30 := by decide
    rw [e, Time_dateName, dateTier_digits yearNow 2020 1 30 (by norm_num) (by norm_num)
      (by norm_num)]
    rw [if_neg (by simp; omega)]
    rfl

/-- Witness of C11: `2020-13-30_10-00-00.jpg` (month 13) with the current year
2026. -/
theorem Time_no_fall_through_witness :
    txt.Time 2026 (stampName 2020 13 30 10 0 0) = GoTime.zero ∧
    txt.Time 2026 (ascii "2020-01-30") = Date 2020 1 30 0 0 0 :=
  ⟨(Time_no_fall_through 2026).2.1 2020 13 30 10 0 0 (by norm_num) (by norm_num) (by norm_num)
      (by norm_num) (by norm_num) (by norm_num) (by norm_num),
   (Time_no_fall_through 2026).2.2.2 (by norm_num)⟩

/-- Counterexample to C11 as stated: in
`2020-01-30_25-00-00_raw/20200130_101500_1.jpg` the date-time pattern finds a text
with six numeric groups and hour 25, and the result is not the zero time: the
canonical pattern matches as well and decides. -/
theorem Time_canonical_before_dateTime :
    Find DateTimeRegexp (withSlash (ascii "2020-01-30_25-00-00_raw/20200130_101500_1.jpg")) =
      ascii "/2020-01-30_25-00-00" ∧
    FindAll DateIntRegexp (ascii "/2020-01-30_25-00-00") =
      [ascii "2020", ascii "01", ascii "30", ascii "25", ascii "00", ascii "00"] ∧
    txt.GoInt (ascii "25") > HourMax ∧
    txt.Time 2026 (ascii "2020-01-30_25-00-00_raw/20200130_101500_1.jpg") =
      Date 2020 1 30 10 15 0 ∧
    Date 2020 1 30 10 15 0 ≠ GoTime.zero := by
  decide

/-! ## Range validation in the tiers -/

/-- A text that `time.Parse` accepts has a month in 1..12 and a day in 1..31
at the places of the layout. -/
theorem timeParseCanonical_fields (value : List Nat) (t : GoTime)
    (h : timeParseCanonical value = some t) :
    ∃ month day rest1 rest2, getnum true (value.drop 4) = some (month, rest1) ∧
      getnum true rest1 = some (day, rest2) ∧ 1 ≤ month ∧ month ≤ 12 ∧ 1 ≤ day ∧ day ≤ 31 := by
  have hdays : ∀ m y : Int, daysIn m y ≤ 31 := by
    intro m y
    unfold daysIn
    split
    · split <;> norm_num
    · split <;> norm_num
  unfold timeParseCanonical at h
  simp only at h
  split at h
  · cases h
  · split at h
    · cases h
    · rename_i month v1 hm
      split at h
      · cases h
      · rename_i hmr
        split at h
        · cases h
        · rename_i day v2 hd
          split at h
          · split at h
            · cases h
            · split at h
              · cases h
              · split at h
                · cases h
                · split at h
                  · cases h
                  · split at h
                    · cases h
                    · split at h
                      · cases h
                      · split at h
                        · cases h
                        · split at h
                          · cases h
                          · rename_i hday
                            have := hdays month ↑(digitsValue (List.take 4 value))
                            exact ⟨month, day, v1, _, hm, hd, by omega, by omega, by omega,
                              by omega⟩
          · cases h

theorem ne_nil_of_length_pos (l : List Nat) (h : l.length > 0) : l ≠ [] :=
  List.length_pos.mp h

theorem eq_nil_of_not_length_pos (l : List Nat) (h : ¬ l.length > 0) : l = [] := by
  cases l with
  | nil => rfl
  | cons a t => simp at h

/-- C12 (as amended): every result of `txt.Time` other than the zero time comes
from fields within the bounds, except that the canonical tier does not check the
year. In the canonical tier `time.Parse` has read a month in 1..12 and a day in
1..31; in the date-time tier there are six groups with year in
[1990, current year + 3], month in [1, 12], day in [1, 31], hour in [0, 24],
minute and second in [0, 59]; in the date-only tier three groups with year,
month and day in these bounds; in the date-path tier year and month are in
these bounds and there are two groups, or three with the day in [1, 31]. -/
theorem Time_fields_in_range (yearNow : Int) (s : List Nat)
    (h : txt.Time yearNow s ≠ GoTime.zero) :
    (Find DateCanonicalRegexp (withSlash s) ≠ [] ∧
      ∃ month day rest1 rest2,
        getnum true ((((Find DateCanonicalRegexp (withSlash s)).take 16).drop 1).drop 4) = some (month, rest1) ∧
        getnum true rest1 = some (day, rest2) ∧
        1 ≤ month ∧ month ≤ 12 ∧ 1 ≤ day ∧ day ≤ 31) ∨
    (Find DateCanonicalRegexp (withSlash s) = [] ∧ Find DateTimeRegexp (withSlash s) ≠ [] ∧
      ∃ n, n = FindAll DateIntRegexp (Find DateTimeRegexp (withSlash s)) ∧ n.length = 6 ∧
        YearMin ≤ txt.GoInt (n.getD 0 []) ∧ txt.GoInt (n.getD 0 []) ≤ YearMax yearNow ∧
        MonthMin ≤ txt.GoInt (n.getD 1 []) ∧ txt.GoInt (n.getD 1 []) ≤ MonthMax ∧
        DayMin ≤ txt.GoInt (n.getD 2 []) ∧ txt.GoInt (n.getD 2 []) ≤ DayMax ∧
        HourMin ≤ txt.GoInt (n.getD 3 []) ∧ txt.GoInt (n.getD 3 []) ≤ HourMax ∧
        MinMin ≤ txt.GoInt (n.getD 4 []) ∧ txt.GoInt (n.getD 4 []) ≤ MinMax ∧
        SecMin ≤ txt.GoInt (n.getD 5 []) ∧ txt.GoInt (n.getD 5 []) ≤ SecMax) ∨
    (Find DateCanonicalRegexp (withSlash s) = [] ∧ Find DateTimeRegexp (withSlash s) = [] ∧ Find DateRegexp (withSlash s) ≠ [] ∧
      ∃ n, n = FindAll DateIntRegexp (Find DateRegexp (withSlash s)) ∧ n.length = 3 ∧
        YearMin ≤ txt.GoInt (n.getD 0 []) ∧ txt.GoInt (n.getD 0 []) ≤ YearMax yearNow ∧
        MonthMin ≤ txt.GoInt (n.getD 1 []) ∧ txt.GoInt (n.getD 1 []) ≤ MonthMax ∧
        DayMin ≤ txt.GoInt (n.getD 2 []) ∧ txt.GoInt (n.getD 2 []) ≤ DayMax) ∨
    (Find DateCanonicalRegexp (withSlash s) = [] ∧ Find DateTimeRegexp (withSlash s) = [] ∧ Find DateRegexp (withSlash s) = [] ∧
      Find DatePathRegexp (withSlash s) ≠ [] ∧
      ∃ n, n = FindAll DateIntRegexp (Find DatePathRegexp (withSlash s)) ∧
        YearMin ≤ txt.GoInt (n.getD 0 []) ∧ txt.GoInt (n.getD 0 []) ≤ YearMax yearNow ∧
        MonthMin ≤ txt.GoInt (n.getD 1 []) ∧ txt.GoInt (n.getD 1 []) ≤ MonthMax ∧
        (n.length = 2 ∨ n.length = 3 ∧ DayMin ≤ txt.GoInt (n.getD 2 []) ∧ txt.GoInt (n.getD 2 []) ≤ DayMax)) := by
  rw [Time_tiers] at h
  by_cases hl : s.length < 6
  · rw [if_pos hl] at h
    exact absurd rfl h
  rw [if_neg hl] at h
  by_cases hc : (Find DateCanonicalRegexp (withSlash s)).length > 0
  · rw [if_pos hc] at h
    left
    refine ⟨ne_nil_of_length_pos _ hc, ?_⟩
    unfold canonicalTier at h
    split at h
    · exact absurd rfl h
    · split at h
      · rename_i date hp
        exact timeParseCanonical_fields _ date hp
      · exact absurd rfl h
  rw [if_neg hc] at h
  have hc0 := eq_nil_of_not_length_pos _ hc
  right
  by_cases hdt : (Find DateTimeRegexp (withSlash s)).length > 0
  · rw [if_pos hdt] at h
    left
    refine ⟨hc0, ne_nil_of_length_pos _ hdt, _, rfl, ?_⟩
    unfold dateTimeTier at h
    split at h
    · exact absurd rfl h
    · rename_i h6
      simp only at h
      split at h
      · exact absurd rfl h
      · rename_i hd
        split at h
        · exact absurd rfl h
        · rename_i ht
          simp only [not_or, not_lt, gt_iff_lt] at hd ht
          simp only [ne_eq, not_not] at h6
          exact ⟨h6, hd.1, hd.2.1, hd.2.2.1, hd.2.2.2.1, hd.2.2.2.2.1, hd.2.2.2.2.2,
            ht.1, ht.2.1, ht.2.2.1, ht.2.2.2.1, ht.2.2.2.2.1, ht.2.2.2.2.2⟩
  rw [if_neg hdt] at h
  have hdt0 := eq_nil_of_not_length_pos _ hdt
  right
  by_cases hd : (Find DateRegexp (withSlash s)).length > 0
  · rw [if_pos hd] at h
    left
    refine ⟨hc0, hdt0, ne_nil_of_length_pos _ hd, _, rfl, ?_⟩
    unfold dateTier at h
    split at h
    · exact absurd rfl h
    · rename_i h3
      simp only at h
      split at h
      · exact absurd rfl h
      · rename_i hb
        simp only [not_or, not_lt, gt_iff_lt] at hb
        simp only [ne_eq, not_not] at h3
        exact ⟨h3, hb.1, hb.2.1, hb.2.2.1, hb.2.2.2.1, hb.2.2.2.2.1, hb.2.2.2.2.2⟩
  rw [if_neg hd] at h
  have hd0 := eq_nil_of_not_length_pos _ hd
  right
  by_cases hp : (Find DatePathRegexp (withSlash s)).length > 0
  · rw [if_pos hp] at h
    refine ⟨hc0, hdt0, hd0, ne_nil_of_length_pos _ hp, _, rfl, ?_⟩
    unfold datePathTier at h
    split at h
    · exact absurd rfl h
    · rename_i hn
      simp only at h
      split at h
      · exact absurd rfl h
      · rename_i hb
        simp only [not_or, not_lt, gt_iff_lt] at hb
        refine ⟨hb.1, hb.2.1, hb.2.2.1, hb.2.2.2, ?_⟩
        split at h
        · rename_i h2
          exact Or.inl h2
        · rename_i h2
          split at h
          · rename_i hday
            refine Or.inr ⟨by omega, hday.1, hday.2⟩
          · exact absurd rfl h
  · rw [if_neg hp] at h
    exact absurd rfl h

/-- Witness of C12: `2020-01-30` with the current year 2026, which the
date-only tier reads. -/
theorem Time_fields_in_range_witness :
    txt.Time 2026 (ascii "2020-01-30") ≠ GoTime.zero ∧
    ((Find DateCanonicalRegexp (withSlash (ascii "2020-01-30")) ≠ [] ∧
      ∃ month day rest1 rest2,
        getnum true ((((Find DateCanonicalRegexp (withSlash (ascii "2020-01-30"))).take 16).drop 1).drop 4) = some (month, rest1) ∧
        getnum true rest1 = some (day, rest2) ∧
        1 ≤ month ∧ month ≤ 12 ∧ 1 ≤ day ∧ day ≤ 31) ∨
    (Find DateCanonicalRegexp (withSlash (ascii "2020-01-30")) = [] ∧ Find DateTimeRegexp (withSlash (ascii "2020-01-30")) ≠ [] ∧
      ∃ n, n = FindAll DateIntRegexp (Find DateTimeRegexp (withSlash (ascii "2020-01-30"))) ∧ n.length = 6 ∧
        YearMin ≤ txt.GoInt (n.getD 0 []) ∧ txt.GoInt (n.getD 0 []) ≤ YearMax 2026 ∧
        MonthMin ≤ txt.GoInt (n.getD 1 []) ∧ txt.GoInt (n.getD 1 []) ≤ MonthMax ∧
        DayMin ≤ txt.GoInt (n.getD 2 []) ∧ txt.GoInt (n.getD 2 []) ≤ DayMax ∧
        HourMin ≤ txt.GoInt (n.getD 3 []) ∧ txt.GoInt (n.getD 3 []) ≤ HourMax ∧
        MinMin ≤ txt.GoInt (n.getD 4 []) ∧ txt.GoInt (n.getD 4 []) ≤ MinMax ∧
        SecMin ≤ txt.GoInt (n.getD 5 []) ∧ txt.GoInt (n.getD 5 []) ≤ SecMax) ∨
    (Find DateCanonicalRegexp (withSlash (ascii "2020-01-30")) = [] ∧ Find DateTimeRegexp (withSlash (ascii "2020-01-30")) = [] ∧ Find DateRegexp (withSlash (ascii "2020-01-30")) ≠ [] ∧
      ∃ n, n = FindAll DateIntRegexp (Find DateRegexp (withSlash (ascii "2020-01-30"))) ∧ n.length = 3 ∧
        YearMin ≤ txt.GoInt (n.getD 0 []) ∧ txt.GoInt (n.getD 0 []) ≤ YearMax 2026 ∧
        MonthMin ≤ txt.GoInt (n.getD 1 []) ∧ txt.GoInt (n.getD 1 []) ≤ MonthMax ∧
        DayMin ≤ txt.GoInt (n.getD 2 []) ∧ txt.GoInt (n.getD 2 []) ≤ DayMax) ∨
    (Find DateCanonicalRegexp (withSlash (ascii "2020-01-30")) = [] ∧ Find DateTimeRegexp (withSlash (ascii "2020-01-30")) = [] ∧ Find DateRegexp (withSlash (ascii "2020-01-30")) = [] ∧
      Find DatePathRegexp (withSlash (ascii "2020-01-30")) ≠ [] ∧
      ∃ n, n = FindAll DateIntRegexp (Find DatePathRegexp (withSlash (ascii "2020-01-30"))) ∧
        YearMin ≤ txt.GoInt (n.getD 0 []) ∧ txt.GoInt (n.getD 0 []) ≤ YearMax 2026 ∧
        MonthMin ≤ txt.GoInt (n.getD 1 []) ∧ txt.GoInt (n.getD 1 []) ≤ MonthMax ∧
        (n.length = 2 ∨ n.length = 3 ∧ DayMin ≤ txt.GoInt (n.getD 2 []) ∧ txt.GoInt (n.getD 2 []) ≤ DayMax))) :=
  ⟨by decide, Time_fields_in_range 2026 (ascii "2020-01-30") (by decide)⟩

/-- Counterexample to C12 as stated: in `IMG_19850315_143022_12345.jpg` the
canonical pattern matches, the year 1985 is below 1990, and with the current
year 2026 the result is 1985-03-15T14:30:22Z, not the zero time. -/
theorem Time_canonical_year_unchecked :
    Find DateCanonicalRegexp (withSlash (ascii "IMG_19850315_143022_12345.jpg")) =
      ascii "_19850315_143022_12345." ∧
    txt.GoInt (ascii "1985") < YearMin ∧
    txt.Time 2026 (ascii "IMG_19850315_143022_12345.jpg") = Date 1985 3 15 14 30 22 ∧
    Date 1985 3 15 14 30 22 = { unix := 479745022, nsec := 0 } ∧
    Date 1985 3 15 14 30 22 ≠ GoTime.zero := by
  decide

/-! ## Bounds of a match and totality of txt.Time -/

/-- A rune has at least one byte and no more bytes than the text. -/
theorem runeWidth_bounds (b : Nat) (rest : List Nat) :
    1 ≤ runeWidth (b :: rest) ∧ runeWidth (b :: rest) ≤ (b :: rest).length := by
  match rest with
  | [] => simp [runeWidth]
  | [b1] =>
    simp only [runeWidth, List.length_cons, List.length_nil]
    split_ifs <;> omega
  | [b1, b2] =>
    simp only [runeWidth, List.length_cons, List.length_nil]
    split_ifs <;> omega
  | b1 :: b2 :: b3 :: rest1 =>
    simp only [runeWidth, List.length_cons]
    split_ifs <;> omega

theorem stepClass_bounds (c : CharClass) (input : List Nat) (w : Nat)
    (h : stepClass c input = some w) : 1 ≤ w ∧ w ≤ input.length := by
  cases input with
  | nil => simp [stepClass] at h
  | cons b rest =>
    have h1 := runeWidth_bounds b rest
    cases c <;> simp only [stepClass] at h <;> split at h <;> cases h <;>
      first
        | exact h1
        | simp

/-- A repetition followed by a rest that takes at least `m` bytes takes at
least `min + m` bytes, and no more than there are. -/
theorem matchRep_bounds (c : CharClass) (k : List Nat → Option Nat) (m : Nat)
    (hk : ∀ inp r, k inp = some r → m ≤ r ∧ r ≤ inp.length) :
    ∀ (max min : Nat) (input : List Nat) (r : Nat),
      matchRep c k min max input = some r → min + m ≤ r ∧ r ≤ input.length := by
  intro max
  induction max with
  | zero =>
    intro min input r h
    simp only [matchRep] at h
    split at h
    · rename_i h0
      have := hk input r h
      omega
    · cases h
  | succ max ih =>
    intro min input r h
    simp only [matchRep] at h
    have stop : (if min = 0 then k input else none) = some r →
        min + m ≤ r ∧ r ≤ input.length := by
      intro h
      split at h
      · have := hk input r h
        omega
      · cases h
    split at h
    · rename_i w hw
      have hb := stepClass_bounds c input w hw
      split at h
      · rename_i r1 hr
        cases h
        have := ih (min - 1) (input.drop w) r1 hr
        simp only [List.length_drop] at this
        omega
      · exact stop h
    · exact stop h

theorem matchPattern_bounds (p : Pattern) :
    ∀ (input : List Nat) (r : Nat), matchPattern p input = some r →
      minLen p ≤ r ∧ r ≤ input.length := by
  induction p with
  | nil =>
    intro input r h
    simp only [matchPattern] at h
    cases h
    simp [minLen]
  | cons it rest ih =>
    intro input r h
    simp only [matchPattern] at h
    have := matchRep_bounds it.cls (fun inp => matchPattern rest inp) (minLen rest) ih _ _ _ _ h
    simp only [minLen, List.map_cons, List.sum_cons] at this ⊢
    exact this

/-- A text found by a pattern has at least the least number of bytes of the
pattern. -/
theorem findFrom_length (p : Pattern) :
    ∀ (fuel : Nat) (input : List Nat),
      findFrom p fuel input = [] ∨ minLen p ≤ (findFrom p fuel input).length := by
  intro fuel
  induction fuel with
  | zero => intro input; left; rfl
  | succ fuel ih =>
    intro input
    simp only [findFrom]
    split
    · rename_i len hlen
      have := matchPattern_bounds p input len hlen
      right
      rw [List.length_take]
      omega
    · split
      · left; rfl
      · exact ih _

theorem Find_length (p : Pattern) (b : List Nat) :
    Find p b = [] ∨ minLen p ≤ (Find p b).length :=
  findFrom_length p _ b

theorem getElem_of_length_eq (n : List (List Nat)) (i k : Nat) (h : n.length = k) (hi : i < k) :
    n[i]? = some (n.getD i []) := by
  rw [List.getD_eq_getElem?_getD, List.getElem?_eq_getElem (by omega)]
  rfl

/-- With every slice and index checked, `txt.Time` never panics. -/
theorem Time_checked (yearNow : Int) (s : List Nat) :
    txt.TimeChecked yearNow s = some (txt.Time yearNow s) := by
  unfold txt.TimeChecked txt.Time
  simp only []
  generalize (if s.head? = some 47 then s else 47 :: s) = b
  by_cases hl : s.length < 6
  · rw [if_pos hl, if_pos hl]
  rw [if_neg hl, if_neg hl]
  by_cases hc : (Find DateCanonicalRegexp b).length > 0
  · rw [if_pos hc, if_pos hc]
    have h19 : ¬ (Find DateCanonicalRegexp b).length < 16 := by
      have hm : minLen DateCanonicalRegexp = 19 := by decide
      rcases Find_length DateCanonicalRegexp b with h | h
      · rw [h] at hc
        simp at hc
      · omega
    rw [if_neg h19, if_neg h19]
    generalize timeParseCanonical (List.drop 1 (List.take 16 (Find DateCanonicalRegexp b))) = o
    cases o <;> rfl
  rw [if_neg hc, if_neg hc]
  by_cases hdt : (Find DateTimeRegexp b).length > 0
  · rw [if_pos hdt, if_pos hdt]
    by_cases h6 : (FindAll DateIntRegexp (Find DateTimeRegexp b)).length ≠ 6
    · rw [if_pos h6, if_pos h6]
    · rw [if_neg h6, if_neg h6]
      simp only [ne_eq, not_not] at h6
      rw [getElem_of_length_eq _ 0 6 h6 (by norm_num), getElem_of_length_eq _ 1 6 h6 (by norm_num),
        getElem_of_length_eq _ 2 6 h6 (by norm_num), getElem_of_length_eq _ 3 6 h6 (by norm_num),
        getElem_of_length_eq _ 4 6 h6 (by norm_num), getElem_of_length_eq _ 5 6 h6 (by norm_num)]
      simp only []
      split_ifs <;> rfl
  rw [if_neg hdt, if_neg hdt]
  by_cases hd : (Find DateRegexp b).length > 0
  · rw [if_pos hd, if_pos hd]
    by_cases h3 : (FindAll DateIntRegexp (Find DateRegexp b)).length ≠ 3
    · rw [if_pos h3, if_pos h3]
    · rw [if_neg h3, if_neg h3]
      simp only [ne_eq, not_not] at h3
      rw [getElem_of_length_eq _ 0 3 h3 (by norm_num), getElem_of_length_eq _ 1 3 h3 (by norm_num),
        getElem_of_length_eq _ 2 3 h3 (by norm_num)]
      simp only []
      split_ifs <;> rfl
  rw [if_neg hd, if_neg hd]
  by_cases hp : (Find DatePathRegexp b).length > 0
  · rw [if_pos hp, if_pos hp]
    by_cases hn : (FindAll DateIntRegexp (Find DatePathRegexp b)).length < 2 ∨
        (FindAll DateIntRegexp (Find DatePathRegexp b)).length > 3
    · rw [if_pos hn, if_pos hn]
    · rw [if_neg hn, if_neg hn]
      have h2 : 2 ≤ (FindAll DateIntRegexp (Find DatePathRegexp b)).length := by omega
      rw [getElem_of_length_eq _ 0 _ rfl (by omega), getElem_of_length_eq _ 1 _ rfl (by omega)]
      simp only []
      by_cases hb : txt.GoInt ((FindAll DateIntRegexp (Find DatePathRegexp b)).getD 0 []) <
            YearMin ∨
          txt.GoInt ((FindAll DateIntRegexp (Find DatePathRegexp b)).getD 0 []) >
            YearMax yearNow ∨
          txt.GoInt ((FindAll DateIntRegexp (Find DatePathRegexp b)).getD 1 []) < MonthMin ∨
          txt.GoInt ((FindAll DateIntRegexp (Find DatePathRegexp b)).getD 1 []) > MonthMax
      · rw [if_pos hb, if_pos hb]
      · rw [if_neg hb, if_neg hb]
        by_cases h22 : (FindAll DateIntRegexp (Find DatePathRegexp b)).length = 2
        · rw [if_pos h22, if_pos h22]
        · rw [if_neg h22, if_neg h22]
          rw [getElem_of_length_eq _ 2 _ rfl (by omega)]
          simp only []
          split_ifs <;> rfl
  · rw [if_neg hp, if_neg hp]

/-- C14: for every input, bytes of any kind, a text found by the canonical
pattern has at least 19 bytes, so the slice `found[1:16]` lies within it, and
`txt.Time` with every slice and index checked never panics: it returns the
result of `txt.Time`. A name that starts with a two-byte rune gives the zero
time. -/
theorem Time_total (yearNow : Int) (s : List Nat) :
    (Find DateCanonicalRegexp (withSlash s) = [] ∨
      19 ≤ (Find DateCanonicalRegexp (withSlash s)).length) ∧
    txt.TimeChecked yearNow s = some (txt.Time yearNow s) ∧
    txt.TimeChecked yearNow ([195, 169] ++ ascii "20120727_093920_97425909.jpg") =
      some GoTime.zero := by
  refine ⟨Find_length DateCanonicalRegexp _, Time_checked yearNow s, ?_⟩
  rw [Time_checked, Time_tiers, if_neg (by decide), if_pos (by decide)]
  decide

/-! ## txt.Year -/

/-- A repetition of digits with nothing after it takes digits only, and no more
than `max` of them. -/
theorem matchRep_digits (max : Nat) :
    ∀ (min : Nat) (input : List Nat) (r : Nat),
      matchRep CharClass.digit (fun _ => some 0) min max input = some r →
        r ≤ max ∧ (input.take r).all isDigitByte = true := by
  induction max with
  | zero =>
    intro min input r h
    simp only [matchRep] at h
    split at h
    · cases h
      simp
    · cases h
  | succ max ih =>
    intro min input r h
    simp only [matchRep] at h
    have stop : (if min = 0 then (some 0 : Option Nat) else none) = some r →
        r ≤ max + 1 ∧ (input.take r).all isDigitByte = true := by
      intro h
      split at h
      · cases h
        simp
      · cases h
    split at h
    · rename_i w hw
      cases input with
      | nil => simp [stepClass] at hw
      | cons b rest =>
        simp only [stepClass] at hw
        split at hw
        · rename_i hb
          cases hw
          split at h
          · rename_i r1 hr
            cases h
            have := ih (min - 1) rest r1 hr
            simp only [List.take_succ_cons, List.all_cons, hb, Bool.true_and]
            exact ⟨by omega, this.2⟩
          · exact stop h
        · cases hw
    · exact stop h

theorem matchPattern_year (input : List Nat) (r : Nat)
    (h : matchPattern YearRegexp input = some r) :
    4 ≤ r ∧ r ≤ 5 ∧ (input.take r).length = r ∧ (input.take r).all isDigitByte = true := by
  have hb := matchPattern_bounds YearRegexp input r h
  have hm : minLen YearRegexp = 4 := by decide
  simp only [YearRegexp, matchPattern, Option.getD_some] at h
  have hd := matchRep_digits 5 4 input r h
  rw [List.length_take]
  exact ⟨by omega, hd.1, by omega, hd.2⟩

/-- Every match of `YearRegexp` is a run of four or five digits. -/
theorem findAllFrom_year (fuel : Nat) :
    ∀ input : List Nat, ∀ m ∈ findAllFrom YearRegexp fuel input,
      4 ≤ m.length ∧ m.length ≤ 5 ∧ m.all isDigitByte = true := by
  induction fuel with
  | zero =>
    intro input m hm
    simp [findAllFrom] at hm
  | succ fuel ih =>
    intro input m hm
    simp only [findAllFrom] at hm
    split at hm
    · rename_i len hlen
      obtain ⟨h4, h5, hl, hd⟩ := matchPattern_year input (len + 1) hlen
      rcases List.mem_cons.mp hm with h | h
      · rw [h]
        exact ⟨by omega, by omega, hd⟩
      · exact ih _ m h
    · split at hm
      · simp at hm
      · exact ih _ m hm

theorem find_append_cons (q : List Nat → Bool) (pre : List (List Nat)) (m : List Nat)
    (post : List (List Nat)) (hpre : ∀ x ∈ pre, q x = false) (hm : q m = true) :
    (pre ++ m :: post).find? q = some m := by
  induction pre with
  | nil => simp [List.find?, hm]
  | cons a t ih =>
    have ha := hpre a (List.mem_cons_self a t)
    simp only [List.cons_append, List.find?, ha]
    exact ih (fun x hx => hpre x (List.mem_cons_of_mem a hx))

/-- C15: for every text, `txt.Year` is 0 or lies strictly between 1990 and the
current year plus 3; the matches it reads are runs of four or five digits; it is
the value of the first match whose value lies strictly between the bounds, and 0
when there is none. `vacation-2023-pics` gives 2023 (from the current year 2021
on) and `archive-1987` gives 0. -/
theorem Year_first_match (yearNow : Int) :
    (∀ s : List Nat, txt.Year yearNow s = 0 ∨
      (1990 < txt.Year yearNow s ∧ txt.Year yearNow s < yearNow + 3)) ∧
    (∀ s : List Nat, ∀ m ∈ FindAll YearRegexp s,
      4 ≤ m.length ∧ m.length ≤ 5 ∧ m.all isDigitByte = true) ∧
    (∀ (s : List Nat) (pre : List (List Nat)) (m : List Nat) (post : List (List Nat)),
      FindAll YearRegexp s = pre ++ m :: post →
      (∀ x ∈ pre, ¬ (1990 < txt.GoInt x ∧ txt.GoInt x < yearNow + 3)) →
      1990 < txt.GoInt m → txt.GoInt m < yearNow + 3 →
      txt.Year yearNow s = txt.GoInt m) ∧
    (∀ s : List Nat,
      (∀ x ∈ FindAll YearRegexp s, ¬ (1990 < txt.GoInt x ∧ txt.GoInt x < yearNow + 3)) →
      txt.Year yearNow s = 0) ∧
    (2021 ≤ yearNow → txt.Year yearNow (ascii "vacation-2023-pics") = 2023) ∧
    txt.Year yearNow (ascii "archive-1987") = 0 := by
  refine ⟨?_, ?_, ?_, ?_, ?_, ?_⟩
  · intro s
    unfold txt.Year
    cases hf : (FindAll YearRegexp s).find?
        (fun m => decide (txt.GoInt m > YearMin ∧ txt.GoInt m < YearMax yearNow)) with
    | none => left; rfl
    | some m =>
      right
      have := List.find?_some hf
      simp only [decide_eq_true_eq, YearMin, YearMax, gt_iff_lt] at this
      exact this
  · intro s m hm
    exact findAllFrom_year _ s m hm
  · intro s pre m post hs hpre h1 h2
    unfold txt.Year
    rw [hs, find_append_cons _ pre m post]
    · intro x hx
      have := hpre x hx
      simp only [YearMin, YearMax, gt_iff_lt, decide_eq_false_iff_not]
      exact this
    · simp only [YearMin, YearMax, gt_iff_lt, decide_eq_true_eq]
      exact ⟨h1, h2⟩
  · intro s hall
    unfold txt.Year
    have : (FindAll YearRegexp s).find?
        (fun m => decide (txt.GoInt m > YearMin ∧ txt.GoInt m < YearMax yearNow)) = none := by
      rw [List.find?_eq_none]
      intro x hx
      have := hall x hx
      simp only [YearMin, YearMax, gt_iff_lt, decide_eq_true_eq]
      exact this
    rw [this]
  · intro hy
    have h : FindAll YearRegexp (ascii "vacation-2023-pics") = [ascii "2023"] := by decide
    have g : txt.GoInt (ascii "2023") = 2023 := by decide
    unfold txt.Year
    rw [h]
    simp only [List.find?, g, YearMin, YearMax, gt_iff_lt]
    rw [show decide ((1990 : Int) < 2023 ∧ (2023 : Int) < yearNow + 3) = true from by
      simp only [decide_eq_true_eq]; omega]
    exact g
  · have h : FindAll YearRegexp (ascii "archive-1987") = [ascii "1987"] := by decide
    have g : txt.GoInt (ascii "1987") = 1987 := by decide
    unfold txt.Year
    rw [h]
    simp only [List.find?, g, YearMin, YearMax, gt_iff_lt]
    rw [show decide ((1990 : Int) < 1987 ∧ (1987 : Int) < yearNow + 3) = false from by
      simp only [decide_eq_false_iff_not]; omega]

/-- Witness of C15: `trip-1987-2024` with the current year 2026, where the
first match is below the bounds and the second is read. -/
theorem Year_first_match_witness :
    txt.Year 2026 (ascii "trip-1987-2024") = txt.GoInt (ascii "2024") ∧
    txt.Year 2026 (ascii "vacation-2023-pics") = 2023 :=
  ⟨(Year_first_match 2026).2.2.1 (ascii "trip-1987-2024") [ascii "1987"] (ascii "2024") []
      (by decide) (by decide) (by decide) (by decide),
   (Year_first_match 2026).2.2.2.2.1 (by norm_num)⟩

/-! ## txt.Year on a run of eight digits -/

theorem isDigitByte_bounds (d : Nat) (h : isDigitByte d = true) : 48 ≤ d ∧ d ≤ 57 := by
  simpa [isDigitByte] using h

theorem isContByte_digit (d : Nat) (h : isDigitByte d = true) : isContByte d = false := by
  have := isDigitByte_bounds d h
  simp [isContByte]
  omega

/-- A rune that starts in a run of bytes other than digits ends before the
digit that follows the run. -/
theorem runeWidth_run (a : Nat) (pre rest : List Nat)
    (hrest : rest = [] ∨ ∃ d t, rest = d :: t ∧ isDigitByte d = true) :
    runeWidth (a :: pre ++ rest) ≤ (a :: pre).length := by
  rcases hrest with rfl | ⟨d, t, rfl, hd⟩
  · rw [List.append_nil]
    exact (runeWidth_bounds a pre).2
  · have hb := isDigitByte_bounds d hd
    have hc := isContByte_digit d hd
    match pre, t with
    | [], [] =>
      simp only [List.cons_append, List.nil_append, runeWidth, List.length_cons, List.length_nil,
        hc]
      split_ifs <;> first | omega | contradiction
    | [], [t1] =>
      simp only [List.cons_append, List.nil_append, runeWidth, List.length_cons, List.length_nil,
        hc]
      split_ifs <;> first | omega | contradiction
    | [], t1 :: t2 :: t3 =>
      simp only [List.cons_append, List.nil_append, runeWidth, List.length_cons, List.length_nil,
        hc]
      split_ifs <;> first | omega | contradiction
    | [b1], [] =>
      simp only [List.cons_append, List.nil_append, runeWidth, List.length_cons, List.length_nil,
        hc]
      split_ifs <;> first | omega | contradiction | simp_all
    | [b1], t1 :: t2 =>
      simp only [List.cons_append, List.nil_append, runeWidth, List.length_cons, List.length_nil,
        hc]
      split_ifs <;> first | omega | contradiction | simp_all
    | [b1, b2], _ =>
      simp only [List.cons_append, List.nil_append, runeWidth, List.length_cons, List.length_nil,
        hc]
      split_ifs <;> first | omega | contradiction | simp_all
    | b1 :: b2 :: b3 :: pre1, _ =>
      simp only [List.cons_append, runeWidth, List.length_cons]
      split_ifs <;> omega

/-- `YearRegexp` matches only where four digits stand. -/
theorem matchPattern_year_none (input : List Nat)
    (h : input.length < 4 ∨ (input.take 4).all isDigitByte = false) :
    matchPattern YearRegexp input = none := by
  cases hm : matchPattern YearRegexp input with
  | none => rfl
  | some r =>
    exfalso
    obtain ⟨h4, h5, hl, hd⟩ := matchPattern_year input r hm
    rw [List.length_take] at hl
    rcases h with h | h
    · omega
    · have e : input.take 4 = (input.take r).take 4 := by
        rw [List.take_take, Nat.min_eq_left h4]
      rw [e] at h
      have : ((input.take r).take 4).all isDigitByte = true := by
        rw [List.all_eq_true] at hd ⊢
        intro x hx
        exact hd x (List.mem_of_mem_take hx)
      rw [this] at h
      cases h

theorem matchRep_digit_last (d : Nat) (rest : List Nat) (h : isDigitByte d = true) :
    matchRep CharClass.digit (fun _ => some 0) 0 1 (d :: rest) = some 1 := by
  rw [matchRep]
  simp only [stepClass, h, if_true, List.drop_succ_cons, List.drop_zero, matchRep_done]
  rfl

/-- Five digits at the head are the match of `YearRegexp`. -/
theorem matchPattern_year_five (d1 d2 d3 d4 d5 : Nat) (rest : List Nat)
    (h1 : isDigitByte d1 = true) (h2 : isDigitByte d2 = true) (h3 : isDigitByte d3 = true)
    (h4 : isDigitByte d4 = true) (h5 : isDigitByte d5 = true) :
    matchPattern YearRegexp (d1 :: d2 :: d3 :: d4 :: d5 :: rest) = some 5 := by
  simp only [YearRegexp, matchPattern, Option.getD_some]
  rw [matchRep_digit_step _ 3 4 d1 _ h1, matchRep_digit_step _ 2 3 d2 _ h2,
    matchRep_digit_step _ 1 2 d3 _ h3, matchRep_digit_step _ 0 1 d4 _ h4,
    matchRep_digit_last d5 rest h5]
  rfl

/-- The search passes over a run of bytes other than digits. -/
theorem findAllFrom_year_skip (n : Nat) :
    ∀ (pre rest : List Nat), pre.length ≤ n →
      pre.all (fun b => !isDigitByte b) = true →
      (rest = [] ∨ ∃ d t, rest = d :: t ∧ isDigitByte d = true) →
      ∀ fuel, (pre ++ rest).length < fuel →
        ∃ fuel1, rest.length < fuel1 ∧
          findAllFrom YearRegexp fuel (pre ++ rest) = findAllFrom YearRegexp fuel1 rest := by
  induction n with
  | zero =>
    intro pre rest hn hpre hrest fuel hf
    have : pre = [] := List.length_eq_zero.mp (by omega)
    subst this
    exact ⟨fuel, by simpa using hf, rfl⟩
  | succ n ih =>
    intro pre rest hn hpre hrest fuel hf
    cases pre with
    | nil => exact ⟨fuel, by simpa using hf, rfl⟩
    | cons a pre1 =>
      obtain ⟨f, rfl⟩ : ∃ f, fuel = f + 1 := ⟨fuel - 1, by omega⟩
      have ha : isDigitByte a = false := by
        simp only [List.all_cons, Bool.and_eq_true, Bool.not_eq_true'] at hpre
        exact hpre.1
      have hnone : matchPattern YearRegexp (a :: (pre1 ++ rest)) = none := by
        apply matchPattern_year_none
        by_cases hl : (a :: (pre1 ++ rest)).length < 4
        · exact Or.inl hl
        · right
          simp only [List.take_succ_cons, List.all_cons, ha, Bool.false_and]
      have hw := runeWidth_run a pre1 rest hrest
      have hw1 := (runeWidth_bounds a (pre1 ++ rest)).1
      have step : findAllFrom YearRegexp (f + 1) ((a :: pre1) ++ rest) =
          findAllFrom YearRegexp f
            (((a :: pre1) ++ rest).drop (runeWidth ((a :: pre1) ++ rest))) := by
        simp only [List.cons_append, findAllFrom, hnone]
      rw [step, List.drop_append_of_le_length hw]
      rw [← List.cons_append] at hw1
      apply ih
      · rw [List.length_drop]
        simp only [List.length_cons] at hn ⊢
        omega
      · rw [List.all_eq_true] at hpre ⊢
        intro x hx
        exact hpre x (List.mem_of_mem_drop hx)
      · exact hrest
      · rw [List.length_append, List.length_drop]
        simp only [List.length_cons, List.length_append] at hf hw ⊢
        omega

theorem findAllFrom_hit (p : Pattern) (fuel len : Nat) (input : List Nat)
    (h : matchPattern p input = some (len + 1)) :
    findAllFrom p (fuel + 1) input =
      input.take (len + 1) :: findAllFrom p fuel (input.drop (len + 1)) := by
  simp only [findAllFrom, h]

theorem findAllFrom_year_digit_skip (fuel d : Nat) (rest : List Nat)
    (hd : isDigitByte d = true)
    (h : (d :: rest).length < 4 ∨ ((d :: rest).take 4).all isDigitByte = false) :
    findAllFrom YearRegexp (fuel + 1) (d :: rest) = findAllFrom YearRegexp fuel rest := by
  have hb := isDigitByte_bounds d hd
  simp only [findAllFrom, matchPattern_year_none _ h, runeWidth_ascii d rest (by omega),
    List.drop_succ_cons, List.drop_zero]

/-- In a text whose only digits are one run of eight, the matches of
`YearRegexp` are the first five digits alone. -/
theorem FindAll_year_eight (pre post : List Nat) (d1 d2 d3 d4 d5 d6 d7 d8 : Nat)
    (hpre : pre.all (fun b => !isDigitByte b) = true)
    (hpost : post.all (fun b => !isDigitByte b) = true)
    (h1 : isDigitByte d1 = true) (h2 : isDigitByte d2 = true) (h3 : isDigitByte d3 = true)
    (h4 : isDigitByte d4 = true) (h5 : isDigitByte d5 = true) (h6 : isDigitByte d6 = true)
    (h7 : isDigitByte d7 = true) (h8 : isDigitByte d8 = true) :
    FindAll YearRegexp (pre ++ [d1, d2, d3, d4, d5, d6, d7, d8] ++ post) =
      [[d1, d2, d3, d4, d5]] := by
  unfold FindAll
  rw [List.append_assoc]
  obtain ⟨fuel1, hf1, e1⟩ := findAllFrom_year_skip pre.length pre
    ([d1, d2, d3, d4, d5, d6, d7, d8] ++ post) (le_refl _) hpre
    (Or.inr ⟨d1, _, rfl, h1⟩) _ (Nat.lt_succ_self _)
  rw [e1]
  simp only [List.cons_append, List.nil_append, List.length_cons] at hf1 ⊢
  obtain ⟨f, rfl⟩ : ∃ f, fuel1 = f + 4 := ⟨fuel1 - 4, by omega⟩
  have hshort : ∀ (l : List Nat), l.length ≤ 3 → l.all isDigitByte = true →
      (l ++ post).length < 4 ∨ ((l ++ post).take 4).all isDigitByte = false := by
    intro l hl hall
    cases post with
    | nil => left; simpa using (by omega : l.length < 4)
    | cons p post1 =>
      right
      have hp : isDigitByte p = false := by
        simp only [List.all_cons, Bool.and_eq_true, Bool.not_eq_true'] at hpost
        exact hpost.1
      rw [List.all_eq_false]
      refine ⟨p, ?_, by simp [hp]⟩
      rw [List.take_append_eq_append_take]
      apply List.mem_append_right
      have : 4 - l.length = (3 - l.length) + 1 := by omega
      rw [this, List.take_succ_cons]
      exact List.mem_cons_self _ _
  have s6 := hshort [d6, d7, d8] (by simp) (by simp [h6, h7, h8])
  have s7 := hshort [d7, d8] (by simp) (by simp [h7, h8])
  have s8 := hshort [d8] (by simp) (by simp [h8])
  simp only [List.cons_append, List.nil_append] at s6 s7 s8
  rw [show f + 4 = (f + 3) + 1 from rfl,
    findAllFrom_hit _ _ 4 _ (matchPattern_year_five d1 d2 d3 d4 d5 _ h1 h2 h3 h4 h5)]
  simp only [List.take_succ_cons, List.take_zero, List.drop_succ_cons, List.drop_zero]
  rw [findAllFrom_year_digit_skip (f + 2) d6 _ h6 s6,
    findAllFrom_year_digit_skip (f + 1) d7 _ h7 s7,
    findAllFrom_year_digit_skip f d8 _ h8 s8]
  obtain ⟨fuel2, hf2, e2⟩ := findAllFrom_year_skip post.length post [] (le_refl _) hpost
    (Or.inl rfl) f (by simp only [List.append_nil]; omega)
  rw [List.append_nil] at e2
  rw [e2]
  obtain ⟨g, rfl⟩ : ∃ g, fuel2 = g + 1 := ⟨fuel2 - 1, by simp at hf2; omega⟩
  have hn : matchPattern YearRegexp [] = none := by decide
  simp only [findAllFrom, hn]

/-- C20: in a text whose only digits are one run of exactly eight digits that
does not start with `0`, the matches of `YearRegexp` are the first five digits
alone (the three digits left match nothing), their value is at least 10000, and
`txt.Year` is 0 while the current year plus 3 is at most 10000. -/
theorem Year_eight_digits (yearNow : Int) (hy : yearNow + 3 ≤ 10000) (pre ds post : List Nat)
    (hpre : pre.all (fun b => !isDigitByte b) = true)
    (hpost : post.all (fun b => !isDigitByte b) = true)
    (hds : ds.all isDigitByte = true) (hlen : ds.length = 8) (h0 : ds.head? ≠ some 48) :
    FindAll YearRegexp (pre ++ ds ++ post) = [ds.take 5] ∧
    FindAll YearRegexp (ds.drop 5) = [] ∧
    10000 ≤ txt.GoInt (ds.take 5) ∧
    txt.Year yearNow (pre ++ ds ++ post) = 0 := by
  match ds, hlen with
  | [d1, d2, d3, d4, d5, d6, d7, d8], _ =>
    simp only [List.all_cons, List.all_nil, Bool.and_true, Bool.and_eq_true] at hds
    obtain ⟨h1, h2, h3, h4, h5, h6, h7, h8⟩ := hds
    have b1 := isDigitByte_bounds d1 h1
    have b2 := isDigitByte_bounds d2 h2
    have b3 := isDigitByte_bounds d3 h3
    have b4 := isDigitByte_bounds d4 h4
    have b5 := isDigitByte_bounds d5 h5
    have hne : d1 ≠ 48 := by
      intro h
      apply h0
      rw [h]
      rfl
    have hall : FindAll YearRegexp (pre ++ [d1, d2, d3, d4, d5, d6, d7, d8] ++ post) =
        [[d1, d2, d3, d4, d5]] :=
      FindAll_year_eight pre post d1 d2 d3 d4 d5 d6 d7 d8 hpre hpost h1 h2 h3 h4 h5 h6 h7 h8
    have hval : digitsValue [d1, d2, d3, d4, d5] =
        (d1 - 48) * 10000 + (d2 - 48) * 1000 + (d3 - 48) * 100 + (d4 - 48) * 10 + (d5 - 48) := by
      simp only [digitsValue, List.foldl_cons, List.foldl_nil]
      ring
    have hint : txt.GoInt [d1, d2, d3, d4, d5] = (digitsValue [d1, d2, d3, d4, d5] : Nat) :=
      GoInt_digits _ (by simp) (by simp [h1, h2, h3, h4, h5]) (by rw [hval]; omega)
    have hbig : (10000 : Int) ≤ txt.GoInt [d1, d2, d3, d4, d5] := by
      rw [hint, hval]
      omega
    refine ⟨hall, ?_, hbig, ?_⟩
    · have hshort : matchPattern YearRegexp [] = none := by decide
      have s6 : matchPattern YearRegexp [d6, d7, d8] = none :=
        matchPattern_year_none _ (Or.inl (by simp))
      have s7 : matchPattern YearRegexp [d7, d8] = none :=
        matchPattern_year_none _ (Or.inl (by simp))
      have s8 : matchPattern YearRegexp [d8] = none :=
        matchPattern_year_none _ (Or.inl (by simp))
      have w6 := runeWidth_ascii d6 [d7, d8] (by have := isDigitByte_bounds d6 h6; omega)
      have w7 := runeWidth_ascii d7 [d8] (by have := isDigitByte_bounds d7 h7; omega)
      have w8 := runeWidth_ascii d8 [] (by have := isDigitByte_bounds d8 h8; omega)
      simp only [FindAll, List.drop_succ_cons, List.drop_zero, List.length_cons,
        List.length_nil, findAllFrom, s6, s7, s8, w6, w7, w8, hshort]
    · unfold txt.Year
      rw [hall]
      have hq : decide (txt.GoInt [d1, d2, d3, d4, d5] > YearMin ∧
          txt.GoInt [d1, d2, d3, d4, d5] < YearMax yearNow) = false := by
        simp only [YearMin, YearMax, gt_iff_lt, decide_eq_false_iff_not]
        omega
      simp only [List.find?, hq]

/-- Witness of C20: `IMG_20230115.jpg` with the current year 2026. -/
theorem Year_eight_digits_witness :
    FindAll YearRegexp (ascii "IMG_20230115.jpg") = [ascii "20230"] ∧
    txt.Year 2026 (ascii "IMG_20230115.jpg") = 0 := by
  have h := Year_eight_digits 2026 (by norm_num) (ascii "IMG_") (ascii "20230115") (ascii ".jpg")
    (by decide) (by decide) (by decide) (by decide) (by decide)
  have e : ascii "IMG_" ++ ascii "20230115" ++ ascii ".jpg" = ascii "IMG_20230115.jpg" := by
    decide
  have e5 : (ascii "20230115").take 5 = ascii "20230" := by decide
  rw [e, e5] at h
  exact ⟨h.1, h.2.2.2⟩

/-! ## The early exit -/

theorem toFloat64_le_double (n : Nat) (h : 1 ≤ n) : toFloat64 n ≤ 2 * n := by
  unfold toFloat64
  split
  · omega
  · simp only
    have hp : 2 ^ (Nat.log 2 n - 52) ≤ n :=
      le_trans (Nat.pow_le_pow_right (by norm_num) (Nat.sub_le _ _))
        (Nat.pow_log_le_self 2 (by omega))
    have hq : n / 2 ^ (Nat.log 2 n - 52) * 2 ^ (Nat.log 2 n - 52) ≤ n := Nat.div_mul_le_self _ _
    split
    · rw [Nat.add_mul]
      omega
    · omega

theorem toFloat64_pos (n : Nat) (h : 1 ≤ n) : 1 ≤ toFloat64 n := by
  unfold toFloat64
  split
  · omega
  · simp only
    have hp : 2 ^ (Nat.log 2 n - 52) ≤ n :=
      le_trans (Nat.pow_le_pow_right (by norm_num) (Nat.sub_le _ _))
        (Nat.pow_log_le_self 2 (by omega))
    have hpos : 0 < 2 ^ (Nat.log 2 n - 52) := by positivity
    have hq : 0 < n / 2 ^ (Nat.log 2 n - 52) := Nat.div_pos hp hpos
    split
    · exact Nat.mul_pos (by omega) hpos
    · exact Nat.mul_pos hq hpos

theorem log_two_le_half (n : Nat) (h : 2 ≤ n) : Nat.log 2 n ≤ n / 2 := by
  rw [Nat.log_of_one_lt_of_le (by norm_num) h]
  have : Nat.log 2 (n / 2) < n / 2 := Nat.log_lt_self 2 (by omega)
  omega

/-- The index size is a Go `int`. -/
theorem wrapInt_range (n : Int) : -2 ^ 63 ≤ wrapInt n ∧ wrapInt n < 2 ^ 63 := by
  unfold wrapInt
  omega

/-- A sum inside the range of `int` is not changed by the wrap-around. -/
theorem wrapInt_of_range (n : Int) (h1 : -2 ^ 63 ≤ n) (h2 : n < 2 ^ 63) : wrapInt n = n := by
  unfold wrapInt
  omega

/-- From five items on the threshold, computed through float64 and the library
logarithm, is not above the index size, for every index size of the type `int`. -/
theorem threshold_le (indexSize : Int) (h : 5 ≤ indexSize) (h63 : indexSize < 2 ^ 63) :
    threshold indexSize ≤ indexSize := by
  obtain ⟨n, rfl⟩ : ∃ n : Nat, indexSize = n := ⟨indexSize.toNat, by omega⟩
  have hn : 5 ≤ n := by omega
  have hn63 : n < 2 ^ 63 := by omega
  by_cases h5 : n = 5
  · subst h5
    have h := threshold_exact 5 (by norm_num) (by norm_num)
    have hl : Nat.log 2 5 = 2 := log_two_eq 5 2 (by norm_num) (by norm_num)
    rw [hl] at h
    rw [h]
    norm_num
  · unfold threshold
    rw [if_pos (by omega)]
    simp only [Int.toNat_ofNat]
    have hx1 := toFloat64_pos n (by omega)
    have hx2 := toFloat64_le_double n (by omega)
    have hle := intLog2_le (toFloat64 n) hx1 (by omega)
    have h1 : Nat.log 2 (toFloat64 n) ≤ Nat.log 2 (2 * n) := Nat.log_mono_right hx2
    have h2 : Nat.log 2 (2 * n) = Nat.log 2 n + 1 := by
      rw [Nat.mul_comm, Nat.log_mul_base (by norm_num) (by omega)]
    have h3 := log_two_le_half n (by omega)
    omega

/-- The early exit is taken exactly below three items, for every index size of
the type `int`. -/
theorem threshold_lt_iff (indexSize : Int) (h63 : indexSize < 2 ^ 63) :
    indexSize < threshold indexSize ↔ indexSize < 3 := by
  by_cases hi : indexSize ≤ 4
  · rw [threshold_small indexSize hi]
  · have := threshold_le indexSize (by omega) h63
    constructor
    · intro h; omega
    · intro h; omega

theorem andThen_calls_mono (fl : Flow) (k : State → Flow) (c : Call)
    (hk : ∀ s, c ∈ s.calls → c ∈ (k s).state.calls) (h : c ∈ fl.state.calls) :
    c ∈ (fl.andThen k).state.calls := by
  cases fl with
  | done s => exact hk s h
  | panicked s => exact h

/-- The five passes call the folders query first, whatever happens then. -/
theorem passes_calls_albumFolders (env : Env) (thr : Int) (s : State) :
    Call.albumFolders 1 ∈ (passes env thr s).state.calls := by
  unfold passes
  apply andThen_calls_mono
  · intro s1 h1
    exact (runPass_done_calls _ _ _ (reconcileLabel_calls_mono env) s1).2 _ h1
  apply andThen_calls_mono
  · intro s1 h1
    exact (runPass_done_calls _ _ _ (reconcileState_calls_mono env) s1).2 _ h1
  apply andThen_calls_mono
  · intro s1 h1
    exact (runPass_done_calls _ _ _ (reconcileCountry_calls_mono env) s1).2 _ h1
  apply andThen_calls_mono
  · intro s1 h1
    exact (runPass_done_calls _ _ _ (reconcileMonth_calls_mono env) s1).2 _ h1
  exact (runPass_done_calls _ _ _ (reconcileFolder_calls_mono env) _).1

/-- C18: for every index size of the type `int` (below `2^63`, negative values
included) the index size is below the threshold exactly when it is below 3:
the threshold is 3 up to the index size 4, and from 5 on the threshold, as the
code computes it through float64, and `floor(log2(indexSize)) + 1` are not above
the index size. So with the guard free a run whose index size (the `int` sum of
line 53) is below 3 only reads the counts, and a run whose index size is 3 or
more calls the first dimension query; the index size is the number of photos
and videos whenever that number is below `2^63`. -/
theorem threshold_early_exit (env : Env) (s : State) (indexSize : Int) :
    (indexSize < 2 ^ 63 → (indexSize < threshold indexSize ↔ indexSize < 3)) ∧
    (indexSize ≤ 4 → threshold indexSize = 3) ∧
    (5 ≤ indexSize → indexSize < 2 ^ 63 → threshold indexSize ≤ indexSize) ∧
    (5 ≤ indexSize → ((Nat.log 2 indexSize.toNat : Nat) : Int) + 1 ≤ indexSize) ∧
    (env.indexSize < threshold env.indexSize ↔ env.indexSize < 3) ∧
    (s.busy = false → env.indexSize < 3 →
      (Start env s).2.calls = s.calls ++ [Call.countsRefresh]) ∧
    (s.busy = false → 3 ≤ env.indexSize →
      Call.albumFolders 1 ∈ (Start env s).2.calls) ∧
    (s.busy = false → 3 ≤ env.photos + env.videos → env.photos + env.videos < 2 ^ 63 →
      Call.albumFolders 1 ∈ (Start env s).2.calls) := by
  have hiff : env.indexSize < threshold env.indexSize ↔ env.indexSize < 3 :=
    threshold_lt_iff _ (wrapInt_range _).2
  have hrun : s.busy = false → 3 ≤ env.indexSize →
      Call.albumFolders 1 ∈ (Start env s).2.calls := by
    intro hb hge
    unfold Start body
    have hn : ¬ (env.indexSize < threshold env.indexSize) := by
      rw [hiff]
      omega
    simp only [hb, Bool.false_eq_true, if_false, hn]
    exact passes_calls_albumFolders env _ _
  refine ⟨threshold_lt_iff indexSize, threshold_small indexSize, threshold_le indexSize,
    ?_, hiff, ?_, hrun, ?_⟩
  · intro h
    have := Nat.log_lt_self 2 (show indexSize.toNat ≠ 0 by omega)
    omega
  · intro hb hlt
    unfold Start body
    simp only [hb, Bool.false_eq_true, if_false, hiff.mpr hlt, if_true]
    rfl
  · intro hb hge hlt
    apply hrun hb
    unfold Env.indexSize
    rw [wrapInt_of_range _ (by omega) hlt]
    exact hge

/-- Witness of C18: a catalog of three photos, and a catalog of two items. -/
theorem threshold_early_exit_witness :
    Call.albumFolders 1 ∈ (Start (exampleEnv [] [] [] [] []) State.empty).2.calls ∧
    (Start { exampleEnv [] [] [] [] [] with photos := 1, videos := 1 } State.empty).2.calls =
      [Call.countsRefresh] ∧
    ((1000 : Int) < threshold 1000 ↔ (1000 : Int) < 3) :=
  ⟨(threshold_early_exit (exampleEnv [] [] [] [] []) State.empty 3).2.2.2.2.2.2.1 rfl
      (by decide),
   (threshold_early_exit { exampleEnv [] [] [] [] [] with photos := 1, videos := 1 }
      State.empty 2).2.2.2.2.2.1 rfl (by decide),
   (threshold_early_exit (exampleEnv [] [] [] [] []) State.empty 1000).1 (by norm_num)⟩

/-! ## txt.CountryCode -/

/-- `containsBytes` tells whether the keyword is a substring. -/
theorem containsBytes_iff (s substr : List Nat) :
    containsBytes s substr = true ↔ substr <:+: s := by
  induction s with
  | nil =>
    simp only [containsBytes, List.isEmpty_iff, List.infix_nil]
  | cons b rest ih =>
    simp only [containsBytes, Bool.or_eq_true, ih, List.isPrefixOf_iff_prefix,
      List.infix_cons_iff]

theorem find_pred_of_some {α : Type} (q : α → Bool) (l : List α) (x : α)
    (h : l.find? q = some x) : x ∈ l ∧ q x = true :=
  ⟨List.mem_of_find?_eq_some h, List.find?_some h⟩

/-- C17: `txt.CountryCode` of `zz` is `zz`, with every table and in every order
of visiting it. For every other text, with the normalized form being the text
with `--` replaced by ` / `, `_` and `-` by a space, then lower case, then two
spaces replaced by one: if no keyword of the table is a substring of the
normalized form the result is `zz`; otherwise the result is the code of a
keyword of the table that is a substring of the normalized form, and when only
one entry of the table matches it is the code of that entry. -/
theorem CountryCode_rule (toLower : List Nat → List Nat)
    (Countries : List (List Nat × List Nat)) (s : List Nat) :
    txt.CountryCode toLower Countries (ascii "zz") = ascii "zz" ∧
    ((∀ kc ∈ Countries,
        ¬ kc.1 <:+: collapseDoubleSpaces (toLower (replaceSeparators s))) →
      txt.CountryCode toLower Countries s = ascii "zz") ∧
    (s ≠ ascii "zz" →
      (∃ kc ∈ Countries, kc.1 <:+: collapseDoubleSpaces (toLower (replaceSeparators s))) →
      ∃ kc ∈ Countries, kc.1 <:+: collapseDoubleSpaces (toLower (replaceSeparators s)) ∧
        txt.CountryCode toLower Countries s = kc.2) ∧
    (s ≠ ascii "zz" → ∀ kc ∈ Countries,
      kc.1 <:+: collapseDoubleSpaces (toLower (replaceSeparators s)) →
      (∀ kd ∈ Countries, kd.1 <:+: collapseDoubleSpaces (toLower (replaceSeparators s)) →
        kd = kc) →
      txt.CountryCode toLower Countries s = kc.2) ∧
    replaceSeparators (ascii "a--b_c-d---e") = ascii "a / b c d /  e" ∧
    collapseDoubleSpaces (ascii "a  b   c") = ascii "a b  c" ∧
    txt.CountryCode asciiLower exampleCountries (ascii "2019_Germany--Berlin") = ascii "de" ∧
    txt.CountryCode asciiLower exampleCountries (ascii "2019_Holiday") = ascii "zz" := by
  have hfound : s ≠ ascii "zz" → ∀ kc,
      Countries.find? (fun kc =>
        containsBytes (collapseDoubleSpaces (toLower (replaceSeparators s))) kc.1) = some kc →
      txt.CountryCode toLower Countries s = kc.2 := by
    intro hs kc hf
    unfold txt.CountryCode
    rw [if_neg hs]
    simp only [hf]
  have hsome : (∃ kc ∈ Countries,
        kc.1 <:+: collapseDoubleSpaces (toLower (replaceSeparators s))) →
      ∃ kc, Countries.find? (fun kc =>
        containsBytes (collapseDoubleSpaces (toLower (replaceSeparators s))) kc.1) = some kc := by
    rintro ⟨kc, hmem, hin⟩
    cases hf : Countries.find? (fun kc =>
        containsBytes (collapseDoubleSpaces (toLower (replaceSeparators s))) kc.1) with
    | some x => exact ⟨x, rfl⟩
    | none =>
      exfalso
      rw [List.find?_eq_none] at hf
      exact hf kc hmem ((containsBytes_iff _ _).mpr hin)
  refine ⟨?_, ?_, ?_, ?_, by decide, by decide, by decide, by decide⟩
  · unfold txt.CountryCode
    rw [if_pos rfl]
  · intro hnone
    unfold txt.CountryCode
    split
    · rfl
    · have : Countries.find? (fun kc =>
          containsBytes (collapseDoubleSpaces (toLower (replaceSeparators s))) kc.1) = none := by
        rw [List.find?_eq_none]
        intro kc hmem hc
        exact hnone kc hmem ((containsBytes_iff _ _).mp hc)
      simp only [this]
  · intro hs hex
    obtain ⟨kc, hf⟩ := hsome hex
    obtain ⟨hmem, hq⟩ := find_pred_of_some _ _ _ hf
    exact ⟨kc, hmem, (containsBytes_iff _ _).mp hq, hfound hs kc hf⟩
  · intro hs kc hmem hin honly
    obtain ⟨kd, hf⟩ := hsome ⟨kc, hmem, hin⟩
    obtain ⟨hmem1, hq⟩ := find_pred_of_some _ _ _ hf
    have := honly kd hmem1 ((containsBytes_iff _ _).mp hq)
    rw [← this]
    exact hfound hs kd hf

/-- Witness of C17: `Trip-to-FRANCE` with the table of the examples, where only
the keyword `france` matches. -/
theorem CountryCode_rule_witness :
    txt.CountryCode asciiLower exampleCountries (ascii "Trip-to-FRANCE") = ascii "fr" :=
  (CountryCode_rule asciiLower exampleCountries (ascii "Trip-to-FRANCE")).2.2.2.1 (by decide)
    (ascii "france", ascii "fr") (by decide) (by decide) (by decide)

end photoprism
